import Mathlib

/-!
Verification of the LTM (long-term memory) core: persistent store,
priority scorer, phased eviction engine, and catalog-integrity
checker/repairer.

This file is a shallow embedding of the Python sources
(`server/priority.py`, `server/store.py`, `server/eviction.py`).
Python floats are modelled as rationals (`Rat`), Python ints as `Int`,
Python strings as `String`, the JSON catalogs as typed association
lists, memory/archive files as their raw text (`String`), and the
filesystem directories as association lists from id to file text.
Operations that raise exceptions return `Except`/`Option`; the
swallow-and-continue handlers of the eviction and repair loops are
modelled by the corresponding `match` fallbacks.  Filesystem faults
(a failing copy or unlink inside `fix_integrity`, which the code
catches per item) are modelled by an explicit fault oracle.
-/

namespace LTM

/-! ### Python-style character and string helpers -/

/-- Python `str.isspace` for a single character (`\s` of `re`):
space, tab, newline, carriage return, form feed, vertical tab. -/
def pyIsSpace (c : Char) : Bool :=
  c = ' ' || c = '\t' || c = '\n' || c = '\r' || c = '\x0b' || c = '\x0c'

/-- Strip leading whitespace from a character list (Python `lstrip`). -/
def stripLChars (cs : List Char) : List Char := cs.dropWhile pyIsSpace

/-- Strip trailing whitespace from a character list (Python `rstrip`). -/
def stripRChars (cs : List Char) : List Char :=
  (cs.reverse.dropWhile pyIsSpace).reverse

/-- Python `str.strip()` (no arguments): remove surrounding whitespace. -/
def pyStrip (s : String) : String := ⟨stripRChars (stripLChars s.data)⟩

/-- Python `str.rstrip()`. -/
def pyRStrip (s : String) : String := ⟨stripRChars s.data⟩

/-- Python `str.lower()` (ASCII case is all the sources use). -/
def pyLower (s : String) : String := ⟨s.data.map Char.toLower⟩

/-- Split a char list at every occurrence of one character
(Python `s.split(sep)` for a one-character separator). -/
def splitOnChar (sep : Char) : List Char → List (List Char)
  | [] => [[]]
  | c :: rest =>
    if c = sep then [] :: splitOnChar sep rest
    else
      match splitOnChar sep rest with
      | [] => [[c]]
      | piece :: pieces => (c :: piece) :: pieces

/-- Python `sep in s` (substring containment; `sep` is non-empty at
every call site in the sources). -/
def containsSub (sep : List Char) : List Char → Bool
  | [] => sep.isEmpty
  | c :: rest => sep.isPrefixOf (c :: rest) || containsSub sep rest

/-- Core of Python `s.split(sep)` for a multi-character separator:
split at every non-overlapping occurrence, left to right.  Fuelled by
the list length (each step consumes at least one character), so it
stays structurally recursive. -/
def splitSepAux (sep : List Char) : Nat → List Char → List (List Char)
  | _, [] => [[]]
  | 0, cs => [cs]
  | fuel + 1, c :: rest =>
    if sep.isEmpty = false ∧ sep.isPrefixOf (c :: rest) then
      [] :: splitSepAux sep fuel ((c :: rest).drop sep.length)
    else
      match splitSepAux sep fuel rest with
      | [] => [[c]]
      | piece :: pieces => (c :: piece) :: pieces

/-- Python `s.split(sep)` for a non-empty separator. -/
def pySplit (sep s : String) : List String :=
  (splitSepAux sep.data s.data.length s.data).map (fun cs => (⟨cs⟩ : String))

/-- Python `sep in s` (substring containment, `sep` non-empty). -/
def pyContains (sep s : String) : Bool :=
  containsSub sep.data s.data

/-- Python `s[:n]` on strings (slice of the first `n` code points). -/
def pyTake (n : Nat) (s : String) : String := ⟨s.data.take n⟩

/-- Python `len(s)` (number of code points). -/
def pyLen (s : String) : Nat := s.data.length

/-- Python `"sep".join(parts)`. -/
def pyJoin (sep : String) : List String → String
  | [] => ""
  | [p] => p
  | p :: rest => p ++ sep ++ pyJoin sep rest

/-- `s` contains no newline character. -/
def noNL (s : String) : Prop := '\n' ∉ s.data

instance (s : String) : Decidable (noNL s) := by
  unfold noNL; infer_instance

/-! ### Association-list dictionaries (Python `dict` with unique keys) -/

/-- Lookup (`d.get(k)`), returning the value at the first matching key. -/
def dget {α : Type} (d : List (String × α)) (k : String) : Option α :=
  (d.find? (fun p => p.1 = k)).map (·.2)

/-- Python `d[k] = v`: replace in place if the key is present
(keeping its position, as dict insertion order does), else append. -/
def dset {α : Type} (d : List (String × α)) (k : String) (v : α) :
    List (String × α) :=
  if d.any (fun p => p.1 = k) then
    d.map (fun p => if p.1 = k then (k, v) else p)
  else
    d ++ [(k, v)]

/-- Python `del d[k]` (all occurrences; keys are unique in real states). -/
def ddel {α : Type} (d : List (String × α)) (k : String) :
    List (String × α) :=
  d.filter (fun p => p.1 ≠ k)

/-- Python `k in d`. -/
def dmem {α : Type} (d : List (String × α)) (k : String) : Bool :=
  d.any (fun p => p.1 = k)

/-! ### PriorityCalculator (`server/priority.py`) -/

/-- Python `min(a, b)` on numbers (defined by `≤` so it reduces). -/
def pyMin (a b : Rat) : Rat := if a ≤ b then a else b

/-- Python `max(a, b)` on numbers. -/
def pyMax (a b : Rat) : Rat := if b ≤ a then a else b

/-- Clamp to `[0, 1]`: `max(0.0, min(1.0, x))`. -/
def clamp01 (x : Rat) : Rat := pyMax 0 (pyMin 1 x)

/-- A stats dict as seen by `PriorityCalculator` — both fields may be
absent (`stats.get(..., 0)` supplies the default). -/
structure StatsLike where
  access_count : Option Int
  last_session : Option Int
deriving DecidableEq, Repr

/-- `PriorityCalculator._calculate_recency`:
`1 / (1 + max(0, current_session - last_session))`, `last_session`
defaulting to 0. -/
def calcRecency (stats : StatsLike) (current_session : Int) : Rat :=
  let last_session := stats.last_session.getD 0
  let sessions_since : Int :=
    if current_session - last_session ≤ 0 then 0
    else current_session - last_session
  1 / (1 + (sessions_since : Rat))

/-- `PriorityCalculator._calculate_frequency`:
`min(1, access_count / 10)`, `access_count` defaulting to 0. -/
def calcFrequency (stats : StatsLike) : Rat :=
  pyMin 1 ((stats.access_count.getD 0 : Rat) / 10)

/-- `PriorityCalculator.calculate`: `difficulty*0.4 + recency*0.3 +
frequency*0.3`, clamped to `[0,1]`; `difficulty` defaults to 0.5 when
absent from the metadata dict, `stats` defaults to empty when `None`. -/
def calculate (difficulty : Option Rat) (stats : Option StatsLike)
    (current_session : Int) : Rat :=
  let stats := stats.getD ⟨none, none⟩
  let d := difficulty.getD (1/2)
  let recency := calcRecency stats current_session
  let frequency := calcFrequency stats
  clamp01 (d * (4/10) + recency * (3/10) + frequency * (3/10))

/-- `PriorityCalculator.calculate_difficulty` (both formulas; the token
formula is selected exactly when `session_tokens > 0`). -/
def calculate_difficulty (tool_failures tool_successes : Int)
    (compacted : Bool) (session_tokens : Int := 0)
    (token_normalize_cap : Int := 100000) : Rat :=
  let total := tool_failures + tool_successes
  let failure_rate : Rat :=
    if total = 0 then 0 else (tool_failures : Rat) / (total : Rat)
  let tool_count_norm : Rat :=
    if total = 0 then 0 else pyMin 1 ((total : Rat) / 50)
  let compaction_bonus : Rat := if compacted then 1 else 0
  if session_tokens > 0 then
    let token_usage_norm : Rat :=
      pyMin 1 ((session_tokens : Rat) / (token_normalize_cap : Rat))
    clamp01 (failure_rate * (25/100) + tool_count_norm * (15/100)
      + token_usage_norm * (35/100) + compaction_bonus * (25/100))
  else
    clamp01 (failure_rate * (5/10) + tool_count_norm * (3/10)
      + compaction_bonus * (2/10))

example : calculate_difficulty 5 5 false 0 100000 = 31/100 := by
  with_unfolding_all rfl
example : calculate (some (9/10)) none 3 = 87/200 := by
  with_unfolding_all rfl

/-! ### Memory file format (`store.py`: `_parse_memory_file`,
`_parse_simple_yaml`, `_write_memory_file`) -/

/-- A value of the hand-rolled YAML subset: scalars keep the Python
type produced by `_parse_simple_yaml`'s conversions. -/
inductive YamlValue where
  | str (s : String)
  | bool (b : Bool)
  | int (n : Int)
  | float (q : Rat)
  | list (items : List String)
deriving DecidableEq, Repr

/-- A parsed memory dict (`dict[str, Any]` in the source). -/
abbrev MemoryData := List (String × YamlValue)

/-- `'0' ≤ c ≤ '9'` (ASCII digits as Python `isdigit` sees them here). -/
def pyIsDigit (c : Char) : Bool := '0' ≤ c && c ≤ '9'

/-- Python `s.isdigit()`: non-empty and all digits. -/
def allDigits (cs : List Char) : Bool := !cs.isEmpty && cs.all pyIsDigit

/-- Numeric value of a digit list (most significant first). -/
def natOfDigits (cs : List Char) : Nat :=
  cs.foldl (fun a c => a * 10 + (c.toNat - 48)) 0

/-- Python `int(value)` for strings drawn from digits and `-`
(the only shapes reachable behind the source's digit filter);
`none` models the `ValueError` branch. -/
def pyParseInt (s : String) : Option Int :=
  match s.data with
  | '-' :: ds => if allDigits ds then some (-(natOfDigits ds : Int)) else none
  | ds => if allDigits ds then some ((natOfDigits ds : Int)) else none

/-- Python `float(value)` for strings drawn from digits, `.` and `-`;
`none` models the `ValueError` branch. -/
def pyParseFloat (s : String) : Option Rat :=
  let signed : Int × List Char :=
    match s.data with
    | '-' :: rest => (-1, rest)
    | rest => (1, rest)
  let sign := signed.1
  let cs := signed.2
  match splitOnChar '.' cs with
  | [ip, fp] =>
    if (ip.all pyIsDigit && fp.all pyIsDigit) && (!ip.isEmpty || !fp.isEmpty)
    then
      some ((sign * (natOfDigits ip * 10 ^ fp.length + natOfDigits fp) : Int)
        / ((10 ^ fp.length : Nat) : Rat))
    else none
  | [ip] => if allDigits ip then some ((sign * natOfDigits ip : Int) : Rat)
            else none
  | _ => none

/-- The quote-removal step: `value[1:-1]` when the value both starts
and ends with `"` (a single `"` satisfies both and becomes empty). -/
def stripQuotes (v : String) : String :=
  if v.data.head? = some '"' && v.data.getLast? = some '"' then
    ⟨(v.data.drop 1).dropLast⟩
  else v

/-- `value.replace(".", "").replace("-", "").isdigit()`. -/
def isDigitFiltered (s : String) : Bool :=
  allDigits (s.data.filter (fun c => c ≠ '.' && c ≠ '-'))

/-- The scalar type-conversion block of `_parse_simple_yaml`
(applied after quote removal, to a non-empty value). -/
def convertScalar (value : String) : YamlValue :=
  if pyLower value = "true" || pyLower value = "false" then
    .bool (pyLower value = "true")
  else if isDigitFiltered value then
    if containsSub ['.'] value.data then
      match pyParseFloat value with
      | some q => .float q
      | none => .str value
    else
      match pyParseInt value with
      | some n => .int n
      | none => .str value
  else .str value

/-- Python `line.partition(":")` restricted to what the source uses:
the text before the first `:` and the text after it. -/
def partitionColon : List Char → List Char × List Char
  | [] => ([], [])
  | c :: rest =>
    if c = ':' then ([], rest)
    else
      let p := partitionColon rest
      (c :: p.1, p.2)

/-- Parser state of `_parse_simple_yaml`: the dict built so far and
the key whose list `current_list` points at (when not `None`). -/
structure YState where
  data : MemoryData
  curList : Option String
deriving DecidableEq, Repr

/-- Append an item to the list `current_list` aliases (`data[key]`). -/
def appendToList (d : MemoryData) (k : String) (v : String) : MemoryData :=
  match dget d k with
  | some (.list l) => dset d k (.list (l ++ [v]))
  | _ => d

/-- One line of `_parse_simple_yaml`'s loop. -/
def yamlLine (st : YState) (rawLine : String) : YState :=
  let line := pyRStrip rawLine
  if line = "" || line.data.head? = some '#' then st
  else if (' ' :: ' ' :: '-' :: ' ' :: []).isPrefixOf line.data then
    match st.curList with
    | none => st
    | some k =>
      let v := stripQuotes (pyStrip ⟨line.data.drop 4⟩)
      { st with data := appendToList st.data k v }
  else if containsSub [':'] line.data then
    let p := partitionColon line.data
    let key := pyStrip ⟨p.1⟩
    let value := stripQuotes (pyStrip ⟨p.2⟩)
    if value = "" then
      { data := dset st.data key (.list []), curList := some key }
    else
      { data := dset st.data key (convertScalar value), curList := none }
  else st

/-- `_parse_simple_yaml`: fold the line loop over `text.split("\n")`. -/
def parseSimpleYaml (text : String) : MemoryData :=
  ((splitOnChar '\n' text.data).foldl
    (fun st cs => yamlLine st ⟨cs⟩) ⟨[], none⟩).data

/-- Greedy-with-backtracking `\s*\n`: every way to consume a
whitespace prefix followed by one newline, longest consumption first
(the order the `re` engine tries them in). -/
def msnCands : List Char → List (List Char)
  | [] => []
  | c :: rest =>
    if pyIsSpace c then
      msnCands rest ++ (if c = '\n' then [rest] else [])
    else []

/-- The match the engine commits to when nothing later can fail:
the longest candidate. -/
def msnFirst (cs : List Char) : Option (List Char) := (msnCands cs).head?

/-- The lazy `(.*?)\n---\s*\n` search: the earliest position with a
literal `\n---` whose `\s*\n` then matches; returns the skipped text
(frontmatter) and the remainder (body). -/
def findClose : List Char → Option (List Char × List Char)
  | [] => none
  | c :: rest =>
    match (if ('\n' :: '-' :: '-' :: '-' :: []).isPrefixOf (c :: rest)
           then msnFirst ((c :: rest).drop 4) else none) with
    | some body => some ([], body)
    | none => (findClose rest).map (fun p => (c :: p.1, p.2))

/-- `re.match(r"^---\s*\n(.*?)\n---\s*\n(.*)$", content, re.DOTALL)`:
`none` models "no frontmatter". The open `\s*` candidates are tried
longest first; for each, the lazy close search runs with all its own
backtracking — exactly the engine's order. -/
def splitFrontmatter (s : String) : Option (String × String) :=
  match s.data with
  | '-' :: '-' :: '-' :: rest =>
    (msnCands rest).findSome? (fun cand =>
      (findClose cand).map (fun p =>
        ((⟨p.1⟩ : String), (⟨p.2⟩ : String))))
  | _ => none

/-- `MemoryStore._parse_memory_file` on the file's text. -/
def parseMemoryFile (raw : String) : MemoryData :=
  match splitFrontmatter raw with
  | none => [("content", .str raw)]
  | some (fm, body) =>
    dset (parseSimpleYaml fm) "content" (.str (pyStrip body))

/-! #### Serialization (`_write_memory_file`) -/

/-- One decimal digit character. -/
def digitChar (n : Nat) : Char := Char.ofNat (48 + n % 10)

/-- Little-endian decimal digits of `n` (fuelled so it reduces). -/
def natDigitsAux (den : Nat) : Nat → Nat → List Char
  | 0, _ => []
  | fuel + 1, n =>
    if n < 10 then [digitChar n]
    else digitChar (n % 10) :: natDigitsAux den fuel (n / 10)

/-- Python `str(n)` for a natural number. -/
def natStr (n : Nat) : String := ⟨(natDigitsAux 0 (n + 1) n).reverse⟩

/-- Python `str(n)` for an int. -/
def intStr : Int → String
  | .ofNat n => natStr n
  | .negSucc m => "-" ++ natStr (m + 1)

/-- Least `k` with `den ∣ 10^k` (bounded search; every Python float is
a dyadic rational, whose denominator divides `10^1074`). -/
def findScaleAux (den : Nat) : Nat → Nat → Option Nat
  | 0, _ => none
  | fuel + 1, k =>
    if 10 ^ k % den = 0 then some k else findScaleAux den fuel (k + 1)

/-- Little-endian digits of `scaled`, zero-padded to `k + 1` places. -/
def decimalDigits (scaled k : Nat) : List Char :=
  natDigitsAux 0 (scaled + 1) scaled
    ++ List.replicate
      (k + 1 - (natDigitsAux 0 (scaled + 1) scaled).length) '0'

/-- Python `str(x)` for a float, modelled as the plain decimal
expansion (digits, one dot, optional leading minus).  Faithful in
shape for every value the store itself writes; the `"0.0"` fallback is
unreachable for dyadic rationals. -/
def renderFloat (q : Rat) : String :=
  match findScaleAux q.den 1100 0 with
  | none => "0.0"
  | some k =>
    let padded := decimalDigits (q.num.natAbs * (10 ^ k / q.den)) k
    let fracTrim := (padded.take k).dropWhile (fun c => c = '0')
    let fracDisp := if fracTrim.isEmpty then ['0'] else fracTrim.reverse
    let intTrim := (padded.drop k).reverse.dropWhile (fun c => c = '0')
    let intDisp := if intTrim.isEmpty then ['0'] else intTrim
    (if q.num < 0 then "-" else "") ++ ⟨intDisp⟩ ++ "." ++ ⟨fracDisp⟩

/-- The fixed field order `_write_memory_file` emits. -/
def fieldOrder : List String :=
  ["id", "topic", "tags", "phase", "difficulty", "created_at",
   "created_session"]

/-- The line(s) one field contributes to the frontmatter. -/
def renderField (name : String) (v : YamlValue) : List String :=
  match v with
  | .list items => (name ++ ":") :: items.map (fun it => "  - " ++ it)
  | .str s => [name ++ ": \"" ++ s ++ "\""]
  | .bool b => [name ++ ": " ++ (if b then "True" else "False")]
  | .int n => [name ++ ": " ++ intStr n]
  | .float q => [name ++ ": " ++ renderFloat q]

/-- All frontmatter lines, in `field_order`, for the keys present. -/
def fieldLines (data : MemoryData) : List String :=
  fieldOrder.foldr
    (fun f acc =>
      match dget data f with
      | some v => renderField f v ++ acc
      | none => acc) []

/-- `data.get("content", "")` (always a string in every dict the
store builds or parses). -/
def contentOf (data : MemoryData) : String :=
  match dget data "content" with
  | some (.str s) => s
  | _ => ""

/-- `MemoryStore._write_memory_file`: the exact text written. -/
def serializeMemory (data : MemoryData) : String :=
  pyJoin "\n" (["---"] ++ fieldLines data ++ ["---", ""])
    ++ contentOf data ++ "\n"

/-! ### MemoryStore state and CRUD (`server/store.py`) -/

/-- One `index.json` entry: `{topic, tags, phase, difficulty,
created_at}`. -/
structure IndexEntry where
  topic : String
  tags : List String
  phase : Int
  difficulty : Rat
  created_at : String
deriving DecidableEq, Repr

/-- One `stats.json` entry: `{access_count, accessed_at, last_session,
priority}`. -/
structure StatsEntry where
  access_count : Int
  accessed_at : String
  last_session : Int
  priority : Rat
deriving DecidableEq, Repr

/-- The store's persistent state: the three catalogs and the two file
directories (`memories/{id}.md`, `archives/{id}.md` keep their raw
text).  `session_count` is the field of `state.json` the core reads. -/
structure StoreState where
  index : List (String × IndexEntry)
  stats : List (String × StatsEntry)
  files : List (String × String)
  archives : List (String × String)
  session_count : Int
deriving DecidableEq, Repr

/-- Exceptions the modelled operations raise: `MemoryNotFoundError`,
and the `TypeError` a non-numeric parsed `difficulty` causes inside
the priority computation. -/
inductive StoreErr where
  | notFound
  | typeErr
deriving DecidableEq, Repr

/-- `memory.get("difficulty", 0.5)` as the left operand of `* 0.4`:
numbers and booleans work (Python `bool` is an `int`); strings and
lists raise `TypeError`. -/
def difficultyArg (md : MemoryData) : Except StoreErr (Option Rat) :=
  match dget md "difficulty" with
  | none => .ok none
  | some (.float q) => .ok (some q)
  | some (.int n) => .ok (some (n : Rat))
  | some (.bool b) => .ok (some (if b then 1 else 0))
  | some (.str _) => .error .typeErr
  | some (.list _) => .error .typeErr

/-- One lowercase hex digit. -/
def hexChar (n : Nat) : Char :=
  if n % 16 < 10 then Char.ofNat (48 + n % 16) else Char.ofNat (87 + n % 16)

/-- Eight lowercase hex digits (`sha256(...).hexdigest()[:8]`). -/
def hex8 (h : Nat) : String :=
  ⟨(List.range 8).map (fun i => hexChar (h / 16 ^ (7 - i)))⟩

/-- `MemoryStore._generate_id`; `h` stands for the SHA-256 value of
the uuid-plus-timestamp string. -/
def generateId (h : Nat) : String := "mem_" ++ hex8 h

/-- `MemoryStore.create`.  `idEntropy` supplies `_generate_id`'s hash
input, `now` the `datetime.now(...).isoformat()` string. -/
def MemoryStore.create (s : StoreState) (topic content : String)
    (tags : List String) (difficulty : Rat) (idEntropy : Nat)
    (now : String) : String × StoreState :=
  let memory_id := generateId idEntropy
  let current_session := s.session_count
  let diffClamped := clamp01 difficulty
  let memory_data : MemoryData :=
    [("id", .str memory_id), ("topic", .str topic), ("tags", .list tags),
     ("phase", .int 0), ("difficulty", .float diffClamped),
     ("created_at", .str now), ("created_session", .int current_session),
     ("content", .str content)]
  let files := dset s.files memory_id (serializeMemory memory_data)
  let index := dset s.index memory_id ⟨topic, tags, 0, diffClamped, now⟩
  let prio := calculate (some diffClamped)
    (some ⟨some 0, some current_session⟩) current_session
  let stats := dset s.stats memory_id ⟨0, now, current_session, prio⟩
  (memory_id, { s with files := files, index := index, stats := stats })

/-- `MemoryStore.read`. -/
def MemoryStore.read (s : StoreState) (memory_id : String)
    (update_stats : Bool) (now : String) :
    Except StoreErr (MemoryData × StoreState) :=
  match dget s.files memory_id with
  | none => .error .notFound
  | some raw =>
    let memory_data := parseMemoryFile raw
    if update_stats then
      let current_session := s.session_count
      let ac := (match dget s.stats memory_id with
                 | some st => st.access_count
                 | none => 0) + 1
      match difficultyArg memory_data with
      | .error e => .error e
      | .ok d =>
        let prio := calculate d (some ⟨some ac, some current_session⟩)
          current_session
        let entry : StatsEntry := ⟨ac, now, current_session, prio⟩
        .ok (memory_data, { s with stats := dset s.stats memory_id entry })
    else
      .ok (memory_data, s)

/-- The whitelisted keyword arguments of `MemoryStore.update`. -/
structure UpdateFields where
  content : Option String := none
  tags : Option (List String) := none
  phase : Option Int := none
  difficulty : Option Rat := none
  topic : Option String := none
deriving DecidableEq, Repr

/-- Merge the allowed fields into the parsed dict. -/
def applyFields (md : MemoryData) (f : UpdateFields) : MemoryData :=
  let md := match f.content with
    | some c => dset md "content" (.str c) | none => md
  let md := match f.tags with
    | some t => dset md "tags" (.list t) | none => md
  let md := match f.phase with
    | some p => dset md "phase" (.int p) | none => md
  let md := match f.difficulty with
    | some d => dset md "difficulty" (.float d) | none => md
  match f.topic with
  | some t => dset md "topic" (.str t) | none => md

/-- `MemoryStore.update`: re-read the file, merge the allowed fields,
rewrite the file, and sync the changed scalar fields (and tags) into
the index entry when the id is indexed. -/
def MemoryStore.update (s : StoreState) (memory_id : String)
    (f : UpdateFields) : Except StoreErr StoreState :=
  match dget s.files memory_id with
  | none => .error .notFound
  | some raw =>
    let memory_data := applyFields (parseMemoryFile raw) f
    let files := dset s.files memory_id (serializeMemory memory_data)
    let index :=
      match dget s.index memory_id with
      | none => s.index
      | some e =>
        let e := match f.topic with
          | some t => { e with topic := t } | none => e
        let e := match f.phase with
          | some p => { e with phase := p } | none => e
        let e := match f.difficulty with
          | some d => { e with difficulty := d } | none => e
        let e := match f.tags with
          | some t => { e with tags := t } | none => e
        dset s.index memory_id e
    .ok { s with files := files, index := index }

/-- `MemoryStore.delete`: archive first when asked and no archive
exists yet (re-serializing the parsed record), then drop the file and
both catalog entries. -/
def MemoryStore.delete (s : StoreState) (memory_id : String)
    (archive : Bool) : Except StoreErr StoreState :=
  match dget s.files memory_id with
  | none => .error .notFound
  | some raw =>
    let archives :=
      if archive ∧ dget s.archives memory_id = none then
        dset s.archives memory_id (serializeMemory (parseMemoryFile raw))
      else s.archives
    .ok { s with
      files := ddel s.files memory_id,
      index := ddel s.index memory_id,
      stats := ddel s.stats memory_id,
      archives := archives }

/-- One result row of `MemoryStore.list`. -/
structure Summary where
  id : String
  topic : String
  tags : List String
  phase : Int
  difficulty : Rat
  priority : Rat
  created_at : String
  access_count : Int
  accessed_at : String
deriving DecidableEq, Repr

/-- Build one `list` row: priority is read from stats when the entry
exists, else computed on the fly from the index metadata and an empty
stats dict. -/
def mkSummary (s : StoreState) (current_session : Int)
    (memory_id : String) (e : IndexEntry) : Summary :=
  let mem_stats := dget s.stats memory_id
  let priority :=
    match mem_stats with
    | some st => st.priority
    | none => calculate (some e.difficulty) (some ⟨none, none⟩)
        current_session
  ⟨memory_id, e.topic, e.tags, e.phase, e.difficulty, priority,
   e.created_at,
   (mem_stats.map (·.access_count)).getD 0,
   (mem_stats.map (·.accessed_at)).getD ""⟩

/-- Stable insertion for descending-by-priority order: a new element
goes after every earlier element of greater-or-equal priority
(`results.sort(key=priority, reverse=True)` is a stable sort, and all
stable sorts under one key agree). -/
def insDesc (x : Summary) : List Summary → List Summary
  | [] => [x]
  | y :: ys =>
    if x.priority ≤ y.priority then y :: insDesc x ys else x :: y :: ys

/-- Stable sort, highest priority first. -/
def sortByPriorityDesc (l : List Summary) : List Summary :=
  l.foldl (fun acc x => insDesc x acc) []

/-- Stable insertion for ascending order (`sorted(memories,
key=priority)` in the eviction engine). -/
def insAsc (x : Summary) : List Summary → List Summary
  | [] => [x]
  | y :: ys =>
    if y.priority ≤ x.priority then y :: insAsc x ys else x :: y :: ys

/-- Stable sort, lowest priority first. -/
def sortByPriorityAsc (l : List Summary) : List Summary :=
  l.foldl (fun acc x => insAsc x acc) []

/-- `MemoryStore.list`: scan the index in order, filter, rank, sort by
priority descending (stable), then slice `[offset : offset+limit]`. -/
def MemoryStore.list (s : StoreState) (phase : Option Int)
    (tag : Option String) (keyword : Option String)
    (limit : Nat) (offset : Nat) : List Summary :=
  let current_session := s.session_count
  let results := s.index.filterMap (fun p =>
    let e := p.2
    if (match phase with
        | some ph => decide (e.phase = ph)
        | none => true)
       && (match tag with
           | some t => e.tags.contains t
           | none => true)
       && (match keyword with
           | some k => pyContains (pyLower k) (pyLower e.topic)
           | none => true)
    then some (mkSummary s current_session p.1 e)
    else none)
  ((sortByPriorityDesc results).drop offset).take limit

/-! ### IntegrityChecker (`check_integrity` / `fix_integrity`) -/

/-- The report of `MemoryStore.check_integrity` (directory listings
and dict key sets are duplicate-free, so the set differences are
modelled by filters over the key lists). -/
structure IntegrityReport where
  orphaned_files : List String
  missing_files : List String
  orphaned_stats : List String
  orphaned_archives : List String
  is_healthy : Bool
deriving DecidableEq, Repr

/-- `MemoryStore.check_integrity`. -/
def checkIntegrity (s : StoreState) : IntegrityReport :=
  let indexed_ids := s.index.map Prod.fst
  let stats_ids := s.stats.map Prod.fst
  let file_ids := s.files.map Prod.fst
  let archive_ids := s.archives.map Prod.fst
  let orphaned_files := file_ids.filter (fun i => !indexed_ids.contains i)
  let missing_files := indexed_ids.filter (fun i => !file_ids.contains i)
  let orphaned_stats := stats_ids.filter (fun i => !indexed_ids.contains i)
  let orphaned_archives := archive_ids.filter
    (fun i => !indexed_ids.contains i && !file_ids.contains i)
  ⟨orphaned_files, missing_files, orphaned_stats, orphaned_archives,
   orphaned_files.isEmpty && missing_files.isEmpty
     && orphaned_stats.isEmpty⟩

/-- The action counters `fix_integrity` returns. -/
structure FixResult where
  archived_files : Nat
  removed_files : Nat
  removed_index_entries : Nat
  removed_stats_entries : Nat
  removed_orphaned_archives : Nat
deriving DecidableEq, Repr

/-- Filesystem-fault oracle: which per-item `shutil.copy2` and
`unlink` calls raise (those exceptions are swallowed per item). -/
structure FsOracle where
  copyFails : String → Bool
  unlinkFails : String → Bool

/-- The fault-free filesystem. -/
def okOracle : FsOracle := ⟨fun _ => false, fun _ => false⟩

/-- One iteration of `fix_integrity`'s orphaned-files loop: optionally
copy the raw file into the archive (skip silently if one exists or the
copy fails), then unlink the file (skip silently on failure), counting
only successes. -/
def fixOrphanStep (archive_orphans : Bool) (o : FsOracle)
    (acc : StoreState × FixResult) (memory_id : String) :
    StoreState × FixResult :=
  let s := acc.1
  let r := acc.2
  let afterArchive : StoreState × FixResult :=
    match dget s.files memory_id with
    | some raw =>
      if archive_orphans ∧ dget s.archives memory_id = none then
        if o.copyFails memory_id then (s, r)
        else ({ s with archives := dset s.archives memory_id raw },
              { r with archived_files := r.archived_files + 1 })
      else (s, r)
    | none => (s, r)
  let s := afterArchive.1
  let r := afterArchive.2
  if (dget s.files memory_id).isSome then
    if o.unlinkFails memory_id then (s, r)
    else ({ s with files := ddel s.files memory_id },
          { r with removed_files := r.removed_files + 1 })
  else (s, r)

/-- One iteration of `fix_integrity`'s missing-files loop: drop the
index entry (it is always still present when the loop runs). -/
def fixMissingStep (acc : StoreState × FixResult) (memory_id : String) :
    StoreState × FixResult :=
  if dmem acc.1.index memory_id then
    ({ acc.1 with index := ddel acc.1.index memory_id },
     { acc.2 with removed_index_entries :=
         acc.2.removed_index_entries + 1 })
  else acc

/-- One iteration of `fix_integrity`'s orphaned-stats loop. -/
def fixStatsStep (acc : StoreState × FixResult) (memory_id : String) :
    StoreState × FixResult :=
  if dmem acc.1.stats memory_id then
    ({ acc.1 with stats := ddel acc.1.stats memory_id },
     { acc.2 with removed_stats_entries :=
         acc.2.removed_stats_entries + 1 })
  else acc

/-- One iteration of the optional orphaned-archives cleanup loop
(unlink failures are swallowed per item). -/
def fixArchiveStep (o : FsOracle) (acc : StoreState × FixResult)
    (memory_id : String) : StoreState × FixResult :=
  if (dget acc.1.archives memory_id).isSome then
    if o.unlinkFails memory_id then acc
    else ({ acc.1 with archives := ddel acc.1.archives memory_id },
          { acc.2 with removed_orphaned_archives :=
              acc.2.removed_orphaned_archives + 1 })
  else acc

/-- `MemoryStore.fix_integrity`. -/
def fixIntegrity (s : StoreState) (o : FsOracle)
    (archive_orphans : Bool) (clean_orphaned_archives : Bool) :
    StoreState × FixResult :=
  let issues := checkIntegrity s
  let afterOrphans := issues.orphaned_files.foldl
    (fixOrphanStep archive_orphans o) (s, ⟨0, 0, 0, 0, 0⟩)
  let afterMissing := issues.missing_files.foldl fixMissingStep
    afterOrphans
  let afterStats := issues.orphaned_stats.foldl fixStatsStep afterMissing
  if clean_orphaned_archives then
    issues.orphaned_archives.foldl (fixArchiveStep o) afterStats
  else afterStats

/-! ### EvictionManager (`server/eviction.py`) -/

/-- `EvictionConfig` with the source's defaults. -/
structure EvictionConfig where
  max_memories : Nat := 100
  batch_size : Nat := 10
  hint_max_chars : Nat := 200
  abstract_max_chars : Nat := 100
deriving DecidableEq, Repr

/-- The reduction note appended by `_reduce_to_hint`. -/
def reductionMarker : String :=
  "\n\n*[Content reduced - see archives for full version]*"

/-- The content transformation inside `_reduce_to_hint`: when the
content contains `"## Summary"`, keep everything before the first
`"## Content"` (the whole content if none), stripped, plus the marker
(the source's `len(parts) > 0` guard is always true, since `split`
never returns an empty list); otherwise truncate to `hint_max_chars`,
appending `"..."` and the marker only when truncation occurred. -/
def reduceHintContent (hint_max_chars : Nat) (content : String) : String :=
  if pyContains "## Summary" content then
    pyStrip ((pySplit "## Content" content).headD "") ++ reductionMarker
  else
    let hint := pyTake hint_max_chars content
    if pyLen content > hint_max_chars then
      hint ++ "..." ++ reductionMarker
    else hint

/-- First non-empty, non-header line (stripped), defaulting to `""`. -/
def firstNonHeader : List String → String
  | [] => ""
  | l :: ls =>
    let stripped := pyStrip l
    if stripped ≠ "" ∧ ¬ (('#' :: '#' :: ' ' :: []).isPrefixOf stripped.data)
    then stripped
    else firstNonHeader ls

/-- The content transformation inside `_reduce_to_abstract`. -/
def reduceAbstractContent (abstract_max_chars : Nat) (content : String) :
    String :=
  let lines := (splitOnChar '\n' content.data).map
    (fun cs => (⟨cs⟩ : String))
  let first_line := firstNonHeader lines
  let first_line :=
    if pyLen first_line > abstract_max_chars then
      pyTake abstract_max_chars first_line ++ "..."
    else first_line
  "*Abstract: " ++ first_line ++ "*\n\n*[Full content archived]*"

/-- `EvictionManager._archive_memory`: skip when an archive already
exists; otherwise re-serialize the record read from the store into the
archive file.  `False` also covers the swallowed read failure. -/
def archiveMemory (s : StoreState) (memory_id : String) :
    StoreState × Bool :=
  match dget s.archives memory_id with
  | some _ => (s, false)
  | none =>
    match MemoryStore.read s memory_id false "" with
    | .ok p =>
      let archives := dset s.archives memory_id (serializeMemory p.1)
      ({ s with archives := archives }, true)
    | .error _ => (s, false)

/-- `EvictionManager._reduce_to_hint` (all exceptions swallowed). -/
def reduceToHintOp (cfg : EvictionConfig) (s : StoreState)
    (memory_id : String) : StoreState :=
  match MemoryStore.read s memory_id false "" with
  | .error _ => s
  | .ok p =>
    let hint := reduceHintContent cfg.hint_max_chars (contentOf p.1)
    match MemoryStore.update s memory_id { content := some hint } with
    | .ok s2 => s2
    | .error _ => s

/-- `EvictionManager._reduce_to_abstract` (exceptions swallowed). -/
def reduceToAbstractOp (cfg : EvictionConfig) (s : StoreState)
    (memory_id : String) : StoreState :=
  match MemoryStore.read s memory_id false "" with
  | .error _ => s
  | .ok p =>
    let abs := reduceAbstractContent cfg.abstract_max_chars
      (contentOf p.1)
    match MemoryStore.update s memory_id { content := some abs } with
    | .ok s2 => s2
    | .error _ => s

/-- The statistics dict `run` returns; `transitions = none` is the
empty `phase_transitions` dict of the early return, `some (a, b, c)`
the `(0_to_1, 1_to_2, 2_to_3)` counters. -/
structure RunStats where
  processed : Nat
  transitions : Option (Nat × Nat × Nat)
  archived : Nat
  deleted : Nat
deriving DecidableEq, Repr

/-- Increment the `0_to_1` counter. -/
def bump01 : Option (Nat × Nat × Nat) → Option (Nat × Nat × Nat)
  | some (a, b, c) => some (a + 1, b, c)
  | none => none

/-- Increment the `1_to_2` counter. -/
def bump12 : Option (Nat × Nat × Nat) → Option (Nat × Nat × Nat)
  | some (a, b, c) => some (a, b + 1, c)
  | none => none

/-- Increment the `2_to_3` counter. -/
def bump23 : Option (Nat × Nat × Nat) → Option (Nat × Nat × Nat)
  | some (a, b, c) => some (a, b, c + 1)
  | none => none

/-- One iteration of `run`'s batch loop, including the `try/except`
that skips a failing record: state changes made before the raising
call (the archive copy) survive, the counters after it do not. -/
def evictStep (cfg : EvictionConfig) (acc : StoreState × RunStats)
    (m : Summary) : StoreState × RunStats :=
  let s := acc.1
  let st := acc.2
  let memory_id := m.id
  let current_phase := m.phase
  if current_phase ≥ 3 then acc
  else if current_phase = 0 then
    let ar := archiveMemory s memory_id
    let st1 := if ar.2 then { st with archived := st.archived + 1 } else st
    let s2 := reduceToHintOp cfg ar.1 memory_id
    match MemoryStore.update s2 memory_id { phase := some 1 } with
    | .ok s3 =>
      (s3, { st1 with transitions := bump01 st1.transitions,
                      processed := st1.processed + 1 })
    | .error _ => (s2, st1)
  else if current_phase = 1 then
    let s2 := reduceToAbstractOp cfg s memory_id
    match MemoryStore.update s2 memory_id { phase := some 2 } with
    | .ok s3 =>
      (s3, { st with transitions := bump12 st.transitions,
                     processed := st.processed + 1 })
    | .error _ => (s2, st)
  else if current_phase = 2 then
    match MemoryStore.delete s memory_id false with
    | .ok s2 =>
      (s2, { st with transitions := bump23 st.transitions,
                     deleted := st.deleted + 1,
                     processed := st.processed + 1 })
    | .error _ => (s, st)
  else
    (s, { st with processed := st.processed + 1 })

/-- `EvictionManager.run`: no-op when the fetched count is within
`max_memories`; otherwise process the `batch_size` lowest-priority
records of the fetched batch. -/
def EvictionManager.run (cfg : EvictionConfig) (s : StoreState) :
    StoreState × RunStats :=
  let memories := MemoryStore.list s none none none
    (cfg.max_memories + cfg.batch_size) 0
  if memories.length ≤ cfg.max_memories then
    (s, ⟨0, none, 0, 0⟩)
  else
    let sorted_memories := sortByPriorityAsc memories
    (sorted_memories.take cfg.batch_size).foldl (evictStep cfg)
      (s, ⟨0, some (0, 0, 0), 0, 0⟩)

/-- `EvictionManager.restore_from_archive`. -/
def restoreFromArchive (s : StoreState) (memory_id : String) :
    StoreState × Bool :=
  match dget s.archives memory_id with
  | none => (s, false)
  | some raw =>
    let archived := parseMemoryFile raw
    if archived.isEmpty then (s, false)
    else
      match MemoryStore.update s memory_id
        { content := some (contentOf archived), phase := some 0 } with
      | .ok s2 => (s2, true)
      | .error _ => (s, false)

/-! ### General lemmas -/

theorem pyMin_eq (a b : Rat) : pyMin a b = min a b := by
  unfold pyMin
  split
  · exact (min_eq_left ‹_›).symm
  · exact (min_eq_right (le_of_not_le ‹_›)).symm

theorem pyMax_eq (a b : Rat) : pyMax a b = max a b := by
  unfold pyMax
  split
  · exact (max_eq_left ‹_›).symm
  · exact (max_eq_right (le_of_not_le ‹_›)).symm

theorem intMax_if (z : Int) : (if z ≤ 0 then (0 : Int) else z) = max 0 z := by
  split
  · exact (max_eq_left ‹_›).symm
  · exact (max_eq_right (le_of_not_le ‹_›)).symm

theorem clamp01_nonneg (x : Rat) : 0 ≤ clamp01 x := by
  unfold clamp01
  rw [pyMax_eq, pyMin_eq]
  exact le_max_left 0 _

theorem clamp01_le_one (x : Rat) : clamp01 x ≤ 1 := by
  unfold clamp01
  rw [pyMax_eq, pyMin_eq]
  exact max_le (by norm_num) (min_le_left 1 x)

theorem dget_map_set {α : Type} (d : List (String × α)) (k : String)
    (v : α) (h : d.any (fun p => p.1 = k) = true) :
    dget (d.map (fun p => if p.1 = k then (k, v) else p)) k = some v := by
  induction d with
  | nil => simp at h
  | cons c t ih =>
    simp only [List.any_cons, Bool.or_eq_true] at h
    by_cases hc : c.1 = k
    · simp [dget, List.find?, hc]
    · have ht : t.any (fun p => p.1 = k) = true := by
        rcases h with h | h
        · exact absurd (by exact decide_eq_true_eq.mp h) hc
        · exact h
      simp only [dget, List.map_cons, List.find?, if_neg hc]
      have : (decide (c.1 = k)) = false := decide_eq_false hc
      simp only [this]
      exact ih ht

theorem dget_dset_self {α : Type} (d : List (String × α)) (k : String)
    (v : α) : dget (dset d k v) k = some v := by
  unfold dset
  by_cases hany : d.any (fun p => p.1 = k) = true
  · rw [if_pos hany]
    exact dget_map_set d k v hany
  · rw [if_neg hany]
    induction d with
    | nil => simp [dget, List.find?]
    | cons c t ih =>
      simp only [List.any_cons, Bool.or_eq_true] at hany
      push_neg at hany
      have hc : ¬ (c.1 = k) := by
        intro hh
        exact hany.1 (by simp [hh])
      simp only [dget, List.cons_append, List.find?, decide_eq_false hc]
      exact ih hany.2

theorem dget_map_ne {α : Type} (d : List (String × α)) (k k' : String)
    (v : α) (h : k' ≠ k) :
    dget (d.map (fun p => if p.1 = k then (k, v) else p)) k' = dget d k' := by
  induction d with
  | nil => rfl
  | cons c t ih =>
    by_cases hc : c.1 = k
    · have hck : ¬ (c.1 = k') := by rw [hc]; exact Ne.symm h
      simp only [dget, List.map_cons, if_pos hc, List.find?_cons,
        decide_eq_false (Ne.symm h), decide_eq_false hck]
      exact ih
    · simp only [dget, List.map_cons, if_neg hc, List.find?_cons]
      by_cases hck : c.1 = k'
      · simp [decide_eq_true hck]
      · simp only [decide_eq_false hck]
        exact ih

theorem dget_dset_ne {α : Type} (d : List (String × α)) (k k' : String)
    (v : α) (h : k' ≠ k) : dget (dset d k v) k' = dget d k' := by
  unfold dset
  split
  · exact dget_map_ne d k k' v h
  · simp only [dget, List.find?_append]
    have hone : List.find? (fun p => p.1 = k') [(k, v)] = none := by
      simp [List.find?, decide_eq_false (Ne.symm h)]
    rw [hone]
    simp

theorem dget_ddel_self {α : Type} (d : List (String × α)) (k : String) :
    dget (ddel d k) k = none := by
  have hnone : List.find? (fun p => decide (p.1 = k)) (ddel d k) = none := by
    rw [List.find?_eq_none]
    intro x hx
    have := (List.mem_filter.mp hx).2
    simpa using this
  simp [dget, hnone]

theorem dget_ddel_ne {α : Type} (d : List (String × α)) (k k' : String)
    (h : k' ≠ k) : dget (ddel d k) k' = dget d k' := by
  induction d with
  | nil => rfl
  | cons c t ih =>
    by_cases hc : c.1 = k
    · have hck : ¬ (c.1 = k') := by rw [hc]; exact Ne.symm h
      have hfil : ddel (c :: t) k = ddel t k := by
        simp [ddel, List.filter_cons, hc]
      rw [hfil, ih]
      simp only [dget, List.find?_cons, decide_eq_false hck]
    · have hfil : ddel (c :: t) k = c :: ddel t k := by
        simp [ddel, List.filter_cons, hc]
      rw [hfil]
      simp only [dget, List.find?_cons]
      by_cases hck : c.1 = k'
      · simp [decide_eq_true hck]
      · simp only [decide_eq_false hck]
        exact ih

/-! ### Claims about the priority scorer -/

/-- C3: `calculate` is exactly
`clamp01(difficulty*0.4 + recency*0.3 + frequency*0.3)` with
`difficulty` defaulting to 0.5 and the stats dict defaulting to empty,
where `recency = 1/(1 + max(0, current_session - last_session))`
(`last_session` defaulting to 0, and exactly 1 when the memory was
last accessed in the current session) and
`frequency = min(1, access_count/10)`; the result lies in `[0, 1]`. -/
theorem claim_C3 (difficulty : Option Rat) (stats : Option StatsLike)
    (current_session : Int) :
    calculate difficulty stats current_session
      = clamp01 ((difficulty.getD (1/2)) * (4/10)
          + (1 / (1 + ((max 0 (current_session
              - (stats.getD ⟨none, none⟩).last_session.getD 0) : Int) : Rat)))
            * (3/10)
          + (min 1 (((stats.getD ⟨none, none⟩).access_count.getD 0 : Rat)
              / 10)) * (3/10))
    ∧ 0 ≤ calculate difficulty stats current_session
    ∧ calculate difficulty stats current_session ≤ 1
    ∧ (∀ st : StatsLike, st.last_session = some current_session →
        calcRecency st current_session = 1) := by
  refine ⟨?_, clamp01_nonneg _, clamp01_le_one _, ?_⟩
  · simp only [calculate, calcRecency, calcFrequency, pyMin_eq, intMax_if]
  · intro st h
    unfold calcRecency
    rw [h]
    simp

/-- Witness for C3 at a concrete input. -/
theorem claim_C3_witness :
    (0 ≤ calculate none none 5 ∧ calculate none none 5 ≤ 1)
    ∧ calcRecency ⟨none, some 5⟩ 5 = 1 :=
  ⟨⟨(claim_C3 none none 5).2.1, (claim_C3 none none 5).2.2.1⟩,
   (claim_C3 none none 5).2.2.2 ⟨none, some 5⟩ rfl⟩

/-- C4: `calculate_difficulty` uses the token formula exactly when
`session_tokens > 0` and the legacy formula otherwise, with
`failure_rate = failures/total` (0 when `total = 0`) and
`tool_norm = min(1, total/50)`, the result clamped to `[0, 1]`; in
particular `calculate_difficulty(5, 5, False, 0)` is exactly 0.31. -/
theorem claim_C4 (tool_failures tool_successes : Int)
    (hf : 0 ≤ tool_failures) (hs : 0 ≤ tool_successes)
    (compacted : Bool) (session_tokens token_normalize_cap : Int) :
    (session_tokens > 0 →
      calculate_difficulty tool_failures tool_successes compacted
          session_tokens token_normalize_cap
        = clamp01
            ((if tool_failures + tool_successes = 0 then 0
              else (tool_failures : Rat)
                / ((tool_failures + tool_successes : Int) : Rat)) * (25/100)
             + min 1 (((tool_failures + tool_successes : Int) : Rat) / 50)
               * (15/100)
             + min 1 ((session_tokens : Rat) / (token_normalize_cap : Rat))
               * (35/100)
             + (if compacted then 1 else 0) * (25/100)))
    ∧ (¬ session_tokens > 0 →
      calculate_difficulty tool_failures tool_successes compacted
          session_tokens token_normalize_cap
        = clamp01
            ((if tool_failures + tool_successes = 0 then 0
              else (tool_failures : Rat)
                / ((tool_failures + tool_successes : Int) : Rat)) * (5/10)
             + min 1 (((tool_failures + tool_successes : Int) : Rat) / 50)
               * (3/10)
             + (if compacted then 1 else 0) * (2/10)))
    ∧ 0 ≤ calculate_difficulty tool_failures tool_successes compacted
        session_tokens token_normalize_cap
    ∧ calculate_difficulty tool_failures tool_successes compacted
        session_tokens token_normalize_cap ≤ 1
    ∧ calculate_difficulty 5 5 false 0 100000 = 31/100 := by
  have htool : (if tool_failures + tool_successes = 0 then (0 : Rat)
      else min 1 (((tool_failures + tool_successes : Int) : Rat) / 50))
      = min 1 (((tool_failures + tool_successes : Int) : Rat) / 50) := by
    split
    · rename_i h0
      rw [h0]
      norm_num
    · rfl
  have hsc : calculate_difficulty 5 5 false 0 100000 = 31/100 := by
    with_unfolding_all rfl
  refine ⟨?_, ?_, ?_, ?_, hsc⟩
  · intro ht
    simp only [calculate_difficulty, pyMin_eq]
    rw [if_pos ht, htool]
  · intro ht
    simp only [calculate_difficulty, pyMin_eq]
    rw [if_neg ht, htool]
  · simp only [calculate_difficulty, pyMin_eq]
    split <;> exact clamp01_nonneg _
  · simp only [calculate_difficulty, pyMin_eq]
    split <;> exact clamp01_le_one _

/-- Witness for C4 at a concrete input. -/
theorem claim_C4_witness :
    calculate_difficulty 5 5 false 0 100000 = 31/100
    ∧ 0 ≤ calculate_difficulty 5 5 false 0 100000 :=
  ⟨(claim_C4 5 5 (by norm_num) (by norm_num) false 0 100000).2.2.2.2,
   (claim_C4 5 5 (by norm_num) (by norm_num) false 0 100000).2.2.1⟩

/-! ### Claim C7: the archive is write-once -/

/-- C7: once an archive file exists for an id, both
`delete(id, archive=True)` and the eviction engine's archiving step
skip silently without modifying any archive content. -/
theorem claim_C7 (s : StoreState) (memory_id : String)
    (h : (dget s.archives memory_id).isSome = true) :
    archiveMemory s memory_id = (s, false)
    ∧ (∀ s2, MemoryStore.delete s memory_id true = .ok s2 →
        s2.archives = s.archives) := by
  obtain ⟨raw, hraw⟩ := Option.isSome_iff_exists.mp h
  constructor
  · unfold archiveMemory
    rw [hraw]
  · intro s2 h2
    unfold MemoryStore.delete at h2
    cases hfile : dget s.files memory_id with
    | none => rw [hfile] at h2; exact absurd h2 (by simp)
    | some fraw =>
      rw [hfile] at h2
      simp only [hraw] at h2
      have : ¬ (True ∧ (some raw = none)) := by simp
      rw [if_neg (by simp [hraw])] at h2
      cases h2
      rfl

/-- Concrete state for the C7 witness: `"m"` already has an archive. -/
def c7State : StoreState :=
  ⟨[("m", ⟨"t", [], 0, 1/2, "d"⟩)], [], [("m", "raw file")],
   [("m", "archived text")], 1⟩

/-- The state `delete("m", archive=True)` produces from `c7State`. -/
def c7After : StoreState := ⟨[], [], [], [("m", "archived text")], 1⟩

/-- Witness for C7. -/
theorem claim_C7_witness :
    archiveMemory c7State "m" = (c7State, false)
    ∧ c7After.archives = c7State.archives :=
  ⟨(claim_C7 c7State "m" (by with_unfolding_all rfl)).1,
   (claim_C7 c7State "m" (by with_unfolding_all rfl)).2 c7After
     (by with_unfolding_all rfl)⟩

/-! ### Claim C10: `read` ignores the index (corrected) -/

/-- `difficultyArg` never raises `MemoryNotFoundError`. -/
theorem difficultyArg_ne_notFound (md : MemoryData) :
    difficultyArg md ≠ .error .notFound := by
  unfold difficultyArg
  cases h : dget md "difficulty" with
  | none => simp
  | some v => cases v <;> simp

/-- C10 (amended): for an id whose content file exists, `read` never
raises `NotFound` regardless of index membership; and provided the
file's parsed `difficulty` is numeric or boolean (it always is for
store-written files), `read(id, update_stats=True)` succeeds and
leaves a stats entry for the id. -/
theorem claim_C10 (s : StoreState) (memory_id now raw : String)
    (hfile : dget s.files memory_id = some raw)
    (hnum : difficultyArg (parseMemoryFile raw) ≠ .error .typeErr) :
    (MemoryStore.read s memory_id true now ≠ .error .notFound)
    ∧ (MemoryStore.read s memory_id true now).isOk = true
    ∧ (∀ md s2, MemoryStore.read s memory_id true now = .ok (md, s2) →
        (dget s2.stats memory_id).isSome = true) := by
  have hok : ∃ d, difficultyArg (parseMemoryFile raw) = .ok d := by
    cases hd : difficultyArg (parseMemoryFile raw) with
    | ok d => exact ⟨d, rfl⟩
    | error e =>
      cases e with
      | notFound => exact absurd hd (difficultyArg_ne_notFound (parseMemoryFile raw))
      | typeErr => exact absurd hd hnum
  obtain ⟨d, hd⟩ := hok
  unfold MemoryStore.read
  rw [hfile]
  simp only [if_pos rfl, hd]
  refine ⟨by simp, by simp [Except.isOk, Except.toBool], ?_⟩
  intro md s2 h2
  cases h2
  rw [dget_dset_self]
  rfl

/-- Concrete state for the C10 counterexample and witness. -/
def c10Bad : StoreState :=
  ⟨[], [], [("mem_x", "---\ndifficulty: abc\n---\nbody")], [], 1⟩

/-- C10 counterexample: an unindexed content file whose `difficulty`
line parses to a string makes `read(id, update_stats=True)` raise a
`TypeError` from the priority computation, so no stats entry appears —
the claim's unconditional "read succeeds and the stats catalog gains
an entry" is false as stated. -/
theorem claim_C10_counterexample :
    (dget c10Bad.files "mem_x").isSome = true
    ∧ dget c10Bad.index "mem_x" = none
    ∧ MemoryStore.read c10Bad "mem_x" true "t"
        = .error StoreErr.typeErr := by
  refine ⟨by with_unfolding_all rfl, by with_unfolding_all rfl, ?_⟩
  with_unfolding_all rfl

/-- Concrete well-formed state for the C10 witness: a content file
with no index entry and a numeric difficulty. -/
def c10Good : StoreState :=
  ⟨[], [], [("mem_y", "---\ndifficulty: 0.5\n---\nbody")], [], 1⟩

/-- The dict `read` parses from `c10Good`'s file. -/
def c10GoodMd : MemoryData :=
  [("difficulty", .float (1/2)), ("content", .str "body")]

/-- The state `read("mem_y", update_stats=True)` leaves. -/
def c10GoodAfter : StoreState :=
  ⟨[], [("mem_y", ⟨1, "t", 1, 53/100⟩)],
   [("mem_y", "---\ndifficulty: 0.5\n---\nbody")], [], 1⟩

/-- The good file's difficulty parses numerically. -/
theorem c10_diff_ne :
    difficultyArg (parseMemoryFile "---\ndifficulty: 0.5\n---\nbody")
      ≠ .error .typeErr := by
  have hv : difficultyArg (parseMemoryFile "---\ndifficulty: 0.5\n---\nbody")
      = .ok (some (1/2)) := by with_unfolding_all rfl
  rw [hv]
  simp

/-! ### Claim C1: post-repair health -/

theorem ddel_of_dget_none {α : Type} (d : List (String × α)) (k : String)
    (h : dget d k = none) : ddel d k = d := by
  unfold ddel
  apply List.filter_eq_self.mpr
  intro p hp
  have hfind : List.find? (fun p => decide (p.1 = k)) d = none := by
    unfold dget at h
    cases hf : List.find? (fun p => decide (p.1 = k)) d with
    | none => rfl
    | some q => rw [hf] at h; simp at h
  have := List.find?_eq_none.mp hfind p hp
  simpa using this

theorem ddel_of_dmem_false {α : Type} (d : List (String × α)) (k : String)
    (h : dmem d k = false) : ddel d k = d := by
  unfold ddel
  apply List.filter_eq_self.mpr
  intro p hp
  have := List.any_eq_false.mp h p hp
  simpa using this

/-- One step of the orphaned-files loop, fault-free: only that id's
file is removed (and possibly an archive copy added). -/
theorem fixOrphanStep_ok (b : Bool) (id1 : String)
    (s : StoreState) (r : FixResult) :
    ((fixOrphanStep b okOracle (s, r) id1).1.index = s.index)
    ∧ ((fixOrphanStep b okOracle (s, r) id1).1.stats = s.stats)
    ∧ ((fixOrphanStep b okOracle (s, r) id1).1.files
        = ddel s.files id1) := by
  unfold fixOrphanStep okOracle
  cases hf : dget s.files id1 with
  | none =>
    simp only [hf, Option.isSome_none, Bool.false_eq_true, if_neg]
    exact ⟨rfl, rfl, (ddel_of_dget_none s.files id1 hf).symm⟩
  | some raw =>
    simp only [hf]
    split
    · simp [hf]
    · simp [hf]

/-- The orphaned-files repair loop under a fault-free filesystem:
index and stats are untouched and exactly the listed ids' files are
removed. -/
theorem fixOrphanFold_ok (b : Bool) (ids : List String)
    (s : StoreState) (r : FixResult) :
    (ids.foldl (fixOrphanStep b okOracle) (s, r)).1.index = s.index
    ∧ (ids.foldl (fixOrphanStep b okOracle) (s, r)).1.stats = s.stats
    ∧ (ids.foldl (fixOrphanStep b okOracle) (s, r)).1.files
        = s.files.filter (fun p => !ids.contains p.1) := by
  induction ids generalizing s r with
  | nil => simp
  | cons id1 rest ih =>
    simp only [List.foldl_cons]
    have hstep := fixOrphanStep_ok b id1 s r
    set acc1 := fixOrphanStep b okOracle (s, r) id1 with hacc
    have ihr := ih acc1.1 acc1.2
    have hfold : rest.foldl (fixOrphanStep b okOracle) (acc1.1, acc1.2)
        = rest.foldl (fixOrphanStep b okOracle) acc1 := by rfl
    rw [hfold] at ihr
    refine ⟨by rw [ihr.1, hstep.1], by rw [ihr.2.1, hstep.2.1], ?_⟩
    rw [ihr.2.2, hstep.2.2]
    unfold ddel
    rw [List.filter_filter]
    apply List.filter_congr
    intro p hp
    simp only [List.contains_cons, Bool.not_or]
    rw [Bool.and_comm]
    congr 1
    congr 1
    rw [decide_not, Bool.beq_eq_decide_eq p.1 id1]

/-- The orphaned-stats repair loop: only the listed stats entries are
removed. -/
theorem fixStatsFold (ids : List String) (s : StoreState) (r : FixResult) :
    (ids.foldl fixStatsStep (s, r)).1.index = s.index
    ∧ (ids.foldl fixStatsStep (s, r)).1.files = s.files
    ∧ (ids.foldl fixStatsStep (s, r)).1.archives = s.archives
    ∧ (ids.foldl fixStatsStep (s, r)).1.stats
        = s.stats.filter (fun p => !ids.contains p.1) := by
  induction ids generalizing s r with
  | nil => simp
  | cons id1 rest ih =>
    simp only [List.foldl_cons]
    have hstep : (fixStatsStep (s, r) id1).1.index = s.index
        ∧ (fixStatsStep (s, r) id1).1.files = s.files
        ∧ (fixStatsStep (s, r) id1).1.archives = s.archives
        ∧ (fixStatsStep (s, r) id1).1.stats = ddel s.stats id1 := by
      unfold fixStatsStep
      cases hm : dmem s.stats id1 with
      | false =>
        simp only [hm, Bool.false_eq_true, if_neg]
        exact ⟨rfl, rfl, rfl, (ddel_of_dmem_false s.stats id1 hm).symm⟩
      | true => simp [hm]
    set acc1 := fixStatsStep (s, r) id1 with hacc
    have ihr := ih acc1.1 acc1.2
    have hfold : rest.foldl fixStatsStep (acc1.1, acc1.2)
        = rest.foldl fixStatsStep acc1 := by rfl
    rw [hfold] at ihr
    refine ⟨by rw [ihr.1, hstep.1], by rw [ihr.2.1, hstep.2.1],
      by rw [ihr.2.2.1, hstep.2.2.1], ?_⟩
    rw [ihr.2.2.2, hstep.2.2.2]
    unfold ddel
    rw [List.filter_filter]
    apply List.filter_congr
    intro p hp
    simp only [List.contains_cons, Bool.not_or]
    rw [Bool.and_comm]
    congr 1
    congr 1
    rw [decide_not, Bool.beq_eq_decide_eq p.1 id1]

theorem contains_iff_mem (l : List String) (a : String) :
    l.contains a = true ↔ a ∈ l := by
  induction l with
  | nil => simp
  | cons c t ih =>
    simp only [List.contains_cons, Bool.or_eq_true, List.mem_cons]
    rw [Bool.beq_eq_decide_eq]
    constructor
    · rintro (h | h)
      · exact Or.inl (of_decide_eq_true h)
      · exact Or.inr (ih.mp h)
    · rintro (h | h)
      · exact Or.inl (decide_eq_true h)
      · exact Or.inr (ih.mpr h)

/-- C1 (general part): when `check_integrity` reports no missing
files — the only unrecoverable kind of drift — a fault-free
`fix_integrity(archive_orphans=True)` leaves a state whose
`check_integrity().is_healthy` is true. -/
theorem fixIntegrity_heals (s : StoreState)
    (hmiss : (checkIntegrity s).missing_files = []) :
    (checkIntegrity (fixIntegrity s okOracle true false).1).is_healthy
      = true := by
  have horph := fixOrphanFold_ok true (checkIntegrity s).orphaned_files s
    ⟨0, 0, 0, 0, 0⟩
  set a1 := (checkIntegrity s).orphaned_files.foldl
    (fixOrphanStep true okOracle) (s, ⟨0, 0, 0, 0, 0⟩) with ha1
  have hstats := fixStatsFold (checkIntegrity s).orphaned_stats a1.1 a1.2
  set a2 := (checkIntegrity s).orphaned_stats.foldl fixStatsStep
    (a1.1, a1.2) with ha2
  have hfix : (fixIntegrity s okOracle true false).1 = a2.1 := by
    simp only [fixIntegrity]
    rw [hmiss]
    simp only [List.foldl_nil, Bool.false_eq_true, if_false]
  rw [hfix]
  -- the repaired state's catalogs
  have hidx : a2.1.index = s.index := by rw [hstats.1, horph.1]
  have hfil : a2.1.files = s.files.filter
      (fun p => !(checkIntegrity s).orphaned_files.contains p.1) := by
    rw [hstats.2.1, horph.2.2]
  have hsts2 : a2.1.stats = s.stats.filter
      (fun p => !(checkIntegrity s).orphaned_stats.contains p.1) := by
    rw [hstats.2.2.2, horph.2.1]
  -- each issue list of the re-check is empty
  have hof : ((a2.1.files.map Prod.fst).filter
      (fun i => !(a2.1.index.map Prod.fst).contains i)) = [] := by
    rw [List.filter_eq_nil]
    intro i hi
    intro hC
    rw [hidx] at hC
    have hcon : (s.index.map Prod.fst).contains i = false := by
      simpa using hC
    rw [hfil] at hi
    obtain ⟨p, hp, hpi⟩ := List.mem_map.mp hi
    have hpf := List.mem_filter.mp hp
    have hmemo : i ∈ (checkIntegrity s).orphaned_files := by
      show i ∈ (s.files.map Prod.fst).filter
        (fun j => !(s.index.map Prod.fst).contains j)
      refine List.mem_filter.mpr
        ⟨List.mem_map.mpr ⟨p, hpf.1, hpi⟩, ?_⟩
      show (!(s.index.map Prod.fst).contains i) = true
      rw [hcon]
      rfl
    have h2 := hpf.2
    rw [hpi, (contains_iff_mem _ _).mpr hmemo] at h2
    simp at h2
  have hmf : ((a2.1.index.map Prod.fst).filter
      (fun i => !(a2.1.files.map Prod.fst).contains i)) = [] := by
    rw [List.filter_eq_nil]
    intro i hi
    rw [hidx] at hi
    intro hC
    have hinfile : (s.files.map Prod.fst).contains i = true := by
      have := List.filter_eq_nil.mp hmiss i hi
      simpa using this
    obtain ⟨p, hp, hpi⟩ := List.mem_map.mp
      ((contains_iff_mem _ _).mp hinfile)
    have hnotorph : (checkIntegrity s).orphaned_files.contains i
        = false := by
      cases hcc : (checkIntegrity s).orphaned_files.contains i
      · rfl
      · exfalso
        have hmemo := (contains_iff_mem _ _).mp hcc
        have hmf2 := (List.mem_filter.mp hmemo).2
        rw [(contains_iff_mem _ _).mpr hi] at hmf2
        simp at hmf2
    have hmem2 : i ∈ a2.1.files.map Prod.fst := by
      rw [hfil]
      apply List.mem_map.mpr
      refine ⟨p, List.mem_filter.mpr ⟨hp, ?_⟩, hpi⟩
      rw [hpi, hnotorph]
      rfl
    rw [(contains_iff_mem _ _).mpr hmem2] at hC
    simp at hC
  have hos : ((a2.1.stats.map Prod.fst).filter
      (fun i => !(a2.1.index.map Prod.fst).contains i)) = [] := by
    rw [List.filter_eq_nil]
    intro i hi
    intro hC
    rw [hidx] at hC
    have hcon : (s.index.map Prod.fst).contains i = false := by
      simpa using hC
    rw [hsts2] at hi
    obtain ⟨p, hp, hpi⟩ := List.mem_map.mp hi
    have hpf := List.mem_filter.mp hp
    have hmemo : i ∈ (checkIntegrity s).orphaned_stats := by
      show i ∈ (s.stats.map Prod.fst).filter
        (fun j => !(s.index.map Prod.fst).contains j)
      refine List.mem_filter.mpr
        ⟨List.mem_map.mpr ⟨p, hpf.1, hpi⟩, ?_⟩
      show (!(s.index.map Prod.fst).contains i) = true
      rw [hcon]
      rfl
    have h2 := hpf.2
    rw [hpi, (contains_iff_mem _ _).mpr hmemo] at h2
    simp at h2
  simp only [checkIntegrity]
  rw [hof, hmf, hos]
  rfl

/-- The scenario-6 state: one content file with no index entry. -/
def c1Orphan : StoreState :=
  ⟨[], [], [("mem_deadbeef", "stray content")], [], 1⟩

/-- C1: after a fault-free `fix_integrity(archive_orphans=True)`,
`check_integrity().is_healthy` is true whenever no detected issue
involved unrecoverable data loss (no `missing_files`); and in the
scenario state whose only issue is a content file with no index entry
(reported under `orphaned_files` with `is_healthy=False`), the repair
archives the file, removes it, and the re-check is healthy. -/
theorem claim_C1 :
    (∀ s : StoreState, (checkIntegrity s).missing_files = [] →
      (checkIntegrity (fixIntegrity s okOracle true false).1).is_healthy
        = true)
    ∧ (checkIntegrity c1Orphan).orphaned_files = ["mem_deadbeef"]
    ∧ (checkIntegrity c1Orphan).is_healthy = false
    ∧ (fixIntegrity c1Orphan okOracle true false).2.archived_files = 1
    ∧ dget (fixIntegrity c1Orphan okOracle true false).1.archives
        "mem_deadbeef" = some "stray content"
    ∧ dget (fixIntegrity c1Orphan okOracle true false).1.files
        "mem_deadbeef" = none
    ∧ (checkIntegrity
        (fixIntegrity c1Orphan okOracle true false).1).is_healthy
        = true :=
  ⟨fixIntegrity_heals,
   by with_unfolding_all rfl, by with_unfolding_all rfl,
   by with_unfolding_all rfl, by with_unfolding_all rfl,
   by with_unfolding_all rfl, by with_unfolding_all rfl⟩

/-- Witness for C1: the general healing statement applied to the
scenario state. -/
theorem claim_C1_witness :
    (checkIntegrity (fixIntegrity c1Orphan okOracle true false).1).is_healthy
      = true :=
  claim_C1.1 c1Orphan (by with_unfolding_all rfl)

/-! ### Claim C9: failure isolation -/

/-- A batch record whose store calls raise (its content file is
missing) is skipped by `run`'s loop: no state change, no counters. -/
theorem evictStep_skip (cfg : EvictionConfig) (s : StoreState)
    (st : RunStats) (m : Summary) (hph : 0 ≤ m.phase)
    (hfile : dget s.files m.id = none) :
    evictStep cfg (s, st) m = (s, st) := by
  have hread : MemoryStore.read s m.id false "" = .error .notFound := by
    unfold MemoryStore.read
    rw [hfile]
  have harch : archiveMemory s m.id = (s, false) := by
    unfold archiveMemory
    cases ha : dget s.archives m.id with
    | some raw => rfl
    | none => rw [hread]
  have hupd : MemoryStore.update s m.id { phase := some 1 }
      = .error .notFound := by
    unfold MemoryStore.update
    rw [hfile]
  have hupd2 : MemoryStore.update s m.id { phase := some 2 }
      = .error .notFound := by
    unfold MemoryStore.update
    rw [hfile]
  have hhint : reduceToHintOp cfg s m.id = s := by
    unfold reduceToHintOp
    rw [hread]
  have habs : reduceToAbstractOp cfg s m.id = s := by
    unfold reduceToAbstractOp
    rw [hread]
  have hdel : MemoryStore.delete s m.id false = .error .notFound := by
    unfold MemoryStore.delete
    rw [hfile]
  simp only [evictStep]
  split
  · rfl
  · split
    · simp [harch, hhint, hupd]
    · split
      · simp [habs, hupd2]
      · split
        · simp [hdel]
        · rename_i h3 h0 h1 h2
          exfalso
          omega

/-- A `fix_integrity` orphan-loop item whose filesystem calls raise is
skipped: no state change, no counters. -/
theorem fixOrphanStep_skip (b : Bool) (o : FsOracle) (x : String)
    (hcopy : o.copyFails x = true) (hunlink : o.unlinkFails x = true)
    (acc : StoreState × FixResult) :
    fixOrphanStep b o acc x = acc := by
  unfold fixOrphanStep
  cases hf : dget acc.1.files x with
  | none => simp [hf]
  | some raw =>
    simp only [hf]
    split
    · simp [hcopy, hf, hunlink]
    · simp [hf, hunlink]

/-- C9: failure isolation in both loops.  In the eviction batch, a
record whose processing raises (missing content file) leaves state and
counters unchanged and the fold continues over the remaining records;
in the `fix_integrity` orphan loop, an item whose copy/unlink calls
raise is likewise skipped and the pass continues — a single bad record
never aborts either loop. -/
theorem claim_C9 :
    (∀ (cfg : EvictionConfig) (s : StoreState) (st : RunStats)
        (m : Summary), 0 ≤ m.phase → dget s.files m.id = none →
      evictStep cfg (s, st) m = (s, st))
    ∧ (∀ (cfg : EvictionConfig) (l1 l2 : List Summary) (m : Summary)
        (s : StoreState) (st : RunStats), 0 ≤ m.phase →
        dget ((l1.foldl (evictStep cfg) (s, st)).1).files m.id = none →
      (l1 ++ m :: l2).foldl (evictStep cfg) (s, st)
        = (l1 ++ l2).foldl (evictStep cfg) (s, st))
    ∧ (∀ (b : Bool) (o : FsOracle) (x : String),
        o.copyFails x = true → o.unlinkFails x = true →
        ∀ acc, fixOrphanStep b o acc x = acc)
    ∧ (∀ (b : Bool) (o : FsOracle) (x : String) (l1 l2 : List String)
        (s : StoreState) (r : FixResult),
        o.copyFails x = true → o.unlinkFails x = true →
      (l1 ++ x :: l2).foldl (fixOrphanStep b o) (s, r)
        = (l1 ++ l2).foldl (fixOrphanStep b o) (s, r)) := by
  refine ⟨?_, ?_, ?_, ?_⟩
  · intro cfg s st m hph hfile
    exact evictStep_skip cfg s st m hph hfile
  · intro cfg l1 l2 m s st hph hfile
    rw [List.foldl_append, List.foldl_append, List.foldl_cons]
    have hacc : l1.foldl (evictStep cfg) (s, st)
        = ((l1.foldl (evictStep cfg) (s, st)).1,
           (l1.foldl (evictStep cfg) (s, st)).2) := rfl
    rw [hacc, evictStep_skip cfg _ _ m hph hfile]
  · intro b o x hcopy hunlink acc
    exact fixOrphanStep_skip b o x hcopy hunlink acc
  · intro b o x l1 l2 s r hcopy hunlink
    rw [List.foldl_append, List.foldl_append, List.foldl_cons,
      fixOrphanStep_skip b o x hcopy hunlink]

/-- Oracle failing exactly on `"bad"` for the C9 witness. -/
def badOracle : FsOracle := ⟨fun i => i = "bad", fun i => i = "bad"⟩

/-- Concrete state for the C9 witness: two orphaned files, a missing
batch record. -/
def c9State : StoreState :=
  ⟨[], [], [("good", "g"), ("bad", "b")], [], 1⟩

/-- A batch record whose file does not exist. -/
def c9Rec : Summary := ⟨"gone", "t", [], 0, 1/2, 1/2, "", 0, ""⟩

/-- Witness for C9: the missing-file batch record is skipped, and the
fully-failing orphan item is skipped while the loop continues. -/
theorem claim_C9_witness :
    evictStep ⟨1, 1, 200, 100⟩ (c9State, ⟨0, some (0, 0, 0), 0, 0⟩) c9Rec
      = (c9State, ⟨0, some (0, 0, 0), 0, 0⟩)
    ∧ (["bad", "good"].foldl (fixOrphanStep true badOracle)
        (c9State, ⟨0, 0, 0, 0, 0⟩))
      = (["good"].foldl (fixOrphanStep true badOracle)
        (c9State, ⟨0, 0, 0, 0, 0⟩)) :=
  ⟨claim_C9.1 ⟨1, 1, 200, 100⟩ c9State ⟨0, some (0, 0, 0), 0, 0⟩ c9Rec
     (by with_unfolding_all decide) (by with_unfolding_all rfl),
   claim_C9.2.2.2 true badOracle "bad" [] ["good"] c9State ⟨0, 0, 0, 0, 0⟩
     (by with_unfolding_all rfl) (by with_unfolding_all rfl)⟩

/-! ### Claim C6: restore from archive -/

theorem dset_ne_nil {α : Type} (d : List (String × α)) (k : String)
    (v : α) : dset d k v ≠ [] := by
  unfold dset
  split
  · rename_i hany
    intro hmap
    cases d with
    | nil => simp at hany
    | cons c t => simp at hmap
  · simp

/-- `_parse_memory_file` never returns an empty dict (it always sets
at least the `content` key), so `restore_from_archive`'s
"parses to nothing" early return is unreachable. -/
theorem parseMemoryFile_ne_nil (raw : String) :
    parseMemoryFile raw ≠ [] := by
  unfold parseMemoryFile
  cases h : splitFrontmatter raw with
  | none => simp
  | some p => exact dset_ne_nil _ _ _

/-- The dict `restore_from_archive`'s update writes: the active file's
parse with the archived content merged in and phase reset to 0. -/
def restoredMd (archRaw fileRaw : String) : MemoryData :=
  applyFields (parseMemoryFile fileRaw)
    { content := some (contentOf (parseMemoryFile archRaw)),
      phase := some 0 }

/-- Scenario-4 pipeline: create, evict once (hint reduction), restore. -/
def c6Store : StoreState :=
  (MemoryStore.create ⟨[], [], [], [], 1⟩ "T" "C" [] (1/2) 0xab12cd34
    "2025-01-01T00:00:00+00:00").2

/-- The id `create` generated above. -/
def c6Id : String := "mem_ab12cd34"

/-- The state after one eviction run (the memory is hint-reduced and
archived). -/
def c6Evicted : StoreState :=
  (EvictionManager.run ⟨0, 1, 200, 100⟩ c6Store).1

/-- The state and flag after restoring from the archive. -/
def c6Restored : StoreState × Bool := restoreFromArchive c6Evicted c6Id

set_option maxRecDepth 40000 in
/-- C6: `restore_from_archive` returns false when no archive exists;
the archive never parses to nothing (that guard is dead code); an
exception inside the update (missing active file) yields false rather
than propagating; otherwise it rewrites the active file as the record
with the archived content and phase 0 and syncs phase 0 into the index
entry; and in scenario 4 a restore after a hint-reduction brings back
the exact original content with phase 0. -/
theorem claim_C6 :
    (∀ (s : StoreState) (memory_id : String),
      dget s.archives memory_id = none →
      restoreFromArchive s memory_id = (s, false))
    ∧ (∀ raw : String, parseMemoryFile raw ≠ [])
    ∧ (∀ (s : StoreState) (memory_id raw : String),
        dget s.archives memory_id = some raw →
        dget s.files memory_id = none →
        restoreFromArchive s memory_id = (s, false))
    ∧ (∀ (s : StoreState) (memory_id raw fraw : String),
        dget s.archives memory_id = some raw →
        dget s.files memory_id = some fraw →
        (restoreFromArchive s memory_id).2 = true
        ∧ dget (restoreFromArchive s memory_id).1.files memory_id
            = some (serializeMemory (restoredMd raw fraw))
        ∧ dget (restoredMd raw fraw) "content"
            = some (.str (contentOf (parseMemoryFile raw)))
        ∧ dget (restoredMd raw fraw) "phase" = some (.int 0)
        ∧ (∀ e, dget s.index memory_id = some e →
            dget (restoreFromArchive s memory_id).1.index memory_id
              = some { e with phase := 0 }))
    ∧ c6Restored.2 = true
    ∧ (MemoryStore.read c6Restored.1 c6Id false "").toOption.map
        (fun p => (contentOf p.1, dget p.1 "phase"))
        = some ("C", some (.int 0))
    ∧ (dget c6Restored.1.index c6Id).map (·.phase) = some 0 := by
  refine ⟨?_, parseMemoryFile_ne_nil, ?_, ?_,
    by with_unfolding_all rfl, by with_unfolding_all rfl,
    by with_unfolding_all rfl⟩
  · intro s memory_id h
    unfold restoreFromArchive
    rw [h]
  · intro s memory_id raw hraw hfile
    have hne : (parseMemoryFile raw).isEmpty = false := by
      simpa using parseMemoryFile_ne_nil raw
    have hupd : MemoryStore.update s memory_id
        { content := some (contentOf (parseMemoryFile raw)),
          phase := some 0 } = .error .notFound := by
      unfold MemoryStore.update
      rw [hfile]
    unfold restoreFromArchive
    rw [hraw]
    simp only [hne, Bool.false_eq_true, if_false, hupd]
  · intro s memory_id raw fraw hraw hfile
    have hne : (parseMemoryFile raw).isEmpty = false := by
      simpa using parseMemoryFile_ne_nil raw
    have hupd : MemoryStore.update s memory_id
        { content := some (contentOf (parseMemoryFile raw)),
          phase := some 0 }
        = .ok { s with
            files := dset s.files memory_id
              (serializeMemory (restoredMd raw fraw)),
            index :=
              match dget s.index memory_id with
              | none => s.index
              | some e => dset s.index memory_id { e with phase := 0 } } := by
      unfold MemoryStore.update
      rw [hfile]
      rfl
    have hres : restoreFromArchive s memory_id
        = ({ s with
              files := dset s.files memory_id
                (serializeMemory (restoredMd raw fraw)),
              index :=
                match dget s.index memory_id with
                | none => s.index
                | some e => dset s.index memory_id { e with phase := 0 } },
           true) := by
      unfold restoreFromArchive
      rw [hraw]
      simp only [hne, Bool.false_eq_true, if_false, hupd]
    refine ⟨by rw [hres], by rw [hres]; exact dget_dset_self _ _ _,
      ?_, ?_, ?_⟩
    · unfold restoredMd applyFields
      simp only []
      rw [dget_dset_ne _ _ _ _ (by decide)]
      exact dget_dset_self _ _ _
    · unfold restoredMd applyFields
      simp only []
      exact dget_dset_self _ _ _
    · intro e he
      rw [hres]
      simp only [he]
      exact dget_dset_self _ _ _

/-- A concrete state for the C6 witness: an archived record whose
active file holds a reduced hint. -/
def c6W : StoreState :=
  ⟨[("m", ⟨"t", [], 1, 1/2, "d"⟩)], [],
   [("m", "---\nphase: 1\n---\nHint\n")],
   [("m", "---\nphase: 0\n---\nOriginal text\n")], 1⟩

/-- Witness for C6. -/
theorem claim_C6_witness :
    restoreFromArchive ⟨[], [], [], [], 1⟩ "z" = (⟨[], [], [], [], 1⟩, false)
    ∧ (restoreFromArchive c6W "m").2 = true
    ∧ dget (restoredMd "---\nphase: 0\n---\nOriginal text\n"
        "---\nphase: 1\n---\nHint\n") "content"
        = some (.str "Original text")
    ∧ dget (restoredMd "---\nphase: 0\n---\nOriginal text\n"
        "---\nphase: 1\n---\nHint\n") "phase" = some (.int 0) := by
  have h4 := claim_C6.2.2.2.1 c6W "m"
    "---\nphase: 0\n---\nOriginal text\n" "---\nphase: 1\n---\nHint\n"
    (by with_unfolding_all rfl) (by with_unfolding_all rfl)
  refine ⟨claim_C6.1 ⟨[], [], [], [], 1⟩ "z" (by with_unfolding_all rfl),
    h4.1, ?_, h4.2.2.2.1⟩
  have := h4.2.2.1
  rw [this]
  with_unfolding_all rfl

/-! ### Round-trip machinery: writing a record and parsing it back -/

theorem pyIsDigit_ne_nl (c : Char) (h : pyIsDigit c = true) : c ≠ '\n' := by
  intro hc
  rw [hc] at h
  simp [pyIsDigit] at h

theorem digitChar_isDigit (m : Nat) : pyIsDigit (digitChar m) = true := by
  unfold digitChar
  have h : m % 10 < 10 := Nat.mod_lt _ (by norm_num)
  interval_cases h10 : m % 10 <;> decide

theorem natDigitsAux_digits (fuel n : Nat) :
    ∀ c ∈ natDigitsAux 0 fuel n, pyIsDigit c = true := by
  induction fuel generalizing n with
  | zero => intro c hc; simp [natDigitsAux] at hc
  | succ f ih =>
    intro c hc
    unfold natDigitsAux at hc
    split at hc
    · simp at hc
      rw [hc]
      exact digitChar_isDigit n
    · rcases List.mem_cons.mp hc with h | h
      · rw [h]; exact digitChar_isDigit (n % 10)
      · exact ih (n / 10) c h

theorem natStr_chars (n : Nat) :
    ∀ c ∈ (natStr n).data, pyIsDigit c = true := by
  intro c hc
  unfold natStr at hc
  rw [List.mem_reverse] at hc
  exact natDigitsAux_digits (n + 1) n c hc

theorem natStr_noNL (n : Nat) : noNL (natStr n) := by
  intro hc
  exact pyIsDigit_ne_nl '\n' (natStr_chars n '\n' hc) rfl

theorem natStr_ne_empty (n : Nat) : natStr n ≠ "" := by
  unfold natStr natDigitsAux
  split
  · intro h
    have := congrArg String.data h
    simp at this
  · intro h
    have := congrArg String.data h
    simp at this

theorem intStr_noNL (n : Int) : noNL (intStr n) := by
  cases n with
  | ofNat m => exact natStr_noNL m
  | negSucc m =>
    show '\n' ∉ ("-" ++ natStr (m + 1)).data
    rw [String.data_append]
    intro hmem
    rcases List.mem_append.mp hmem with h | h
    · simp at h
    · exact natStr_noNL (m + 1) h

theorem decimalDigits_digits (scaled k : Nat) :
    ∀ c ∈ decimalDigits scaled k, pyIsDigit c = true := by
  intro c hc
  rcases List.mem_append.mp hc with h | h
  · exact natDigitsAux_digits _ _ c h
  · rw [List.eq_of_mem_replicate h]
    decide

theorem renderFloat_chars (q : Rat) :
    ∀ c ∈ (renderFloat q).data,
      c = '-' ∨ c = '.' ∨ pyIsDigit c = true := by
  intro c hc
  unfold renderFloat at hc
  cases hs : findScaleAux q.den 1100 0 with
  | none =>
    rw [hs] at hc
    rw [show ("0.0" : String).data = ['0', '.', '0'] from rfl] at hc
    simp only [List.mem_cons, List.not_mem_nil, or_false] at hc
    rcases hc with h | h | h
    · right; right; rw [h]; decide
    · right; left; exact h
    · right; right; rw [h]; decide
  | some k =>
    rw [hs] at hc
    simp only [String.data_append] at hc
    have hpad := decimalDigits_digits (q.num.natAbs * (10 ^ k / q.den)) k
    rcases List.mem_append.mp hc with h | h
    · rcases List.mem_append.mp h with h | h
      · rcases List.mem_append.mp h with h | h
        · left
          split at h <;> simp_all
        · right; right
          split at h
          · simp at h
            rw [h]; decide
          · apply hpad
            have hmem := h
            have hsub : ((decimalDigits (q.num.natAbs * (10 ^ k / q.den)) k).drop
                k).reverse.dropWhile (fun c => c = '0')
                ⊆ decimalDigits (q.num.natAbs * (10 ^ k / q.den)) k := by
              intro x hx
              have hx2 := (List.dropWhile_sublist (fun c => decide (c = '0'))).subset hx
              rw [List.mem_reverse] at hx2
              exact List.drop_subset _ _ hx2
            exact hsub hmem
      · right; left
        simpa using h
    · right; right
      split at h
      · simp at h
        rw [h]; decide
      · apply hpad
        rw [List.mem_reverse] at h
        have hx2 := (List.dropWhile_sublist (fun c => decide (c = '0'))).subset h
        exact List.take_subset _ _ hx2

theorem renderFloat_noNL (q : Rat) : noNL (renderFloat q) := by
  intro hc
  rcases renderFloat_chars q '\n' hc with h | h | h
  · simp at h
  · simp at h
  · exact pyIsDigit_ne_nl '\n' h rfl



/-- Values whose rendering stays on one frontmatter line. -/
def valSafe : YamlValue → Prop
  | .str v => noNL v
  | .list items => ∀ it ∈ items, noNL it
  | .bool _ => True
  | .int _ => True
  | .float _ => True

/-- Every entry other than `content` renders on single lines. -/
def lineSafe (md : MemoryData) : Prop :=
  ∀ p ∈ md, p.1 ≠ "content" → valSafe p.2

theorem dget_mem {α : Type} (d : List (String × α)) (k : String) (v : α)
    (h : dget d k = some v) : (k, v) ∈ d := by
  unfold dget at h
  cases hf : d.find? (fun p => p.1 = k) with
  | none => rw [hf] at h; simp at h
  | some p =>
    rw [hf] at h
    simp at h
    have hmem := List.mem_of_find?_eq_some hf
    have hpred := List.find?_some hf
    simp at hpred
    have : p = (k, v) := by
      cases p
      simp_all
    rw [← this]
    exact hmem

theorem mem_dset {α : Type} (d : List (String × α)) (k : String) (v : α)
    (p : String × α) (h : p ∈ dset d k v) : p ∈ d ∨ p = (k, v) := by
  unfold dset at h
  split at h
  · obtain ⟨q, hq, hqe⟩ := List.mem_map.mp h
    split at hqe
    · right; exact hqe.symm
    · left; rw [← hqe]; exact hq
  · rcases List.mem_append.mp h with h | h
    · left; exact h
    · right; simpa using h

theorem splitOnChar_ne_nil (sep : Char) (cs : List Char) :
    splitOnChar sep cs ≠ [] := by
  cases cs with
  | nil => simp [splitOnChar]
  | cons c rest =>
    unfold splitOnChar
    split
    · simp
    · split <;> simp

theorem splitOnChar_pieces (sep : Char) (cs : List Char) :
    ∀ piece ∈ splitOnChar sep cs, sep ∉ piece := by
  induction cs with
  | nil =>
    intro piece hp
    simp [splitOnChar] at hp
    rw [hp]
    simp
  | cons c rest ih =>
    intro piece hp
    unfold splitOnChar at hp
    split at hp
    · rcases List.mem_cons.mp hp with h | h
      · rw [h]; simp
      · exact ih piece h
    · rename_i hc
      cases hrec : splitOnChar sep rest with
      | nil => exact absurd hrec (splitOnChar_ne_nil sep rest)
      | cons p ps =>
        rw [hrec] at hp
        rcases List.mem_cons.mp hp with h | h
        · rw [h]
          intro hmem
          rcases List.mem_cons.mp hmem with h2 | h2
          · exact hc h2.symm
          · exact ih p (by rw [hrec]; exact List.mem_cons_self p ps) h2
        · exact ih piece (by rw [hrec]; exact List.mem_cons_of_mem p h)

theorem partitionColon_subset (cs : List Char) :
    (∀ c ∈ (partitionColon cs).1, c ∈ cs)
    ∧ (∀ c ∈ (partitionColon cs).2, c ∈ cs) := by
  induction cs with
  | nil => simp [partitionColon]
  | cons c rest ih =>
    simp only [partitionColon]
    split
    · constructor
      · intro x hx
        simp at hx
      · intro x hx
        exact List.mem_cons_of_mem _ hx
    · constructor
      · intro x hx
        rcases List.mem_cons.mp hx with h | h
        · rw [h]; exact List.mem_cons_self _ _
        · exact List.mem_cons_of_mem _ (ih.1 x h)
      · intro x hx
        exact List.mem_cons_of_mem _ (ih.2 x hx)

theorem pyStrip_noNL (s : String) (h : noNL s) : noNL (pyStrip s) := by
  intro hmem
  apply h
  unfold pyStrip stripRChars stripLChars at hmem
  have h1 := (List.dropWhile_sublist pyIsSpace).subset
    (List.mem_reverse.mp hmem)
  rw [List.mem_reverse] at h1
  exact (List.dropWhile_sublist pyIsSpace).subset h1

theorem stripQuotes_noNL (s : String) (h : noNL s) :
    noNL (stripQuotes s) := by
  unfold stripQuotes
  split
  · intro hmem
    apply h
    exact List.drop_subset 1 s.data
      ((List.dropLast_sublist _).subset hmem)
  · exact h

theorem convertScalar_safe (v : String) (h : noNL v) :
    valSafe (convertScalar v) := by
  unfold convertScalar
  split
  · trivial
  · split
    · split
      · split <;> first | trivial | exact h
      · split <;> first | trivial | exact h
    · exact h

/-- Every entry `_parse_simple_yaml` ever builds is line-safe. -/
theorem yamlLine_safe (st : YState) (line : String)
    (hline : noNL line)
    (hst : ∀ p ∈ st.data, valSafe p.2) :
    ∀ p ∈ (yamlLine st line).data, valSafe p.2 := by
  have hrstrip : noNL (pyRStrip line) := by
    intro hmem
    apply hline
    unfold pyRStrip stripRChars at hmem
    have h1 := (List.dropWhile_sublist pyIsSpace).subset
      (List.mem_reverse.mp hmem)
    rwa [List.mem_reverse] at h1
  simp only [yamlLine]
  split
  · exact hst
  · split
    · split
      · exact hst
      · rename_i k hcur
        intro p hp
        unfold appendToList at hp
        cases hd : dget st.data k with
        | none => rw [hd] at hp; exact hst p hp
        | some v0 =>
          rw [hd] at hp
          cases v0 with
          | list items =>
            rcases mem_dset _ _ _ _ hp with h | h
            · exact hst p h
            · rw [h]
              intro it hit
              rcases List.mem_append.mp hit with h2 | h2
              · exact hst _ (dget_mem _ _ _ hd) it h2
              · simp at h2
                rw [h2]
                apply stripQuotes_noNL
                apply pyStrip_noNL
                intro hmem
                exact hrstrip (List.drop_subset 4 _ hmem)
          | str v => exact hst p (by simpa using hp)
          | bool b => exact hst p (by simpa using hp)
          | int n => exact hst p (by simpa using hp)
          | float q => exact hst p (by simpa using hp)
    · split
      · split
        · intro p hp
          rcases mem_dset _ _ _ _ hp with h | h
          · exact hst p h
          · rw [h]
            intro it hit
            simp at hit
        · intro p hp
          rcases mem_dset _ _ _ _ hp with h | h
          · exact hst p h
          · rw [h]
            apply convertScalar_safe
            apply stripQuotes_noNL
            apply pyStrip_noNL
            intro hmem
            exact hrstrip ((partitionColon_subset _).2 '\n' hmem)
      · exact hst

/-- All values `_parse_simple_yaml` returns are line-safe. -/
theorem parseSimpleYaml_safe (text : String) :
    ∀ p ∈ parseSimpleYaml text, valSafe p.2 := by
  unfold parseSimpleYaml
  have hpieces := splitOnChar_pieces '\n' text.data
  generalize hls : splitOnChar '\n' text.data = pieces at hpieces
  have hgen : ∀ (pieces : List (List Char)) (st : YState),
      (∀ piece ∈ pieces, '\n' ∉ piece) →
      (∀ p ∈ st.data, valSafe p.2) →
      ∀ p ∈ (pieces.foldl (fun st cs => yamlLine st (⟨cs⟩ : String))
        st).data, valSafe p.2 := by
    intro pieces
    induction pieces with
    | nil => intro st _ hst; exact hst
    | cons piece rest ih =>
      intro st hp hst
      rw [List.foldl_cons]
      apply ih
      · intro x hx; exact hp x (List.mem_cons_of_mem _ hx)
      · exact yamlLine_safe st ⟨piece⟩
          (hp piece (List.mem_cons_self _ _)) hst
  exact hgen pieces ⟨[], none⟩ hpieces (by simp)

/-- L1: every parsed memory dict is line-safe. -/
theorem lineSafe_parse (raw : String) : lineSafe (parseMemoryFile raw) := by
  unfold parseMemoryFile
  cases h : splitFrontmatter raw with
  | none =>
    intro p hp hne
    simp at hp
    rw [hp] at hne
    simp at hne
  | some fb =>
    intro p hp hne
    rcases mem_dset _ _ _ _ hp with h2 | h2
    · exact parseSimpleYaml_safe fb.1 p h2
    · rw [h2] at hne
      simp at hne

theorem noNL_append (a b : String) (ha : noNL a) (hb : noNL b) :
    noNL (a ++ b) := by
  intro h
  rw [String.data_append] at h
  rcases List.mem_append.mp h with h | h
  · exact ha h
  · exact hb h

/-- Structural origin of a frontmatter line. -/
theorem mem_fieldLines (md : MemoryData) (line : String)
    (h : line ∈ fieldLines md) :
    ∃ f v, f ∈ fieldOrder ∧ dget md f = some v
      ∧ line ∈ renderField f v := by
  unfold fieldLines at h
  have hgen : ∀ fs : List String,
      line ∈ fs.foldr (fun f acc =>
        match dget md f with
        | some v => renderField f v ++ acc
        | none => acc) [] →
      ∃ f v, f ∈ fs ∧ dget md f = some v ∧ line ∈ renderField f v := by
    intro fs
    induction fs with
    | nil => intro hh; simp at hh
    | cons f fs' ih =>
      intro hh
      rw [List.foldr_cons] at hh
      cases hd : dget md f with
      | none =>
        rw [hd] at hh
        obtain ⟨g, v, hg, hgv, hl⟩ := ih hh
        exact ⟨g, v, List.mem_cons_of_mem _ hg, hgv, hl⟩
      | some v =>
        rw [hd] at hh
        rcases List.mem_append.mp hh with h2 | h2
        · exact ⟨f, v, List.mem_cons_self _ _, hd, h2⟩
        · obtain ⟨g, w, hg, hgw, hl⟩ := ih h2
          exact ⟨g, w, List.mem_cons_of_mem _ hg, hgw, hl⟩
  exact hgen fieldOrder h

/-- The facts `fmOKb` needs about every rendered frontmatter line. -/
theorem fieldLines_facts (md : MemoryData) (hsafe : lineSafe md) :
    ∀ line ∈ fieldLines md,
      line.data ≠ [] ∧ noNL line ∧ line.data.head? ≠ some '-' := by
  intro line hline
  obtain ⟨f, v, hf, hv, hr⟩ := mem_fieldLines md line hline
  have hfprops : f.data ≠ [] ∧ noNL f ∧ f.data.head? ≠ some '-'
      ∧ f ≠ "content" := by
    have : f ∈ fieldOrder := hf
    unfold fieldOrder at this
    fin_cases this <;> refine ⟨by decide, by decide, by decide, by decide⟩
  have hvsafe : valSafe v :=
    hsafe (f, v) (dget_mem md f v hv) hfprops.2.2.2
  have hhead : ∀ (t : String), ((f ++ t) : String).data.head? = f.data.head? := by
    intro t
    rw [String.data_append]
    cases hd : f.data with
    | nil => exact absurd hd hfprops.1
    | cons c cs => simp
  have hne : ∀ (t : String), ((f ++ t) : String).data ≠ [] := by
    intro t h
    rw [String.data_append] at h
    have := List.append_eq_nil.mp h
    exact hfprops.1 this.1
  cases v with
  | str v0 =>
    simp only [renderField, List.mem_singleton] at hr
    subst hr
    refine ⟨?_, ?_, ?_⟩
    · rw [String.append_assoc, String.append_assoc]
      exact hne _
    · apply noNL_append
      apply noNL_append
      apply noNL_append
      · exact hfprops.2.1
      · decide
      · exact hvsafe
      · decide
    · rw [String.append_assoc, String.append_assoc, hhead]
      exact hfprops.2.2.1
  | bool b =>
    simp only [renderField, List.mem_singleton] at hr
    subst hr
    refine ⟨?_, ?_, ?_⟩
    · rw [String.append_assoc]
      exact hne _
    · apply noNL_append
      · apply noNL_append
        · exact hfprops.2.1
        · decide
      · cases b <;> decide
    · rw [String.append_assoc, hhead]
      exact hfprops.2.2.1
  | int n =>
    simp only [renderField, List.mem_singleton] at hr
    subst hr
    refine ⟨?_, ?_, ?_⟩
    · rw [String.append_assoc]
      exact hne _
    · apply noNL_append
      · apply noNL_append
        · exact hfprops.2.1
        · decide
      · exact intStr_noNL n
    · rw [String.append_assoc, hhead]
      exact hfprops.2.2.1
  | float q =>
    simp only [renderField, List.mem_singleton] at hr
    subst hr
    refine ⟨?_, ?_, ?_⟩
    · rw [String.append_assoc]
      exact hne _
    · apply noNL_append
      · apply noNL_append
        · exact hfprops.2.1
        · decide
      · exact renderFloat_noNL q
    · rw [String.append_assoc, hhead]
      exact hfprops.2.2.1
  | list items =>
    simp only [renderField] at hr
    rcases List.mem_cons.mp hr with h2 | h2
    · subst h2
      refine ⟨hne _, ?_, by rw [hhead]; exact hfprops.2.2.1⟩
      apply noNL_append
      · exact hfprops.2.1
      · decide
    · obtain ⟨it, hit, hite⟩ := List.mem_map.mp h2
      subst hite
      have hitsafe : noNL it := hvsafe it hit
      refine ⟨?_, ?_, ?_⟩
      · intro h
        rw [String.data_append] at h
        have := List.append_eq_nil.mp h
        have h4 : ("  - " : String).data = [' ', ' ', '-', ' '] := rfl
        rw [h4] at this
        exact absurd this.1 (by simp)
      · apply noNL_append
        · decide
        · exact hitsafe
      · rw [String.data_append]
        intro h
        simp [show ("  - " : String).data = [' ', ' ', '-', ' '] from rfl]
          at h

/-- The frontmatter shape the close-search relies on: every newline is
followed by a character other than `-`. -/
def fmOKb : List Char → Bool
  | [] => true
  | c :: rest =>
    if c = '\n' then
      match rest with
      | [] => false
      | d :: _ => if d = '-' then false else fmOKb rest
    else fmOKb rest

theorem fmOKb_cons_other (c : Char) (rest : List Char) (h : c ≠ '\n') :
    fmOKb (c :: rest) = fmOKb rest := by
  have hstep : fmOKb (c :: rest)
      = if c = '\n' then
          (match rest with
           | [] => false
           | d :: _ => if d = '-' then false else fmOKb rest)
        else fmOKb rest := rfl
  rw [hstep, if_neg h]

theorem fmOKb_append_noNL (l m : List Char) (hl : '\n' ∉ l)
    (hm : fmOKb m = true) : fmOKb (l ++ m) = true := by
  induction l with
  | nil => simpa using hm
  | cons c l' ih =>
    have hc : c ≠ '\n' := fun h => hl (h ▸ List.mem_cons_self c l')
    rw [List.cons_append, fmOKb_cons_other c _ hc]
    exact ih (fun h => hl (List.mem_cons_of_mem c h))

theorem fmOKb_all_noNL (l : List Char) (hl : '\n' ∉ l) :
    fmOKb l = true := by
  have := fmOKb_append_noNL l [] hl rfl
  simpa using this

/-- Head of a joined non-empty line list. -/
theorem pyJoin_head (q : String) (rest : List String)
    (hq : q.data ≠ []) :
    (pyJoin "\n" (q :: rest)).data.head? = q.data.head? := by
  cases rest with
  | nil => rfl
  | cons r rest' =>
    show ((q ++ "\n" ++ pyJoin "\n" (r :: rest')) : String).data.head?
      = q.data.head?
    rw [String.data_append, String.data_append]
    cases hd : q.data with
    | nil => exact absurd hd hq
    | cons c cs => simp

/-- M3: the joined frontmatter of well-shaped lines is `fmOKb`. -/
theorem fmOKb_join (lines : List String)
    (h : ∀ line ∈ lines,
      line.data ≠ [] ∧ noNL line ∧ line.data.head? ≠ some '-') :
    fmOKb (pyJoin "\n" lines).data = true := by
  induction lines with
  | nil => decide
  | cons p rest ih =>
    cases rest with
    | nil =>
      show fmOKb (pyJoin "\n" [p]).data = true
      exact fmOKb_all_noNL p.data (h p (List.mem_cons_self _ _)).2.1
    | cons q rest' =>
      have hp := h p (List.mem_cons_self _ _)
      have hq := h q (List.mem_cons_of_mem _ (List.mem_cons_self _ _))
      have hrest : ∀ line ∈ q :: rest',
          line.data ≠ [] ∧ noNL line ∧ line.data.head? ≠ some '-' :=
        fun line hl => h line (List.mem_cons_of_mem _ hl)
      show fmOKb ((p ++ "\n" ++ pyJoin "\n" (q :: rest')) : String).data
        = true
      rw [String.data_append, String.data_append]
      rw [List.append_assoc]
      apply fmOKb_append_noNL _ _ hp.2.1
      have hjoin := ih hrest
      cases hjd : (pyJoin "\n" (q :: rest')).data with
      | nil =>
        have := pyJoin_head q rest' hq.1
        rw [hjd] at this
        cases hqd : q.data with
        | nil => exact absurd hqd hq.1
        | cons c cs => rw [hqd] at this; simp at this
      | cons d t =>
        have hdq : some d ≠ some '-' := by
          have := pyJoin_head q rest' hq.1
          rw [hjd] at this
          rw [← this] at hq
          exact fun hdd => hq.2.2 (by simp_all)
        have hD : ¬ (d = '-') := fun hdd => hdq (by rw [hdd])
        have hstep : fmOKb (('\n' : Char) :: d :: t)
            = if d = '-' then false else fmOKb (d :: t) := rfl
        show fmOKb ('\n' :: d :: t) = true
        rw [hstep, if_neg hD]
        rw [hjd] at hjoin
        exact hjoin

/-- Soundness of the `\s*\n` candidate list: every candidate is what
remains after a whitespace prefix and one newline. -/
theorem msnCands_sound (cs : List Char) :
    ∀ r ∈ msnCands cs,
      ∃ w, cs = w ++ '\n' :: r ∧ ∀ c ∈ w, pyIsSpace c = true := by
  induction cs with
  | nil => intro r hr; simp [msnCands] at hr
  | cons c rest ih =>
    intro r hr
    unfold msnCands at hr
    split at hr
    · rcases List.mem_append.mp hr with h | h
      · obtain ⟨w, hw, hws⟩ := ih r h
        refine ⟨c :: w, by rw [hw]; rfl, ?_⟩
        intro x hx
        rcases List.mem_cons.mp hx with h2 | h2
        · rw [h2]; assumption
        · exact hws x h2
      · split at h
        · simp at h
          rename_i hnl
          exact ⟨[], by rw [h, hnl]; rfl, by simp⟩
        · simp at h
    · simp at hr

/-- The open/close `\s*\n` always matches right before a newline. -/
theorem msnFirst_cons_newline (cs : List Char) :
    ∃ r, msnFirst ('\n' :: cs) = some r ∧ r ∈ msnCands ('\n' :: cs) := by
  have hexp : msnCands ('\n' :: cs) = msnCands cs ++ [cs] := by
    have hsp : pyIsSpace '\n' = true := by decide
    simp [msnCands, hsp]
  cases hh : (msnCands cs ++ [cs]).head? with
  | none =>
    exfalso
    have : msnCands cs ++ [cs] ≠ [] := by simp
    cases hc : msnCands cs ++ [cs] with
    | nil => exact this hc
    | cons a t => rw [hc] at hh; simp at hh
  | some r =>
    refine ⟨r, ?_, ?_⟩
    · unfold msnFirst
      rw [hexp, hh]
    · rw [hexp]
      exact List.mem_of_mem_head? hh

theorem stripL_ws (w l : List Char) (hw : ∀ c ∈ w, pyIsSpace c = true) :
    stripLChars (w ++ l) = stripLChars l := by
  induction w with
  | nil => rfl
  | cons c w' ih =>
    rw [List.cons_append]
    unfold stripLChars
    rw [List.dropWhile_cons_of_pos (hw c (List.mem_cons_self _ _))]
    exact ih (fun x hx => hw x (List.mem_cons_of_mem _ hx))

theorem stripR_nl (l : List Char) :
    stripRChars (l ++ ['\n']) = stripRChars l := by
  unfold stripRChars
  rw [List.reverse_append]
  simp only [List.reverse_cons, List.reverse_nil, List.nil_append,
    List.singleton_append]
  rw [List.dropWhile_cons_of_pos (by decide)]

/-- Stripping commutes with the extra newline the writer appends. -/
theorem strip_body_nl (l : List Char) :
    stripRChars (stripLChars (l ++ ['\n']))
      = stripRChars (stripLChars l) := by
  unfold stripLChars
  rw [List.dropWhile_append]
  split
  · rename_i hempty
    rw [List.isEmpty_iff] at hempty
    rw [hempty]
    decide
  · exact stripR_nl _

/-- M5(c): any successful `\s*\n` match right after the closing `---`
yields a body that strips to the stored content. -/
theorem msn_body_strip (content : String) (r : List Char)
    (hr : r ∈ msnCands ('\n' :: (content.data ++ ['\n']))) :
    pyStrip ⟨r⟩ = pyStrip content := by
  obtain ⟨w, hw, hws⟩ := msnCands_sound _ r hr
  have h1 : stripLChars ('\n' :: (content.data ++ ['\n']))
      = stripLChars (content.data ++ ['\n']) := by
    show stripLChars (['\n'] ++ (content.data ++ ['\n']))
      = stripLChars (content.data ++ ['\n'])
    exact stripL_ws ['\n'] _ (by decide)
  have h2 : stripLChars (w ++ '\n' :: r) = stripLChars r := by
    rw [show w ++ '\n' :: r = (w ++ ['\n']) ++ r by simp]
    apply stripL_ws
    intro c hc
    rcases List.mem_append.mp hc with h | h
    · exact hws c h
    · simp at h; rw [h]; decide
  have hL : stripLChars r = stripLChars (content.data ++ ['\n']) := by
    rw [← h1, hw, h2]
  show (⟨stripRChars (stripLChars r)⟩ : String) = pyStrip content
  rw [hL, strip_body_nl]
  rfl

/-- M4: the lazy close search commits at the `\n---` junction when the
frontmatter never has a `-` right after a newline. -/
theorem findClose_junction (fm rest body : List Char)
    (hfm : fmOKb fm = true) (hr : msnFirst rest = some body) :
    findClose (fm ++ '\n' :: '-' :: '-' :: '-' :: rest)
      = some (fm, body) := by
  induction fm with
  | nil =>
    show findClose ('\n' :: '-' :: '-' :: '-' :: rest) = some ([], body)
    rw [findClose]
    have hpre : (('\n' :: '-' :: '-' :: '-' :: []) :
        List Char).isPrefixOf ('\n' :: '-' :: '-' :: '-' :: rest)
        = true := by
      simp [List.isPrefixOf]
    rw [hpre]
    show (match msnFirst rest with
          | some b => some (([] : List Char), b)
          | none => (findClose ('-' :: '-' :: '-' :: rest)).map
              (fun p => ('\n' :: p.1, p.2))) = some ([], body)
    rw [hr]
  | cons c fm' ih =>
    by_cases hc : c = '\n'
    · subst hc
      cases fm' with
      | nil => exact absurd hfm (by decide)
      | cons d fm'' =>
        have hstepOK : fmOKb ('\n' :: d :: fm'')
            = if d = '-' then false else fmOKb (d :: fm'') := rfl
        rw [hstepOK] at hfm
        by_cases hd : d = '-'
        · rw [if_pos hd] at hfm; simp at hfm
        · rw [if_neg hd] at hfm
          show findClose ('\n' :: ((d :: fm'')
              ++ '\n' :: '-' :: '-' :: '-' :: rest))
            = some ('\n' :: d :: fm'', body)
          rw [findClose]
          have hpre : (('\n' :: '-' :: '-' :: '-' :: []) :
              List Char).isPrefixOf
              ('\n' :: ((d :: fm'')
                ++ '\n' :: '-' :: '-' :: '-' :: rest)) = false := by
            rw [List.cons_append]
            simp [List.isPrefixOf]
            intro h
            exact absurd h.symm hd
          rw [hpre]
          show (findClose ((d :: fm'')
              ++ '\n' :: '-' :: '-' :: '-' :: rest)).map
              (fun p => ('\n' :: p.1, p.2))
            = some ('\n' :: d :: fm'', body)
          rw [ih hfm]
          rfl
    · show findClose (c :: (fm' ++ '\n' :: '-' :: '-' :: '-' :: rest))
        = some (c :: fm', body)
      rw [findClose]
      have hpre : (('\n' :: '-' :: '-' :: '-' :: []) :
          List Char).isPrefixOf
          (c :: (fm' ++ '\n' :: '-' :: '-' :: '-' :: rest)) = false := by
        simp [List.isPrefixOf]
        intro h
        exact absurd h.symm hc
      rw [hpre]
      have hfm' : fmOKb fm' = true := by
        rw [← fmOKb_cons_other c fm' hc]
        exact hfm
      show (findClose (fm' ++ '\n' :: '-' :: '-' :: '-' :: rest)).map
          (fun p => (c :: p.1, p.2))
        = some (c :: fm', body)
      rw [ih hfm']
      rfl

theorem strAppend_facts (f t : String) (hf : f.data ≠ []) :
    ((f ++ t) : String).data ≠ []
    ∧ ((f ++ t) : String).data.head? = f.data.head? := by
  constructor
  · rw [String.data_append]
    intro h
    exact hf (List.append_eq_nil.mp h).1
  · rw [String.data_append]
    cases hd : f.data with
    | nil => exact absurd hd hf
    | cons c cs => simp

/-- The first rendered frontmatter line starts with a field-name
letter, never whitespace. -/
theorem fieldLines_head_nonspace (md : MemoryData) (l : String)
    (ls : List String) (h : fieldLines md = l :: ls) :
    ∀ c, l.data.head? = some c → pyIsSpace c = false := by
  have hgen : ∀ fs : List String,
      (∀ f ∈ fs, f.data ≠ []
        ∧ ∀ c, f.data.head? = some c → pyIsSpace c = false) →
      ∀ l ls, fs.foldr (fun f acc =>
          match dget md f with
          | some v => renderField f v ++ acc
          | none => acc) [] = l :: ls →
      ∀ c, l.data.head? = some c → pyIsSpace c = false := by
    intro fs
    induction fs with
    | nil => intro _ l ls h; simp at h
    | cons f fs' ih =>
      intro hok l ls h
      rw [List.foldr_cons] at h
      cases hd : dget md f with
      | none =>
        rw [hd] at h
        exact ih (fun g hg => hok g (List.mem_cons_of_mem _ hg)) l ls h
      | some v =>
        rw [hd] at h
        have hf := hok f (List.mem_cons_self _ _)
        have hkey : ∀ (t : String), ∀ c,
            ((f ++ t) : String).data.head? = some c →
            pyIsSpace c = false := by
          intro t c hc
          rw [(strAppend_facts f t hf.1).2] at hc
          exact hf.2 c hc
        have h2 : renderField f v ++ fs'.foldr (fun f acc =>
            match dget md f with
            | some v => renderField f v ++ acc
            | none => acc) [] = l :: ls := h
        cases v with
        | str v0 =>
          rw [show renderField f (.str v0)
              = [f ++ ": \"" ++ v0 ++ "\""] from rfl,
            List.singleton_append] at h2
          have hl := (List.cons.injEq _ _ _ _).mp h2
          rw [← hl.1]
          intro c hc
          rw [(strAppend_facts _ "\""
              (strAppend_facts _ v0
                (strAppend_facts f ": \"" hf.1).1).1).2,
            (strAppend_facts _ v0
              (strAppend_facts f ": \"" hf.1).1).2] at hc
          exact hkey ": \"" c hc
        | bool b =>
          rw [show renderField f (.bool b)
              = [f ++ ": " ++ (if b then "True" else "False")] from rfl,
            List.singleton_append] at h2
          have hl := (List.cons.injEq _ _ _ _).mp h2
          rw [← hl.1]
          intro c hc
          rw [(strAppend_facts _ _
              (strAppend_facts f ": " hf.1).1).2] at hc
          exact hkey ": " c hc
        | int n =>
          rw [show renderField f (.int n)
              = [f ++ ": " ++ intStr n] from rfl,
            List.singleton_append] at h2
          have hl := (List.cons.injEq _ _ _ _).mp h2
          rw [← hl.1]
          intro c hc
          rw [(strAppend_facts _ _
              (strAppend_facts f ": " hf.1).1).2] at hc
          exact hkey ": " c hc
        | float q =>
          rw [show renderField f (.float q)
              = [f ++ ": " ++ renderFloat q] from rfl,
            List.singleton_append] at h2
          have hl := (List.cons.injEq _ _ _ _).mp h2
          rw [← hl.1]
          intro c hc
          rw [(strAppend_facts _ _
              (strAppend_facts f ": " hf.1).1).2] at hc
          exact hkey ": " c hc
        | list items =>
          rw [show renderField f (.list items)
              = (f ++ ":") :: items.map (fun it => "  - " ++ it)
              from rfl, List.cons_append] at h2
          have hl := (List.cons.injEq _ _ _ _).mp h2
          rw [← hl.1]
          exact hkey ":"
  apply hgen fieldOrder ?_ l ls h
  intro f hfm
  unfold fieldOrder at hfm
  fin_cases hfm <;>
    exact ⟨by decide, fun c hc => by rw [← Option.some.inj hc]; decide⟩

/-- Joining with the closing `---` and trailing empty piece appends
exactly `\n---\n` to the joined lines. -/
theorem pyJoin_close_data (q : String) (ls : List String) :
    (pyJoin "\n" (q :: (ls ++ ["---", ""]))).data
      = (pyJoin "\n" (q :: ls)).data
        ++ '\n' :: '-' :: '-' :: '-' :: '\n' :: [] := by
  induction ls generalizing q with
  | nil =>
    show ((q ++ "\n" ++ ("---" ++ "\n" ++ "")) : String).data
      = (pyJoin "\n" [q]).data ++ '\n' :: '-' :: '-' :: '-' :: '\n' :: []
    rw [String.data_append, String.data_append,
      show ("\n" : String).data = ['\n'] from rfl,
      show (("---" ++ "\n" ++ "") : String).data
        = ['-', '-', '-', '\n'] from by with_unfolding_all rfl]
    show (q.data ++ ['\n']) ++ ['-', '-', '-', '\n']
      = q.data ++ '\n' :: '-' :: '-' :: '-' :: '\n' :: []
    simp
  | cons r ls' ih =>
    show ((q ++ "\n" ++ pyJoin "\n" (r :: (ls' ++ ["---", ""])))
        : String).data
      = ((q ++ "\n" ++ pyJoin "\n" (r :: ls')) : String).data
        ++ '\n' :: '-' :: '-' :: '-' :: '\n' :: []
    rw [String.data_append, String.data_append,
      String.data_append, String.data_append, ih r]
    simp

/-- No `\s*\n` match can start at a non-whitespace character. -/
theorem msnCands_nonspace (c : Char) (t : List Char)
    (h : pyIsSpace c = false) : msnCands (c :: t) = [] := by
  simp [msnCands, h]

/-- M6: the regex split undoes `_write_memory_file`: it returns the
joined frontmatter lines and a body that strips to the stored
content. -/
theorem splitFrontmatter_serialize (data : MemoryData)
    (hsafe : lineSafe data) (hne : fieldLines data ≠ []) :
    ∃ body : String,
      splitFrontmatter (serializeMemory data)
        = some (pyJoin "\n" (fieldLines data), body)
      ∧ pyStrip body = pyStrip (contentOf data) := by
  obtain ⟨l0, ls, hFL⟩ : ∃ l0 ls, fieldLines data = l0 :: ls := by
    cases h : fieldLines data with
    | nil => exact absurd h hne
    | cons a b => exact ⟨a, b, rfl⟩
  have hfacts := fieldLines_facts data hsafe
  rw [hFL] at hfacts
  have hl0facts := hfacts l0 (List.mem_cons_self _ _)
  have hhead0 := fieldLines_head_nonspace data l0 ls hFL
  have hdata : (serializeMemory data).data
      = '-' :: '-' :: '-' :: '\n'
        :: ((pyJoin "\n" (l0 :: ls)).data
          ++ '\n' :: '-' :: '-' :: '-' :: '\n'
            :: ((contentOf data).data ++ ['\n'])) := by
    show ((pyJoin "\n" (["---"] ++ fieldLines data ++ ["---", ""])
        ++ contentOf data ++ "\n") : String).data = _
    rw [hFL]
    rw [show ["---"] ++ (l0 :: ls) ++ ["---", ""]
        = "---" :: l0 :: (ls ++ ["---", ""]) from by simp]
    rw [show pyJoin "\n" ("---" :: l0 :: (ls ++ ["---", ""]))
        = "---" ++ "\n" ++ pyJoin "\n" (l0 :: (ls ++ ["---", ""]))
        from rfl]
    rw [String.data_append, String.data_append, String.data_append,
      String.data_append, pyJoin_close_data l0 ls,
      show ("---" : String).data = ['-', '-', '-'] from rfl,
      show ("\n" : String).data = ['\n'] from rfl]
    simp
  obtain ⟨c0, cs0, hFM⟩ : ∃ c0 cs0,
      (pyJoin "\n" (l0 :: ls)).data = c0 :: cs0 := by
    cases hd : (pyJoin "\n" (l0 :: ls)).data with
    | nil =>
      have hh := pyJoin_head l0 ls hl0facts.1
      rw [hd] at hh
      cases hq : l0.data with
      | nil => exact absurd hq hl0facts.1
      | cons a b => rw [hq] at hh; simp at hh
    | cons a b => exact ⟨a, b, rfl⟩
  have hc0 : pyIsSpace c0 = false := by
    have hh := pyJoin_head l0 ls hl0facts.1
    rw [hFM] at hh
    simp at hh
    exact hhead0 c0 hh.symm
  have hfmok : fmOKb (pyJoin "\n" (l0 :: ls)).data = true :=
    fmOKb_join (l0 :: ls) hfacts
  obtain ⟨r, hrEq, hrMem⟩ :=
    msnFirst_cons_newline ((contentOf data).data ++ ['\n'])
  have hfc := findClose_junction (pyJoin "\n" (l0 :: ls)).data
      ('\n' :: ((contentOf data).data ++ ['\n'])) r hfmok hrEq
  refine ⟨⟨r⟩, ?_, msn_body_strip (contentOf data) r hrMem⟩
  rw [hFL]
  have hsp : splitFrontmatter (serializeMemory data)
      = (msnCands ('\n' :: ((pyJoin "\n" (l0 :: ls)).data
          ++ '\n' :: '-' :: '-' :: '-' :: '\n'
            :: ((contentOf data).data ++ ['\n'])))).findSome?
        (fun cand => (findClose cand).map (fun p =>
          ((⟨p.1⟩ : String), (⟨p.2⟩ : String)))) := by
    unfold splitFrontmatter
    rw [hdata]
    with_unfolding_all rfl
  rw [hsp]
  have hc1 : msnCands ('\n' :: ((pyJoin "\n" (l0 :: ls)).data
      ++ '\n' :: '-' :: '-' :: '-' :: '\n'
        :: ((contentOf data).data ++ ['\n'])))
      = msnCands ((pyJoin "\n" (l0 :: ls)).data
          ++ '\n' :: '-' :: '-' :: '-' :: '\n'
            :: ((contentOf data).data ++ ['\n']))
        ++ [((pyJoin "\n" (l0 :: ls)).data
          ++ '\n' :: '-' :: '-' :: '-' :: '\n'
            :: ((contentOf data).data ++ ['\n']))] := by
    have hspc : pyIsSpace '\n' = true := by decide
    simp [msnCands, hspc]
  have hc2 : msnCands ((pyJoin "\n" (l0 :: ls)).data
      ++ '\n' :: '-' :: '-' :: '-' :: '\n'
        :: ((contentOf data).data ++ ['\n'])) = [] := by
    rw [hFM, List.cons_append]
    exact msnCands_nonspace c0 _ hc0
  rw [hc1, hc2]
  simp only [List.nil_append, List.findSome?]
  rw [hfc]
  rfl

/-! #### Sorting and listing facts for `run` -/

theorem insDesc_length (x : Summary) (l : List Summary) :
    (insDesc x l).length = l.length + 1 := by
  induction l with
  | nil => rfl
  | cons y ys ih =>
    unfold insDesc
    split
    · simp [ih]
    · simp

theorem insAsc_length (x : Summary) (l : List Summary) :
    (insAsc x l).length = l.length + 1 := by
  induction l with
  | nil => rfl
  | cons y ys ih =>
    unfold insAsc
    split
    · simp [ih]
    · simp

theorem sortByPriorityDesc_length (l : List Summary) :
    (sortByPriorityDesc l).length = l.length := by
  have hgen : ∀ (t acc : List Summary),
      (t.foldl (fun acc x => insDesc x acc) acc).length
        = acc.length + t.length := by
    intro t
    induction t with
    | nil => intro acc; simp
    | cons y ys ih =>
      intro acc
      rw [List.foldl_cons, ih, insDesc_length, List.length_cons]
      omega
  unfold sortByPriorityDesc
  rw [hgen]
  simp

theorem sortByPriorityAsc_length (l : List Summary) :
    (sortByPriorityAsc l).length = l.length := by
  have hgen : ∀ (t acc : List Summary),
      (t.foldl (fun acc x => insAsc x acc) acc).length
        = acc.length + t.length := by
    intro t
    induction t with
    | nil => intro acc; simp
    | cons y ys ih =>
      intro acc
      rw [List.foldl_cons, ih, insAsc_length, List.length_cons]
      omega
  unfold sortByPriorityAsc
  rw [hgen]
  simp

theorem filterMap_some {α β : Type} (l : List α) (g : α → β) :
    l.filterMap (fun a => some (g a)) = l.map g := by
  induction l with
  | nil => rfl
  | cons a t ih => simp [List.filterMap_cons, ih]

/-- `list` with no filters returns one row per index entry, before the
limit slice. -/
theorem list_all_eq (s : StoreState) (L : Nat) :
    MemoryStore.list s none none none L 0
      = (sortByPriorityDesc (s.index.map (fun p =>
          mkSummary s s.session_count p.1 p.2))).take L := by
  show ((sortByPriorityDesc (s.index.filterMap (fun p =>
      some (mkSummary s s.session_count p.1 p.2)))).drop 0).take L = _
  rw [filterMap_some, List.drop_zero]

/-- `list` with no filters and offset 0 returns `min #index limit`
rows. -/
theorem list_all_length (s : StoreState) (L : Nat) :
    (MemoryStore.list s none none none L 0).length
      = min s.index.length L := by
  rw [list_all_eq, List.length_take, sortByPriorityDesc_length,
    List.length_map, Nat.min_comm]

theorem insAsc_mem (x : Summary) (l : List Summary) (a : Summary)
    (h : a ∈ insAsc x l) : a = x ∨ a ∈ l := by
  induction l with
  | nil => simp [insAsc] at h; left; exact h
  | cons y ys ih =>
    unfold insAsc at h
    split at h
    · rcases List.mem_cons.mp h with h1 | h1
      · right; rw [h1]; exact List.mem_cons_self _ _
      · rcases ih h1 with h2 | h2
        · left; exact h2
        · right; exact List.mem_cons_of_mem _ h2
    · rcases List.mem_cons.mp h with h1 | h1
      · left; exact h1
      · right; exact h1

theorem insAsc_sorted (x : Summary) (l : List Summary)
    (h : List.Pairwise (fun a b => a.priority ≤ b.priority) l) :
    List.Pairwise (fun a b => a.priority ≤ b.priority) (insAsc x l) := by
  induction l with
  | nil => simp [insAsc]
  | cons y ys ih =>
    rw [List.pairwise_cons] at h
    unfold insAsc
    split
    · rename_i hyx
      rw [List.pairwise_cons]
      refine ⟨?_, ih h.2⟩
      intro a ha
      rcases insAsc_mem x ys a ha with h1 | h1
      · rw [h1]; exact hyx
      · exact h.1 a h1
    · rename_i hyx
      have hxy : x.priority ≤ y.priority := le_of_not_le hyx
      rw [List.pairwise_cons]
      refine ⟨?_, List.pairwise_cons.mpr h⟩
      intro a ha
      rcases List.mem_cons.mp ha with h1 | h1
      · rw [h1]; exact hxy
      · exact le_trans hxy (h.1 a h1)

/-- The eviction order is ascending by priority (least valuable
first). -/
theorem sortByPriorityAsc_sorted (l : List Summary) :
    List.Pairwise (fun a b => a.priority ≤ b.priority)
      (sortByPriorityAsc l) := by
  have hgen : ∀ (t acc : List Summary),
      List.Pairwise (fun a b => a.priority ≤ b.priority) acc →
      List.Pairwise (fun a b => a.priority ≤ b.priority)
        (t.foldl (fun acc x => insAsc x acc) acc) := by
    intro t
    induction t with
    | nil => intro acc h; simpa using h
    | cons y ys ih =>
      intro acc h
      rw [List.foldl_cons]
      exact ih _ (insAsc_sorted y acc h)
  exact hgen l [] (by simp)

/-! #### Record-update and re-parse facts -/

theorem fieldLines_congr (md1 md2 : MemoryData)
    (h : ∀ f ∈ fieldOrder, dget md1 f = dget md2 f) :
    fieldLines md1 = fieldLines md2 := by
  unfold fieldLines
  have hgen : ∀ fs : List String,
      (∀ f ∈ fs, dget md1 f = dget md2 f) →
      fs.foldr (fun f acc => match dget md1 f with
        | some v => renderField f v ++ acc | none => acc) []
      = fs.foldr (fun f acc => match dget md2 f with
        | some v => renderField f v ++ acc | none => acc) [] := by
    intro fs
    induction fs with
    | nil => intro _; rfl
    | cons f fs' ih =>
      intro h2
      rw [List.foldr_cons, List.foldr_cons, h2 f (List.mem_cons_self _ _),
        ih (fun g hg => h2 g (List.mem_cons_of_mem _ hg))]
  exact hgen fieldOrder h

theorem fieldLines_dset_content (md : MemoryData) (v : YamlValue) :
    fieldLines (dset md "content" v) = fieldLines md := by
  apply fieldLines_congr
  intro f hf
  unfold fieldOrder at hf
  fin_cases hf <;> exact dget_dset_ne md "content" _ v (by decide)

theorem renderField_ne_nil (f : String) (v : YamlValue) :
    renderField f v ≠ [] := by
  cases v <;> simp [renderField]

theorem fieldLines_ne_nil (md : MemoryData) (f0 : String)
    (v0 : YamlValue) (hf0 : f0 ∈ fieldOrder) (h : dget md f0 = some v0) :
    fieldLines md ≠ [] := by
  unfold fieldLines
  have hgen : ∀ fs : List String, f0 ∈ fs →
      fs.foldr (fun f acc => match dget md f with
        | some v => renderField f v ++ acc | none => acc) [] ≠ [] := by
    intro fs
    induction fs with
    | nil => intro h2; simp at h2
    | cons f fs' ih =>
      intro h2
      rw [List.foldr_cons]
      rcases List.mem_cons.mp h2 with h3 | h3
      · rw [← h3, h]
        intro hx
        exact renderField_ne_nil f0 v0 (List.append_eq_nil.mp hx).1
      · cases hd : dget md f with
        | none => exact ih h3
        | some v =>
          intro hx
          exact ih h3 (List.append_eq_nil.mp hx).2
  exact hgen fieldOrder hf0

theorem contentOf_dset_content (md : MemoryData) (z : String) :
    contentOf (dset md "content" (.str z)) = z := by
  unfold contentOf
  rw [dget_dset_self]

theorem lineSafe_dset_content (md : MemoryData) (v : YamlValue)
    (h : lineSafe md) : lineSafe (dset md "content" v) := by
  intro p hp hne
  rcases mem_dset md "content" v p hp with h1 | h1
  · exact h p h1 hne
  · rw [h1] at hne
    exact absurd rfl hne

theorem lineSafe_dset_safe (md : MemoryData) (k : String)
    (v : YamlValue) (hv : valSafe v) (h : lineSafe md) :
    lineSafe (dset md k v) := by
  intro p hp hne
  rcases mem_dset md k v p hp with h1 | h1
  · exact h p h1 hne
  · rw [h1]
    exact hv

theorem dropWhile_idem {α : Type} (p : α → Bool) (l : List α) :
    (l.dropWhile p).dropWhile p = l.dropWhile p := by
  induction l with
  | nil => rfl
  | cons a t ih =>
    rw [List.dropWhile_cons]
    split
    · exact ih
    · rw [List.dropWhile_cons_of_neg ‹_›]

theorem dropWhile_cons_self {α : Type} (p : α → Bool) (c : α)
    (t : List α) (h : (c :: t).dropWhile p = c :: t) : p c = false := by
  by_contra hp
  rw [Bool.not_eq_false] at hp
  rw [List.dropWhile_cons_of_pos hp] at h
  have hlen := congrArg List.length h
  have hsub := (List.dropWhile_sublist p (l := t)).length_le
  simp at hlen
  omega

theorem stripL_stripR (y : List Char) (hy : stripLChars y = y) :
    stripLChars (stripRChars y) = stripRChars y := by
  have hsplit : stripRChars y
      ++ (y.reverse.takeWhile pyIsSpace).reverse = y := by
    unfold stripRChars
    rw [← List.reverse_append, List.takeWhile_append_dropWhile,
      List.reverse_reverse]
  cases hR : stripRChars y with
  | nil => rfl
  | cons c rest =>
    generalize hT : (List.takeWhile pyIsSpace y.reverse).reverse = T
      at hsplit
    have hy3 : c :: (rest ++ T) = y := by
      rw [← List.cons_append, ← hR]
      exact hsplit
    have hc : pyIsSpace c = false := by
      have hy2 := hy
      rw [← hy3] at hy2
      exact dropWhile_cons_self pyIsSpace c _ hy2
    show (c :: rest).dropWhile pyIsSpace = c :: rest
    rw [List.dropWhile_cons_of_neg (by simp [hc])]

theorem stripR_idem (y : List Char) :
    stripRChars (stripRChars y) = stripRChars y := by
  unfold stripRChars
  rw [List.reverse_reverse, dropWhile_idem]

/-- `strip` is idempotent. -/
theorem pyStrip_idem (s : String) : pyStrip (pyStrip s) = pyStrip s := by
  show (⟨stripRChars (stripLChars (stripRChars
      (stripLChars s.data)))⟩ : String) = _
  rw [stripL_stripR (stripLChars s.data)
    (show stripLChars (stripLChars s.data) = stripLChars s.data from
      dropWhile_idem pyIsSpace s.data), stripR_idem]
  rfl

/-- Re-parsing a just-written record yields the frontmatter dict plus
the stripped content. -/
theorem parse_serialize (md : MemoryData) (hsafe : lineSafe md)
    (hne : fieldLines md ≠ []) :
    parseMemoryFile (serializeMemory md)
      = dset (parseSimpleYaml (pyJoin "\n" (fieldLines md))) "content"
          (.str (pyStrip (contentOf md))) := by
  obtain ⟨body, hsp, hbody⟩ := splitFrontmatter_serialize md hsafe hne
  unfold parseMemoryFile
  rw [hsp]
  show dset (parseSimpleYaml (pyJoin "\n" (fieldLines md))) "content"
      (.str (pyStrip body)) = _
  rw [hbody]

/-- The content a re-read returns is the stored content, stripped. -/
theorem contentOf_parse_serialize (md : MemoryData) (hsafe : lineSafe md)
    (hne : fieldLines md ≠ []) :
    contentOf (parseMemoryFile (serializeMemory md))
      = pyStrip (contentOf md) := by
  rw [parse_serialize md hsafe hne]
  unfold contentOf
  rw [dget_dset_self]

/-! #### CRUD evaluation lemmas -/

theorem contentOf_dset_ne (md : MemoryData) (k : String) (v : YamlValue)
    (h : k ≠ "content") : contentOf (dset md k v) = contentOf md := by
  unfold contentOf
  rw [dget_dset_ne md k "content" v (fun he => h he.symm)]

theorem read_noupdate (s : StoreState) (mid raw : String)
    (h : dget s.files mid = some raw) :
    MemoryStore.read s mid false "" = .ok (parseMemoryFile raw, s) := by
  unfold MemoryStore.read
  rw [h]
  with_unfolding_all rfl

theorem update_content_eq (s : StoreState) (mid raw c : String)
    (e : IndexEntry) (hraw : dget s.files mid = some raw)
    (hidx : dget s.index mid = some e) :
    MemoryStore.update s mid { content := some c } = .ok { s with
      files := dset s.files mid (serializeMemory
        (dset (parseMemoryFile raw) "content" (.str c))),
      index := dset s.index mid e } := by
  unfold MemoryStore.update
  rw [hraw, hidx]
  with_unfolding_all rfl

theorem update_phase_eq (s : StoreState) (mid raw : String) (p : Int)
    (e : IndexEntry) (hraw : dget s.files mid = some raw)
    (hidx : dget s.index mid = some e) :
    MemoryStore.update s mid { phase := some p } = .ok { s with
      files := dset s.files mid (serializeMemory
        (dset (parseMemoryFile raw) "phase" (.int p))),
      index := dset s.index mid { e with phase := p } } := by
  unfold MemoryStore.update
  rw [hraw, hidx]
  with_unfolding_all rfl

theorem delete_noarchive_eq (s : StoreState) (mid raw : String)
    (hraw : dget s.files mid = some raw) :
    MemoryStore.delete s mid false = .ok { s with
      files := ddel s.files mid,
      index := ddel s.index mid,
      stats := ddel s.stats mid } := by
  unfold MemoryStore.delete
  rw [hraw]
  show Except.ok { s with
      files := ddel s.files mid,
      index := ddel s.index mid,
      stats := ddel s.stats mid,
      archives := if false = true ∧ dget s.archives mid = none
        then dset s.archives mid (serializeMemory (parseMemoryFile raw))
        else s.archives } = _
  rw [if_neg (by simp)]

theorem archiveMemory_eq (s : StoreState) (mid raw : String)
    (hraw : dget s.files mid = some raw)
    (harc : dget s.archives mid = none) :
    archiveMemory s mid = ({ s with archives := dset s.archives mid (serializeMemory (parseMemoryFile raw)) }, true) := by
  unfold archiveMemory
  rw [harc, read_noupdate s mid raw hraw]

theorem reduceToHintOp_eq (cfg : EvictionConfig) (s : StoreState)
    (mid raw : String) (e : IndexEntry)
    (hraw : dget s.files mid = some raw)
    (hidx : dget s.index mid = some e) :
    reduceToHintOp cfg s mid = { s with
      files := dset s.files mid (serializeMemory
        (dset (parseMemoryFile raw) "content"
          (.str (reduceHintContent cfg.hint_max_chars
            (contentOf (parseMemoryFile raw)))))),
      index := dset s.index mid e } := by
  unfold reduceToHintOp
  rw [read_noupdate s mid raw hraw]
  show (match MemoryStore.update s mid { content := some (reduceHintContent cfg.hint_max_chars (contentOf (parseMemoryFile raw))) } with
    | .ok s2 => s2
    | .error _ => s) = _
  rw [update_content_eq s mid raw _ e hraw hidx]

theorem reduceToAbstractOp_eq (cfg : EvictionConfig) (s : StoreState)
    (mid raw : String) (e : IndexEntry)
    (hraw : dget s.files mid = some raw)
    (hidx : dget s.index mid = some e) :
    reduceToAbstractOp cfg s mid = { s with
      files := dset s.files mid (serializeMemory
        (dset (parseMemoryFile raw) "content"
          (.str (reduceAbstractContent cfg.abstract_max_chars
            (contentOf (parseMemoryFile raw)))))),
      index := dset s.index mid e } := by
  unfold reduceToAbstractOp
  rw [read_noupdate s mid raw hraw]
  show (match MemoryStore.update s mid { content := some (reduceAbstractContent cfg.abstract_max_chars (contentOf (parseMemoryFile raw))) } with
    | .ok s2 => s2
    | .error _ => s) = _
  rw [update_content_eq s mid raw _ e hraw hidx]

/-- After a content rewrite, the phase-setting update succeeds and a
re-read returns the new content, stripped. -/
theorem phaseBump_after_content (sb : StoreState) (mid raw c : String)
    (p : Int) (e : IndexEntry)
    (hfl : fieldLines (parseMemoryFile raw) ≠ []) :
    ∃ s3, MemoryStore.update
        { sb with
          files := dset sb.files mid (serializeMemory (dset (parseMemoryFile raw) "content" (.str c))),
          index := dset sb.index mid e } mid { phase := some p }
      = .ok s3
    ∧ s3.archives = sb.archives
    ∧ s3.stats = sb.stats
    ∧ dget s3.index mid = some { e with phase := p }
    ∧ ∃ md3 s4, MemoryStore.read s3 mid false "" = .ok (md3, s4)
        ∧ contentOf md3 = pyStrip c := by
  have hsafe2 : lineSafe (dset (parseMemoryFile raw) "content" (.str c)) :=
    lineSafe_dset_content _ _ (lineSafe_parse raw)
  have hfl2 : fieldLines (dset (parseMemoryFile raw) "content" (.str c))
      ≠ [] := by
    rw [fieldLines_dset_content]
    exact hfl
  have hupd := update_phase_eq
    { sb with
      files := dset sb.files mid (serializeMemory (dset (parseMemoryFile raw) "content" (.str c))),
      index := dset sb.index mid e } mid
    (serializeMemory (dset (parseMemoryFile raw) "content" (.str c)))
    p e (dget_dset_self _ _ _) (dget_dset_self _ _ _)
  refine ⟨_, hupd, rfl, rfl, dget_dset_self _ _ _, ?_⟩
  have hsafe3 : lineSafe (dset (parseMemoryFile (serializeMemory
      (dset (parseMemoryFile raw) "content" (.str c)))) "phase"
      (.int p)) :=
    lineSafe_dset_safe _ "phase" _ trivial (lineSafe_parse _)
  have hfl3 : fieldLines (dset (parseMemoryFile (serializeMemory
      (dset (parseMemoryFile raw) "content" (.str c)))) "phase"
      (.int p)) ≠ [] :=
    fieldLines_ne_nil _ "phase" (.int p) (by decide)
      (dget_dset_self _ _ _)
  refine ⟨_, _, read_noupdate _ mid _ (dget_dset_self _ _ _), ?_⟩
  rw [contentOf_parse_serialize _ hsafe3 hfl3,
    contentOf_dset_ne _ "phase" _ (by decide),
    contentOf_parse_serialize _ hsafe2 hfl2,
    contentOf_dset_content]
  exact pyStrip_idem c

/-- A phase-2 record in the batch is deleted without re-archiving and
counted as a 2→3 transition and a deletion. -/
theorem evictStep_phase2 (cfg : EvictionConfig) (s : StoreState)
    (st : RunStats) (m : Summary) (raw : String)
    (h2 : m.phase = 2) (hraw : dget s.files m.id = some raw) :
    evictStep cfg (s, st) m
      = ({ s with
            files := ddel s.files m.id,
            index := ddel s.index m.id,
            stats := ddel s.stats m.id },
         ⟨st.processed + 1, bump23 st.transitions, st.archived,
          st.deleted + 1⟩) := by
  simp only [evictStep]
  rw [h2]
  rw [if_neg (by decide), if_neg (by decide), if_neg (by decide),
    if_pos rfl, delete_noarchive_eq s m.id raw hraw]

/-- A phase-1 record is reduced to an abstract and set to phase 2. -/
theorem evictStep_phase1 (cfg : EvictionConfig) (s : StoreState)
    (st : RunStats) (m : Summary) (raw : String) (e : IndexEntry)
    (h1 : m.phase = 1) (hraw : dget s.files m.id = some raw)
    (hidx : dget s.index m.id = some e)
    (hfl : fieldLines (parseMemoryFile raw) ≠ []) :
    ∃ s3, evictStep cfg (s, st) m
        = (s3, ⟨st.processed + 1, bump12 st.transitions, st.archived,
            st.deleted⟩)
      ∧ s3.archives = s.archives
      ∧ dget s3.index m.id = some { e with phase := 2 }
      ∧ ∃ md3 s4, MemoryStore.read s3 m.id false "" = .ok (md3, s4)
          ∧ contentOf md3 = pyStrip (reduceAbstractContent
              cfg.abstract_max_chars (contentOf (parseMemoryFile raw))) := by
  obtain ⟨s3, hupd, harch, hstats, hidx3, hread⟩ :=
    phaseBump_after_content s m.id raw
      (reduceAbstractContent cfg.abstract_max_chars
        (contentOf (parseMemoryFile raw))) 2 e hfl
  refine ⟨s3, ?_, harch, hidx3, hread⟩
  simp only [evictStep]
  rw [h1]
  rw [if_neg (by decide), if_neg (by decide), if_pos rfl,
    reduceToAbstractOp_eq cfg s m.id raw e hraw hidx, hupd]

/-- A phase-0 record is archived, reduced to a hint, and set to
phase 1. -/
theorem evictStep_phase0 (cfg : EvictionConfig) (s : StoreState)
    (st : RunStats) (m : Summary) (raw : String) (e : IndexEntry)
    (h0 : m.phase = 0) (hraw : dget s.files m.id = some raw)
    (harc : dget s.archives m.id = none)
    (hidx : dget s.index m.id = some e)
    (hfl : fieldLines (parseMemoryFile raw) ≠ []) :
    ∃ s3, evictStep cfg (s, st) m
        = (s3, ⟨st.processed + 1, bump01 st.transitions,
            st.archived + 1, st.deleted⟩)
      ∧ dget s3.archives m.id
          = some (serializeMemory (parseMemoryFile raw))
      ∧ dget s3.index m.id = some { e with phase := 1 }
      ∧ ∃ md3 s4, MemoryStore.read s3 m.id false "" = .ok (md3, s4)
          ∧ contentOf md3 = pyStrip (reduceHintContent
              cfg.hint_max_chars (contentOf (parseMemoryFile raw))) := by
  obtain ⟨s3, hupd, harch3, hstats, hidx3, hread⟩ :=
    phaseBump_after_content
      { s with archives := dset s.archives m.id (serializeMemory (parseMemoryFile raw)) }
      m.id raw
      (reduceHintContent cfg.hint_max_chars
        (contentOf (parseMemoryFile raw))) 1 e hfl
  refine ⟨s3, ?_, ?_, hidx3, hread⟩
  · simp only [evictStep]
    rw [h0]
    rw [if_neg (by decide), if_pos rfl,
      archiveMemory_eq s m.id raw hraw harc]
    show (match MemoryStore.update (reduceToHintOp cfg { s with archives := dset s.archives m.id (serializeMemory (parseMemoryFile raw)) } m.id) m.id { phase := some 1 } with
      | .ok s4 => (s4, { st with
          archived := st.archived + 1,
          transitions := bump01 st.transitions,
          processed := st.processed + 1 })
      | .error _ => (reduceToHintOp cfg { s with archives := dset s.archives m.id (serializeMemory (parseMemoryFile raw)) } m.id, { st with archived := st.archived + 1 }))
      = (s3, ⟨st.processed + 1, bump01 st.transitions,
          st.archived + 1, st.deleted⟩)
    rw [reduceToHintOp_eq cfg
      { s with archives := dset s.archives m.id (serializeMemory (parseMemoryFile raw)) }
      m.id raw e hraw hidx, hupd]
  · rw [harch3]
    exact dget_dset_self _ _ _

/-- A record already at phase 3 (or above) is skipped entirely. -/
theorem evictStep_ge3 (cfg : EvictionConfig) (s : StoreState)
    (st : RunStats) (m : Summary) (h : m.phase ≥ 3) :
    evictStep cfg (s, st) m = (s, st) := by
  simp only [evictStep]
  rw [if_pos h]

/-- `run` is a no-op returning zeroed statistics when the store is
within capacity. -/
theorem run_noop (cfg : EvictionConfig) (s : StoreState)
    (h : s.index.length ≤ cfg.max_memories) :
    EvictionManager.run cfg s = (s, ⟨0, none, 0, 0⟩) := by
  have hlen : (MemoryStore.list s none none none
      (cfg.max_memories + cfg.batch_size) 0).length
      ≤ cfg.max_memories := by
    rw [list_all_length]
    exact le_trans (Nat.min_le_left _ _) h
  simp only [EvictionManager.run]
  rw [if_pos hlen]

/-- Over capacity, `run` folds the eviction step over the first
`batch_size` records of the priority-ascending order. -/
theorem run_over (cfg : EvictionConfig) (s : StoreState)
    (h : ¬ (MemoryStore.list s none none none
      (cfg.max_memories + cfg.batch_size) 0).length
      ≤ cfg.max_memories) :
    EvictionManager.run cfg s
      = ((sortByPriorityAsc (MemoryStore.list s none none none
          (cfg.max_memories + cfg.batch_size) 0)).take
          cfg.batch_size).foldl (evictStep cfg)
          (s, ⟨0, some (0, 0, 0), 0, 0⟩) := by
  simp only [EvictionManager.run]
  rw [if_neg h]

/-- C2: `run()` returns zeroed statistics (with the empty transition
dict) and leaves the store untouched whenever the active memory count
is within `max_memories`.  Otherwise it fetches `min(#index,
max_memories + batch_size)` records, orders them ascending by priority
(least valuable first), and folds the per-record eviction step over
exactly the first `batch_size` of them, where the step archives a
phase-0 record, reduces it to a hint and sets it to phase 1; reduces a
phase-1 record to an abstract and sets it to phase 2; deletes a
phase-2 record without re-archiving, counting a 2→3 transition and a
deletion; and skips a record at phase 3 or above. -/
theorem claim_C2 (cfg : EvictionConfig) (s : StoreState)
    (st : RunStats) (m : Summary) (raw : String) (e : IndexEntry) :
    (s.index.length ≤ cfg.max_memories →
      EvictionManager.run cfg s = (s, ⟨0, none, 0, 0⟩))
    ∧ (MemoryStore.list s none none none
        (cfg.max_memories + cfg.batch_size) 0).length
      = min s.index.length (cfg.max_memories + cfg.batch_size)
    ∧ List.Pairwise (fun a b => a.priority ≤ b.priority)
        (sortByPriorityAsc (MemoryStore.list s none none none
          (cfg.max_memories + cfg.batch_size) 0))
    ∧ (¬ (MemoryStore.list s none none none
        (cfg.max_memories + cfg.batch_size) 0).length
        ≤ cfg.max_memories →
      EvictionManager.run cfg s
        = ((sortByPriorityAsc (MemoryStore.list s none none none
            (cfg.max_memories + cfg.batch_size) 0)).take
            cfg.batch_size).foldl (evictStep cfg)
            (s, ⟨0, some (0, 0, 0), 0, 0⟩))
    ∧ (m.phase ≥ 3 → evictStep cfg (s, st) m = (s, st))
    ∧ (m.phase = 2 → dget s.files m.id = some raw →
        evictStep cfg (s, st) m = ({ s with
            files := ddel s.files m.id,
            index := ddel s.index m.id,
            stats := ddel s.stats m.id },
          ⟨st.processed + 1, bump23 st.transitions, st.archived,
            st.deleted + 1⟩))
    ∧ (m.phase = 1 → dget s.files m.id = some raw →
        dget s.index m.id = some e →
        fieldLines (parseMemoryFile raw) ≠ [] →
        ∃ s3, evictStep cfg (s, st) m
            = (s3, ⟨st.processed + 1, bump12 st.transitions,
                st.archived, st.deleted⟩)
          ∧ s3.archives = s.archives
          ∧ dget s3.index m.id = some { e with phase := 2 }
          ∧ ∃ md3 s4, MemoryStore.read s3 m.id false "" = .ok (md3, s4)
              ∧ contentOf md3 = pyStrip (reduceAbstractContent
                  cfg.abstract_max_chars
                  (contentOf (parseMemoryFile raw))))
    ∧ (m.phase = 0 → dget s.files m.id = some raw →
        dget s.archives m.id = none →
        dget s.index m.id = some e →
        fieldLines (parseMemoryFile raw) ≠ [] →
        ∃ s3, evictStep cfg (s, st) m
            = (s3, ⟨st.processed + 1, bump01 st.transitions,
                st.archived + 1, st.deleted⟩)
          ∧ dget s3.archives m.id
              = some (serializeMemory (parseMemoryFile raw))
          ∧ dget s3.index m.id = some { e with phase := 1 }
          ∧ ∃ md3 s4, MemoryStore.read s3 m.id false "" = .ok (md3, s4)
              ∧ contentOf md3 = pyStrip (reduceHintContent
                  cfg.hint_max_chars
                  (contentOf (parseMemoryFile raw)))) := by
  refine ⟨run_noop cfg s, list_all_length s _,
    sortByPriorityAsc_sorted _, run_over cfg s,
    evictStep_ge3 cfg s st m, ?_, ?_, ?_⟩
  · intro h2 hraw
    exact evictStep_phase2 cfg s st m raw h2 hraw
  · intro h1 hraw hidx hfl
    exact evictStep_phase1 cfg s st m raw e h1 hraw hidx hfl
  · intro h0 hraw harc hidx hfl
    exact evictStep_phase0 cfg s st m raw e h0 hraw harc hidx hfl

/-- Concrete one-record store for the C2 witness. -/
def c2Raw : String := "---\nid: \"a\"\nphase: 2\n---\nhello\n"

def c2Store : StoreState :=
  ⟨[("a", ⟨"t", [], 2, 1/2, "T"⟩)], [], [("a", c2Raw)], [], 0⟩

def c2Sum (p : Int) : Summary := ⟨"a", "t", [], p, 1/2, 1/2, "T", 0, ""⟩

set_option maxRecDepth 40000 in
/-- C2 witness: every clause of the claim exercised on a concrete
one-record store (no-op under capacity, batch fold over capacity, and
one eviction step at each phase). -/
theorem claim_C2_witness :
    (EvictionManager.run ⟨2, 1, 200, 100⟩ c2Store
      = (c2Store, ⟨0, none, 0, 0⟩))
    ∧ EvictionManager.run ⟨0, 1, 200, 100⟩ c2Store
      = ((sortByPriorityAsc (MemoryStore.list c2Store none none none
          (0 + 1) 0)).take 1).foldl (evictStep ⟨0, 1, 200, 100⟩)
          (c2Store, ⟨0, some (0, 0, 0), 0, 0⟩)
    ∧ evictStep ⟨1, 1, 200, 100⟩ (c2Store, ⟨0, some (0, 0, 0), 0, 0⟩)
        (c2Sum 3) = (c2Store, ⟨0, some (0, 0, 0), 0, 0⟩)
    ∧ evictStep ⟨1, 1, 200, 100⟩ (c2Store, ⟨0, some (0, 0, 0), 0, 0⟩)
        (c2Sum 2)
      = ({ c2Store with
            files := ddel c2Store.files "a",
            index := ddel c2Store.index "a",
            stats := ddel c2Store.stats "a" },
         ⟨0 + 1, bump23 (some (0, 0, 0)), 0, 0 + 1⟩)
    ∧ (∃ s3, evictStep ⟨1, 1, 200, 100⟩
          (c2Store, ⟨0, some (0, 0, 0), 0, 0⟩) (c2Sum 1)
          = (s3, ⟨0 + 1, bump12 (some (0, 0, 0)), 0, 0⟩)
        ∧ s3.archives = c2Store.archives
        ∧ dget s3.index "a" = some ⟨"t", [], 2, 1/2, "T"⟩
        ∧ ∃ md3 s4, MemoryStore.read s3 "a" false "" = .ok (md3, s4)
            ∧ contentOf md3 = pyStrip (reduceAbstractContent 100
                (contentOf (parseMemoryFile c2Raw))))
    ∧ (∃ s3, evictStep ⟨1, 1, 200, 100⟩
          (c2Store, ⟨0, some (0, 0, 0), 0, 0⟩) (c2Sum 0)
          = (s3, ⟨0 + 1, bump01 (some (0, 0, 0)), 0 + 1, 0⟩)
        ∧ dget s3.archives "a"
            = some (serializeMemory (parseMemoryFile c2Raw))
        ∧ dget s3.index "a" = some ⟨"t", [], 1, 1/2, "T"⟩
        ∧ ∃ md3 s4, MemoryStore.read s3 "a" false "" = .ok (md3, s4)
            ∧ contentOf md3 = pyStrip (reduceHintContent 200
                (contentOf (parseMemoryFile c2Raw)))) := by
  refine ⟨?_, ?_, ?_, ?_, ?_, ?_⟩
  · exact (claim_C2 ⟨2, 1, 200, 100⟩ c2Store ⟨0, some (0, 0, 0), 0, 0⟩
      (c2Sum 3) c2Raw ⟨"t", [], 2, 1/2, "T"⟩).1 (by decide)
  · exact (claim_C2 ⟨0, 1, 200, 100⟩ c2Store ⟨0, some (0, 0, 0), 0, 0⟩
      (c2Sum 3) c2Raw ⟨"t", [], 2, 1/2, "T"⟩).2.2.2.1
      (by with_unfolding_all decide)
  · exact (claim_C2 ⟨1, 1, 200, 100⟩ c2Store ⟨0, some (0, 0, 0), 0, 0⟩
      (c2Sum 3) c2Raw ⟨"t", [], 2, 1/2, "T"⟩).2.2.2.2.1 (by decide)
  · exact (claim_C2 ⟨1, 1, 200, 100⟩ c2Store ⟨0, some (0, 0, 0), 0, 0⟩
      (c2Sum 2) c2Raw ⟨"t", [], 2, 1/2, "T"⟩).2.2.2.2.2.1 rfl
      (by with_unfolding_all rfl)
  · exact (claim_C2 ⟨1, 1, 200, 100⟩ c2Store ⟨0, some (0, 0, 0), 0, 0⟩
      (c2Sum 1) c2Raw ⟨"t", [], 2, 1/2, "T"⟩).2.2.2.2.2.2.1 rfl
      (by with_unfolding_all rfl) (by with_unfolding_all rfl)
      (by with_unfolding_all decide)
  · exact (claim_C2 ⟨1, 1, 200, 100⟩ c2Store ⟨0, some (0, 0, 0), 0, 0⟩
      (c2Sum 0) c2Raw ⟨"t", [], 2, 1/2, "T"⟩).2.2.2.2.2.2.2 rfl
      (by with_unfolding_all rfl) (by with_unfolding_all rfl)
      (by with_unfolding_all rfl) (by with_unfolding_all decide)

/-! #### Character and line facts for the YAML reparse -/

theorem digit_toLower (c : Char) (h : pyIsDigit c = true) :
    c.toLower = c := by
  unfold pyIsDigit at h
  simp at h
  have h2 := h.2
  rw [Char.le_def] at h2
  have h9 : c.val.toNat ≤ 57 := h2
  simp only [Char.toLower]
  rw [if_neg ?hn]
  case hn =>
    intro hc
    have h4 : 65 ≤ c.toNat := hc.1
    have h5 : c.toNat = c.val.toNat := rfl
    omega

theorem digit_nonspace (c : Char) (h : pyIsDigit c = true) :
    pyIsSpace c = false := by
  cases hps : pyIsSpace c with
  | false => rfl
  | true =>
    exfalso
    unfold pyIsSpace at hps
    simp at hps
    rcases hps with ((((h1 | h1) | h1) | h1) | h1) | h1 <;>
      subst_vars <;> exact absurd h (by decide)

theorem stripR_append_keep (xs ys : List Char) (hne : ys ≠ [])
    (h : ∀ c ∈ ys, pyIsSpace c = false) :
    stripRChars (xs ++ ys) = xs ++ ys := by
  unfold stripRChars
  rw [List.reverse_append]
  cases hys : ys.reverse with
  | nil => exact absurd (by simpa using hys) hne
  | cons c t =>
    have hc : c ∈ ys := by
      rw [← List.mem_reverse, hys]
      exact List.mem_cons_self _ _
    have hp : ¬ (pyIsSpace c = true) := by simp [h c hc]
    rw [List.cons_append, List.dropWhile_cons_of_neg hp,
      ← List.cons_append, ← hys, ← List.reverse_append,
      List.reverse_reverse]

theorem splitOnChar_no_sep (sep : Char) (cs : List Char)
    (h : sep ∉ cs) : splitOnChar sep cs = [cs] := by
  induction cs with
  | nil => rfl
  | cons c rest ih =>
    unfold splitOnChar
    rw [if_neg (fun hc => h (by rw [← hc]; exact List.mem_cons_self c rest)),
      ih (fun hm => h (List.mem_cons_of_mem _ hm))]

theorem splitOnChar_append_sep (sep : Char) (xs ys : List Char)
    (h : sep ∉ xs) :
    splitOnChar sep (xs ++ sep :: ys) = xs :: splitOnChar sep ys := by
  induction xs with
  | nil =>
    show splitOnChar sep (sep :: ys) = [] :: splitOnChar sep ys
    conv_lhs => rw [splitOnChar]
    rw [if_pos rfl]
  | cons c xs' ih =>
    rw [List.cons_append]
    conv_lhs => rw [splitOnChar]
    rw [if_neg (fun hc => h (by rw [← hc]; exact List.mem_cons_self c xs')),
      ih (fun hm => h (List.mem_cons_of_mem _ hm))]

/-- Splitting the joined newline-free lines on `\n` recovers the
lines. -/
theorem splitOnChar_join (lines : List String)
    (h : ∀ l ∈ lines, noNL l) (hne : lines ≠ []) :
    splitOnChar '\n' (pyJoin "\n" lines).data
      = lines.map String.data := by
  induction lines with
  | nil => exact absurd rfl hne
  | cons p rest ih =>
    cases rest with
    | nil =>
      show splitOnChar '\n' p.data = [p.data]
      exact splitOnChar_no_sep '\n' p.data (h p (List.mem_cons_self _ _))
    | cons q rest' =>
      show splitOnChar '\n'
          ((p ++ "\n" ++ pyJoin "\n" (q :: rest')) : String).data
        = p.data :: (q :: rest').map String.data
      rw [String.data_append, String.data_append,
        show ("\n" : String).data = ['\n'] from rfl,
        List.append_assoc, List.singleton_append,
        splitOnChar_append_sep '\n' p.data _
          (h p (List.mem_cons_self _ _)),
        ih (fun l hl => h l (List.mem_cons_of_mem _ hl)) (by simp)]

theorem notItemPrefix (cs : List Char) (h : cs.head? ≠ some ' ') :
    ((' ' :: ' ' :: '-' :: ' ' :: []) : List Char).isPrefixOf cs
      = false := by
  cases cs with
  | nil => rfl
  | cons c t =>
    have hc : c ≠ ' ' := fun he => h (by rw [List.head?_cons, he])
    show ((' ' == c) && ((' ' :: '-' :: ' ' :: []) :
        List Char).isPrefixOf t) = false
    have hb : (' ' == c) = false :=
      beq_eq_false_iff_ne.mpr (fun he => hc he.symm)
    rw [hb, Bool.false_and]

theorem containsSub_single (x : Char) (xs ys : List Char) :
    containsSub [x] (xs ++ x :: ys) = true := by
  induction xs with
  | nil =>
    show containsSub [x] (x :: ys) = true
    unfold containsSub
    rw [Bool.or_eq_true]
    left
    show (([x] : List Char).isPrefixOf (x :: ys)) = true
    simp [List.isPrefixOf]
  | cons c xs' ih =>
    rw [List.cons_append]
    unfold containsSub
    rw [Bool.or_eq_true]
    right
    exact ih

theorem containsSub_single_false (x : Char) (cs : List Char)
    (h : x ∉ cs) : containsSub [x] cs = false := by
  induction cs with
  | nil => rfl
  | cons c rest ih =>
    unfold containsSub
    rw [Bool.or_eq_false_iff]
    constructor
    · show (((x == c) && ([] : List Char).isPrefixOf rest)) = false
      have hb : (x == c) = false := beq_eq_false_iff_ne.mpr
        (fun he => h (by rw [he]; exact List.mem_cons_self _ _))
      rw [hb, Bool.false_and]
    · exact ih (fun hm => h (List.mem_cons_of_mem _ hm))

theorem partitionColon_append (xs ys : List Char) (h : ':' ∉ xs) :
    partitionColon (xs ++ ':' :: ys) = (xs, ys) := by
  induction xs with
  | nil =>
    show partitionColon (':' :: ys) = ([], ys)
    simp [partitionColon]
  | cons c xs' ih =>
    rw [List.cons_append]
    simp only [partitionColon]
    rw [if_neg (fun hc => h (by rw [← hc]; exact List.mem_cons_self c xs')),
      ih (fun hm => h (List.mem_cons_of_mem _ hm))]

/-- The value side of a written quoted scalar strips and unquotes back
to the original string. -/
theorem parse_quoted (v : String) :
    stripQuotes (pyStrip ⟨' ' :: '"' :: (v.data ++ ['"'])⟩) = v := by
  have h1 : stripLChars (' ' :: '"' :: (v.data ++ ['"']))
      = '"' :: (v.data ++ ['"']) := by
    show List.dropWhile pyIsSpace (' ' :: '"' :: (v.data ++ ['"'])) = _
    rw [List.dropWhile_cons_of_pos (by decide),
      List.dropWhile_cons_of_neg (by decide)]
  have h2 : stripRChars ('"' :: (v.data ++ ['"']))
      = '"' :: (v.data ++ ['"']) := by
    rw [show ('"' :: (v.data ++ ['"'])) = ('"' :: v.data) ++ ['"']
      from by simp]
    exact stripR_append_keep ('"' :: v.data) ['"'] (by simp)
      (by intro c hc; simp at hc; rw [hc]; decide)
  have hstrip : pyStrip ⟨' ' :: '"' :: (v.data ++ ['"'])⟩
      = ⟨'"' :: (v.data ++ ['"'])⟩ := by
    show (⟨stripRChars (stripLChars
        (' ' :: '"' :: (v.data ++ ['"'])))⟩ : String) = _
    rw [h1, h2]
  rw [hstrip]
  have hlast : ('"' :: (v.data ++ ['"'])).getLast? = some '"' := by
    rw [show ('"' :: (v.data ++ ['"'])) = ('"' :: v.data) ++ ['"']
      from by simp]
    exact List.getLast?_concat _
  have hcond : ((⟨'"' :: (v.data ++ ['"'])⟩ : String).data.head?
        = some '"'
      && (⟨'"' :: (v.data ++ ['"'])⟩ : String).data.getLast?
        = some '"') = true := by
    show (decide (('"' :: (v.data ++ ['"'])).head? = some '"')
      && decide (('"' :: (v.data ++ ['"'])).getLast? = some '"')) = true
    rw [hlast, List.head?_cons]
    simp
  unfold stripQuotes
  rw [if_pos hcond]
  show (⟨(v.data ++ ['"']).dropLast⟩ : String) = v
  rw [List.dropLast_concat]

theorem dset_append {α : Type} (d : List (String × α)) (k : String)
    (v : α) (h : d.any (fun p => p.1 = k) = false) :
    dset d k v = d ++ [(k, v)] := by
  unfold dset
  rw [h]
  rfl

theorem intStr_chars (n : Int) :
    ∀ c ∈ (intStr n).data, c = '-' ∨ pyIsDigit c = true := by
  intro c hc
  cases n with
  | ofNat m => right; exact natStr_chars m c hc
  | negSucc m =>
    rw [show intStr (Int.negSucc m) = "-" ++ natStr (m + 1) from rfl,
      String.data_append] at hc
    rcases List.mem_append.mp hc with h | h
    · left; simpa using h
    · right; exact natStr_chars (m + 1) c h

theorem intStr_data_ne_nil (n : Int) : (intStr n).data ≠ [] := by
  cases n with
  | ofNat m =>
    intro h
    have : natStr m = "" := congrArg String.mk h
    exact natStr_ne_empty m this
  | negSucc m =>
    rw [show intStr (Int.negSucc m) = "-" ++ natStr (m + 1) from rfl,
      String.data_append]
    intro h
    have := List.append_eq_nil.mp h
    have h2 : ("-" : String).data = ['-'] := rfl
    rw [h2] at this
    simp at this

theorem read_update_ok (s : StoreState) (mid raw now : String)
    (d : Option Rat) (hraw : dget s.files mid = some raw)
    (hd : difficultyArg (parseMemoryFile raw) = .ok d) :
    ∃ s2, MemoryStore.read s mid true now
      = .ok (parseMemoryFile raw, s2) := by
  unfold MemoryStore.read
  rw [hraw]
  simp only [if_pos rfl, hd]
  exact ⟨_, rfl⟩

/-- Core evaluation of one `key: value` frontmatter line. -/
theorem yamlLine_key (st : YState) (raw f : String) (rest : List Char)
    (hdata : raw.data = f.data ++ ':' :: rest)
    (hrs : pyRStrip raw = raw)
    (hfne : f.data ≠ []) (hnc : ':' ∉ f.data)
    (hhash : f.data.head? ≠ some '#')
    (hspace : f.data.head? ≠ some ' ') :
    yamlLine st raw
      = if stripQuotes (pyStrip ⟨rest⟩) = ""
        then ⟨dset st.data (pyStrip ⟨f.data⟩) (.list []),
          some (pyStrip ⟨f.data⟩)⟩
        else ⟨dset st.data (pyStrip ⟨f.data⟩)
          (convertScalar (stripQuotes (pyStrip ⟨rest⟩))), none⟩ := by
  have hhead : raw.data.head? = f.data.head? := by
    rw [hdata]
    cases hfd : f.data with
    | nil => exact absurd hfd hfne
    | cons a t => simp
  have hne0 : ¬ (raw = "") := by
    intro hh
    rw [hh, show ("" : String).data = [] from rfl] at hdata
    exact absurd (List.append_eq_nil.mp hdata.symm).2 (by simp)
  have hb1 : (decide (raw = "")
      || decide (raw.data.head? = some '#')) = false := by
    rw [decide_eq_false hne0,
      decide_eq_false (show ¬ (raw.data.head? = some '#') from
        by rw [hhead]; exact hhash)]
    rfl
  have hitem : ((' ' :: ' ' :: '-' :: ' ' :: []) :
      List Char).isPrefixOf raw.data = false := by
    apply notItemPrefix
    rw [hhead]
    exact hspace
  have hcolon : containsSub [':'] raw.data = true := by
    rw [hdata]
    exact containsSub_single ':' f.data rest
  have hpart : partitionColon raw.data = (f.data, rest) := by
    rw [hdata]
    exact partitionColon_append f.data rest hnc
  simp only [yamlLine]
  rw [hrs, hb1, hitem, hcolon, if_neg (by simp), if_neg (by simp),
    if_pos rfl, hpart]

/-- One written quoted-scalar line parses to the unquoted value. -/
theorem yamlLine_quoted (st : YState) (f v : String)
    (hfne : f.data ≠ []) (hnc : ':' ∉ f.data)
    (hhash : f.data.head? ≠ some '#')
    (hspace : f.data.head? ≠ some ' ')
    (hkey : pyStrip f = f) (hv : v ≠ "") :
    yamlLine st (f ++ ": \"" ++ v ++ "\"")
      = ⟨dset st.data f (convertScalar v), none⟩ := by
  have hdata : ((f ++ ": \"" ++ v ++ "\"") : String).data
      = f.data ++ ':' :: (' ' :: '"' :: (v.data ++ ['"'])) := by
    rw [String.data_append, String.data_append, String.data_append,
      show (": \"" : String).data = [':', ' ', '"'] from rfl,
      show ("\"" : String).data = ['"'] from rfl]
    simp
  have hrs : pyRStrip (f ++ ": \"" ++ v ++ "\"")
      = (f ++ ": \"" ++ v ++ "\"") := by
    show (⟨stripRChars ((f ++ ": \"" ++ v ++ "\"") :
        String).data⟩ : String) = _
    rw [hdata,
      show f.data ++ ':' :: (' ' :: '"' :: (v.data ++ ['"']))
        = (f.data ++ ':' :: ' ' :: '"' :: v.data) ++ ['"']
        from by simp,
      stripR_append_keep _ ['"'] (by simp)
        (by intro c hc; simp at hc; rw [hc]; decide)]
    rw [show (f.data ++ ':' :: ' ' :: '"' :: v.data) ++ ['"']
      = ((f ++ ": \"" ++ v ++ "\"") : String).data
      from by rw [hdata]; simp]
  rw [yamlLine_key st _ f (' ' :: '"' :: (v.data ++ ['"']))
    hdata hrs hfne hnc hhash hspace]
  rw [parse_quoted v, if_neg hv]
  have hkey2 : pyStrip (⟨f.data⟩ : String) = f := hkey
  rw [hkey2]

/-- A written `tags:` line opens an empty list. -/
theorem yamlLine_listStart (st : YState) (f : String)
    (hfne : f.data ≠ []) (hnc : ':' ∉ f.data)
    (hhash : f.data.head? ≠ some '#')
    (hspace : f.data.head? ≠ some ' ')
    (hkey : pyStrip f = f) :
    yamlLine st (f ++ ":")
      = ⟨dset st.data f (.list []), some f⟩ := by
  have hdata : ((f ++ ":") : String).data = f.data ++ ':' :: [] := by
    rw [String.data_append, show (":" : String).data = [':'] from rfl]
  have hrs : pyRStrip (f ++ ":") = (f ++ ":") := by
    show (⟨stripRChars ((f ++ ":") : String).data⟩ : String) = _
    rw [hdata, stripR_append_keep f.data [':'] (by simp)
      (by intro c hc; simp at hc; rw [hc]; decide), ← hdata]
  rw [yamlLine_key st _ f [] hdata hrs hfne hnc hhash hspace]
  have hq : stripQuotes (pyStrip ⟨([] : List Char)⟩) = "" := by
    with_unfolding_all rfl
  rw [hq, if_pos rfl]
  have hkey2 : pyStrip (⟨f.data⟩ : String) = f := hkey
  rw [hkey2]

/-- One written unquoted-scalar line parses via the conversion
block. -/
theorem yamlLine_plain (st : YState) (f w : String)
    (hfne : f.data ≠ []) (hnc : ':' ∉ f.data)
    (hhash : f.data.head? ≠ some '#')
    (hspace : f.data.head? ≠ some ' ')
    (hkey : pyStrip f = f)
    (hwne : w.data ≠ [])
    (hw : ∀ c ∈ w.data, pyIsSpace c = false)
    (hwq : w.data.head? ≠ some '"' ∨ w.data.getLast? ≠ some '"') :
    yamlLine st (f ++ ": " ++ w)
      = ⟨dset st.data f (convertScalar w), none⟩ := by
  have hdata : ((f ++ ": " ++ w) : String).data
      = f.data ++ ':' :: (' ' :: w.data) := by
    rw [String.data_append, String.data_append,
      show (": " : String).data = [':', ' '] from rfl]
    simp
  have hrs : pyRStrip (f ++ ": " ++ w) = (f ++ ": " ++ w) := by
    show (⟨stripRChars ((f ++ ": " ++ w) : String).data⟩ : String) = _
    rw [hdata,
      show f.data ++ ':' :: (' ' :: w.data)
        = (f.data ++ [':', ' ']) ++ w.data from by simp,
      stripR_append_keep _ w.data hwne hw]
    rw [show (f.data ++ [':', ' ']) ++ w.data
      = ((f ++ ": " ++ w) : String).data from by rw [hdata]; simp]
  rw [yamlLine_key st _ f (' ' :: w.data) hdata hrs hfne hnc
    hhash hspace]
  have hstripw : pyStrip ⟨' ' :: w.data⟩ = ⟨w.data⟩ := by
    show (⟨stripRChars (stripLChars (' ' :: w.data))⟩ : String) = _
    have hL : stripLChars (' ' :: w.data) = w.data := by
      show List.dropWhile pyIsSpace (' ' :: w.data) = w.data
      rw [List.dropWhile_cons_of_pos (by decide)]
      cases hwd : w.data with
      | nil => exact absurd hwd hwne
      | cons a t =>
        rw [List.dropWhile_cons_of_neg
          (by simp [hw a (by rw [hwd]; exact List.mem_cons_self _ _)])]
    have hR : stripRChars w.data = w.data := by
      have := stripR_append_keep [] w.data hwne hw
      simpa using this
    rw [hL, hR]
  rw [hstripw]
  have hsq : stripQuotes ⟨w.data⟩ = ⟨w.data⟩ := by
    unfold stripQuotes
    rw [if_neg ?hq]
    case hq =>
      intro hcond
      rw [Bool.and_eq_true] at hcond
      rcases hwq with hh | hh
      · exact hh (of_decide_eq_true hcond.1)
      · exact hh (of_decide_eq_true hcond.2)
  rw [hsq]
  have hwne2 : (⟨w.data⟩ : String) ≠ "" := by
    intro hh
    exact hwne (congrArg String.data hh)
  rw [if_neg hwne2]
  have hkey2 : pyStrip (⟨f.data⟩ : String) = f := hkey
  rw [hkey2]

theorem foldl_yaml_strings (init : YState) (lines : List String) :
    (lines.map String.data).foldl (fun st cs => yamlLine st ⟨cs⟩) init
      = lines.foldl yamlLine init := by
  induction lines generalizing init with
  | nil => rfl
  | cons l rest ih =>
    rw [List.map_cons, List.foldl_cons, List.foldl_cons]
    exact ih (yamlLine init l)

theorem intStr_nonspace (n : Int) :
    ∀ c ∈ (intStr n).data, pyIsSpace c = false := by
  intro c hc
  rcases intStr_chars n c hc with h | h
  · rw [h]; decide
  · exact digit_nonspace c h

theorem intStr_head_ne_quote (n : Int) :
    (intStr n).data.head? ≠ some '"' := by
  intro hh
  cases hd : (intStr n).data with
  | nil => exact absurd hd (intStr_data_ne_nil n)
  | cons a t =>
    rw [hd, List.head?_cons] at hh
    have ha : a = '"' := Option.some.inj hh
    have hmem : a ∈ (intStr n).data := by
      rw [hd]
      exact List.mem_cons_self _ _
    rcases intStr_chars n a hmem with h | h
    · rw [ha] at h; exact absurd h (by decide)
    · rw [ha] at h; exact absurd h (by decide)

/-- The seven frontmatter lines a `create` writes parse back to the
expected dict (values still behind the scalar-conversion block). -/
theorem parseYamlSeven (mid topic now : String) (sc : Int)
    (hmidNL : noNL mid) (hmid : mid ≠ "")
    (htopicNL : noNL topic) (htopic : topic ≠ "")
    (hnowNL : noNL now) (hnow : now ≠ "") :
    parseSimpleYaml (pyJoin "\n"
      ["id" ++ ": \"" ++ mid ++ "\"",
       "topic" ++ ": \"" ++ topic ++ "\"",
       "tags" ++ ":",
       "phase" ++ ": " ++ "0",
       "difficulty" ++ ": " ++ "0.5",
       "created_at" ++ ": \"" ++ now ++ "\"",
       "created_session" ++ ": " ++ intStr sc])
      = [("id", convertScalar mid), ("topic", convertScalar topic),
         ("tags", .list []), ("phase", .int 0),
         ("difficulty", .float (1/2)),
         ("created_at", convertScalar now),
         ("created_session", convertScalar (intStr sc))] := by
  have hqNL : ∀ (f v : String), noNL f → noNL v →
      noNL (f ++ ": \"" ++ v ++ "\"") := by
    intro f v hf hv
    apply noNL_append
    · apply noNL_append
      · apply noNL_append
        · exact hf
        · decide
      · exact hv
    · decide
  have hlines : ∀ l ∈
      ["id" ++ ": \"" ++ mid ++ "\"",
       "topic" ++ ": \"" ++ topic ++ "\"",
       "tags" ++ ":",
       "phase" ++ ": " ++ "0",
       "difficulty" ++ ": " ++ "0.5",
       "created_at" ++ ": \"" ++ now ++ "\"",
       "created_session" ++ ": " ++ intStr sc], noNL l := by
    intro l hl
    simp only [List.mem_cons, List.not_mem_nil, or_false] at hl
    rcases hl with h | h | h | h | h | h | h <;> rw [h]
    · exact hqNL "id" mid (by decide) hmidNL
    · exact hqNL "topic" topic (by decide) htopicNL
    · decide
    · decide
    · decide
    · exact hqNL "created_at" now (by decide) hnowNL
    · apply noNL_append
      · decide
      · exact intStr_noNL sc
  show ((splitOnChar '\n' (pyJoin "\n" _).data).foldl
    (fun st cs => yamlLine st ⟨cs⟩) ⟨[], none⟩).data = _
  rw [splitOnChar_join _ hlines (by simp), foldl_yaml_strings]
  rw [List.foldl_cons, yamlLine_quoted _ "id" mid (by decide)
    (by decide) (by decide) (by decide) (by with_unfolding_all rfl) hmid]
  rw [List.foldl_cons, yamlLine_quoted _ "topic" topic (by decide)
    (by decide) (by decide) (by decide) (by with_unfolding_all rfl)
    htopic]
  rw [List.foldl_cons, yamlLine_listStart _ "tags" (by decide)
    (by decide) (by decide) (by decide) (by with_unfolding_all rfl)]
  rw [List.foldl_cons, yamlLine_plain _ "phase" "0" (by decide)
    (by decide) (by decide) (by decide) (by with_unfolding_all rfl)
    (by decide) (by decide) (Or.inl (by decide))]
  rw [List.foldl_cons, yamlLine_plain _ "difficulty" "0.5" (by decide)
    (by decide) (by decide) (by decide) (by with_unfolding_all rfl)
    (by decide) (by decide) (Or.inl (by decide))]
  rw [List.foldl_cons, yamlLine_quoted _ "created_at" now (by decide)
    (by decide) (by decide) (by decide) (by with_unfolding_all rfl)
    hnow]
  rw [List.foldl_cons, yamlLine_plain _ "created_session" (intStr sc)
    (by decide) (by decide) (by decide) (by decide)
    (by with_unfolding_all rfl) (intStr_data_ne_nil sc)
    (intStr_nonspace sc) (Or.inl (intStr_head_ne_quote sc))]
  rw [List.foldl_nil]
  with_unfolding_all rfl

/-! #### Generated ids and numeric strings under the conversion
block -/

theorem hexChar_hex (m : Nat) :
    (pyIsDigit (hexChar m)
      || ('a' ≤ hexChar m && hexChar m ≤ 'f')) = true := by
  unfold hexChar
  have h16 : m % 16 < 16 := Nat.mod_lt _ (by norm_num)
  interval_cases h : m % 16 <;> decide

theorem hex8_length (h : Nat) : (hex8 h).data.length = 8 := by
  show ((List.range 8).map (fun i => hexChar (h / 16 ^ (7 - i)))).length
    = 8
  simp

theorem hex8_chars (h : Nat) :
    ∀ c ∈ (hex8 h).data,
      (pyIsDigit c || ('a' ≤ c && c ≤ 'f')) = true := by
  intro c hc
  have hc2 : c ∈ (List.range 8).map
      (fun i => hexChar (h / 16 ^ (7 - i))) := hc
  obtain ⟨i, _, he⟩ := List.mem_map.mp hc2
  rw [← he]
  exact hexChar_hex _

theorem genId_data (h : Nat) :
    (generateId h).data = 'm' :: 'e' :: 'm' :: '_' :: (hex8 h).data := by
  show (("mem_" ++ hex8 h) : String).data = _
  rw [String.data_append,
    show ("mem_" : String).data = ['m', 'e', 'm', '_'] from rfl]
  rfl

theorem genId_ne_empty (h : Nat) : generateId h ≠ "" := by
  intro hh
  have h2 := congrArg String.data hh
  rw [genId_data, show ("" : String).data = [] from rfl] at h2
  simp at h2

theorem genId_noNL (h : Nat) : noNL (generateId h) := by
  intro hc
  rw [genId_data] at hc
  simp only [List.mem_cons] at hc
  rcases hc with h1 | h1 | h1 | h1 | h1
  · exact absurd h1 (by decide)
  · exact absurd h1 (by decide)
  · exact absurd h1 (by decide)
  · exact absurd h1 (by decide)
  · exact absurd (hex8_chars h '\n' h1) (by decide)

theorem pyLower_length (s : String) :
    (pyLower s).data.length = s.data.length := by
  show (s.data.map Char.toLower).length = _
  simp

theorem genId_length (h : Nat) : (generateId h).data.length = 12 := by
  rw [genId_data, List.length_cons, List.length_cons, List.length_cons,
    List.length_cons, hex8_length]

/-- A generated id survives the scalar-conversion block as a string. -/
theorem convertScalar_genId (h : Nat) :
    convertScalar (generateId h) = .str (generateId h) := by
  have hlen1 : ¬ (pyLower (generateId h) = "true") := by
    intro hh
    have h2 := congrArg (fun s : String => s.data.length) hh
    simp only at h2
    rw [pyLower_length, genId_length] at h2
    simp at h2
  have hlen2 : ¬ (pyLower (generateId h) = "false") := by
    intro hh
    have h2 := congrArg (fun s : String => s.data.length) hh
    simp only at h2
    rw [pyLower_length, genId_length] at h2
    simp at h2
  have hdig : isDigitFiltered (generateId h) = false := by
    unfold isDigitFiltered
    rw [genId_data, List.filter_cons_of_pos (by decide)]
    show (!(('m' :: List.filter _ _).isEmpty)
      && ('m' :: List.filter _ _).all pyIsDigit) = false
    rw [List.all_cons, show pyIsDigit 'm' = false from by decide,
      Bool.false_and, Bool.and_false]
  unfold convertScalar
  rw [if_neg (by
      intro hcond
      rw [decide_eq_false hlen1, decide_eq_false hlen2] at hcond
      simp at hcond),
    if_neg (by rw [hdig]; simp)]

theorem digit_notdotdash (c : Char) (h : pyIsDigit c = true) :
    (decide (c ≠ '.') && decide (c ≠ '-')) = true := by
  rw [Bool.and_eq_true]
  refine ⟨?_, ?_⟩ <;> rw [decide_eq_true_eq] <;> intro hh <;>
    rw [hh] at h <;> exact absurd h (by decide)

theorem pyParseInt_intStr (n : Int) :
    ∃ m, pyParseInt (intStr n) = some m := by
  have hall : ∀ k : Nat, allDigits (natStr k).data = true := by
    intro k
    unfold allDigits
    rw [Bool.and_eq_true]
    refine ⟨?_, ?_⟩
    · cases hd : (natStr k).data with
      | nil => exact absurd (congrArg String.mk hd) (natStr_ne_empty k)
      | cons a t => simp
    · rw [List.all_eq_true]
      exact natStr_chars k
  unfold pyParseInt
  split
  · rename_i ds hds
    cases n with
    | ofNat k =>
      exfalso
      have hm : '-' ∈ (intStr (Int.ofNat k)).data := by
        rw [hds]
        exact List.mem_cons_self _ _
      exact absurd (natStr_chars k '-' hm) (by decide)
    | negSucc k =>
      have hds2 : ('-' :: (natStr (k + 1)).data : List Char)
          = '-' :: ds := by
        rw [← hds]
        show (("-" ++ natStr (k + 1) : String)).data = _
        rw [String.data_append]
        rfl
      have hds3 : ds = (natStr (k + 1)).data :=
        ((List.cons.injEq _ _ _ _).mp hds2).2.symm
      rw [if_pos (by rw [hds3]; exact hall (k + 1))]
      exact ⟨_, rfl⟩
  · rename_i hno
    cases n with
    | negSucc k =>
      exfalso
      exact hno (natStr (k + 1)).data (by
        show (("-" ++ natStr (k + 1) : String)).data = _
        rw [String.data_append]
        rfl)
    | ofNat k =>
      rw [if_pos (show allDigits (intStr (Int.ofNat k)).data = true
        from hall k)]
      exact ⟨_, rfl⟩

/-- A written integer scalar reads back as some integer. -/
theorem convertScalar_intStr (n : Int) :
    ∃ m, convertScalar (intStr n) = .int m := by
  obtain ⟨m, hp⟩ := pyParseInt_intStr n
  have h1 : ¬ (pyLower (intStr n) = "true") := by
    intro hh
    have hmem : 't' ∈ (pyLower (intStr n)).data := by
      rw [hh]
      decide
    obtain ⟨c, hc, hce⟩ := List.mem_map.mp hmem
    rcases intStr_chars n c hc with h3 | h3
    · rw [h3] at hce
      exact absurd hce (by decide)
    · rw [digit_toLower c h3] at hce
      rw [hce] at h3
      exact absurd h3 (by decide)
  have h2 : ¬ (pyLower (intStr n) = "false") := by
    intro hh
    have hmem : 'f' ∈ (pyLower (intStr n)).data := by
      rw [hh]
      decide
    obtain ⟨c, hc, hce⟩ := List.mem_map.mp hmem
    rcases intStr_chars n c hc with h3 | h3
    · rw [h3] at hce
      exact absurd hce (by decide)
    · rw [digit_toLower c h3] at hce
      rw [hce] at h3
      exact absurd h3 (by decide)
  have h3 : isDigitFiltered (intStr n) = true := by
    unfold isDigitFiltered
    have hfilt : ∀ k : Nat, (natStr k).data.filter
        (fun c => c ≠ '.' && c ≠ '-') = (natStr k).data := by
      intro k
      apply List.filter_eq_self.mpr
      intro c hc
      exact digit_notdotdash c (natStr_chars k c hc)
    cases n with
    | ofNat k =>
      rw [show (intStr (Int.ofNat k)).data = (natStr k).data from rfl,
        hfilt k]
      unfold allDigits
      rw [Bool.and_eq_true]
      refine ⟨?_, ?_⟩
      · cases hd : (natStr k).data with
        | nil =>
          exact absurd (congrArg String.mk hd) (natStr_ne_empty k)
        | cons a t => simp
      · rw [List.all_eq_true]
        exact natStr_chars k
    | negSucc k =>
      rw [show (intStr (Int.negSucc k)).data
          = '-' :: (natStr (k + 1)).data from by
        show (("-" ++ natStr (k + 1) : String)).data = _
        rw [String.data_append]
        rfl]
      rw [List.filter_cons_of_neg (by decide), hfilt (k + 1)]
      unfold allDigits
      rw [Bool.and_eq_true]
      refine ⟨?_, ?_⟩
      · cases hd : (natStr (k + 1)).data with
        | nil =>
          exact absurd (congrArg String.mk hd)
            (natStr_ne_empty (k + 1))
        | cons a t => simp
      · rw [List.all_eq_true]
        exact natStr_chars (k + 1)
  have h4 : containsSub ['.'] (intStr n).data = false := by
    apply containsSub_single_false
    intro hmem
    rcases intStr_chars n '.' hmem with h5 | h5
    · exact absurd h5 (by decide)
    · exact absurd h5 (by decide)
  unfold convertScalar
  rw [if_neg (by
      intro hcond
      rw [decide_eq_false h1, decide_eq_false h2] at hcond
      simp at hcond),
    if_pos h3, h4]
  rw [if_neg (by simp), hp]
  exact ⟨m, rfl⟩

/-- The dict `create(topic, content)` builds (default tags and
difficulty). -/
def createData (mid topic content now : String) (sc : Int) :
    MemoryData :=
  [("id", .str mid), ("topic", .str topic), ("tags", .list []),
   ("phase", .int 0), ("difficulty", .float (clamp01 (1/2))),
   ("created_at", .str now), ("created_session", .int sc),
   ("content", .str content)]

/-- C8 (amended): for every topic and content where the topic (and the
timestamp) is a single-line non-empty string that the YAML scalar
conversion leaves as a string (not a boolean/number/empty literal),
`create(topic, content)` returns an id of the form `mem_` plus 8 hex
characters, indexes the record at phase 0 with its difficulty clamped
to [0,1], and `read(id)` returns the same topic and the content up to
surrounding-whitespace trim; `update(id, content=X)` then `read(id)`
yields X up to trim. -/
theorem claim_C8 (s : StoreState)
    (topic content X now now2 now3 mid : String) (s1 : StoreState)
    (idEntropy : Nat)
    (hcreate : MemoryStore.create s topic content [] (1/2) idEntropy now
      = (mid, s1))
    (htNL : noNL topic) (htNE : topic ≠ "")
    (htConv : convertScalar topic = .str topic)
    (hnNL : noNL now) (hnNE : now ≠ "")
    (hnConv : convertScalar now = .str now) :
    (∃ t, mid = "mem_" ++ t ∧ t.data.length = 8
      ∧ ∀ c ∈ t.data, (pyIsDigit c || ('a' ≤ c && c ≤ 'f')) = true)
    ∧ dget s1.index mid = some ⟨topic, [], 0, clamp01 (1/2), now⟩
    ∧ 0 ≤ clamp01 (1/2) ∧ clamp01 (1/2) ≤ 1
    ∧ (∃ md s2, MemoryStore.read s1 mid true now2 = .ok (md, s2)
        ∧ dget md "topic" = some (.str topic)
        ∧ contentOf md = pyStrip content)
    ∧ (∃ s3, MemoryStore.update s1 mid { content := some X } = .ok s3
        ∧ ∃ md2 s4, MemoryStore.read s3 mid true now3 = .ok (md2, s4)
          ∧ contentOf md2 = pyStrip X) := by
  have hmid : generateId idEntropy = mid := congrArg Prod.fst hcreate
  have hs1 : ({ s with
      files := dset s.files (generateId idEntropy) (serializeMemory
        (createData (generateId idEntropy) topic content now
          s.session_count)),
      index := dset s.index (generateId idEntropy)
        ⟨topic, [], 0, clamp01 (1/2), now⟩,
      stats := dset s.stats (generateId idEntropy)
        ⟨0, now, s.session_count,
         calculate (some (clamp01 (1/2)))
           (some ⟨some 0, some s.session_count⟩) s.session_count⟩ }
      : StoreState) = s1 := congrArg Prod.snd hcreate
  have hmidNL : noNL mid := by
    rw [← hmid]
    exact genId_noNL idEntropy
  have hmidNE : mid ≠ "" := by
    rw [← hmid]
    exact genId_ne_empty idEntropy
  have hmidConv : convertScalar mid = .str mid := by
    rw [← hmid]
    exact convertScalar_genId idEntropy
  have hraw1 : dget s1.files mid = some (serializeMemory
      (createData mid topic content now s.session_count)) := by
    rw [← hs1, ← hmid]
    exact dget_dset_self _ _ _
  have hidx1 : dget s1.index mid
      = some ⟨topic, [], 0, clamp01 (1/2), now⟩ := by
    rw [← hs1, ← hmid]
    exact dget_dset_self _ _ _
  have hsafe1 : lineSafe
      (createData mid topic content now s.session_count) := by
    intro p hp hnc
    simp only [createData, List.mem_cons, List.not_mem_nil,
      or_false] at hp
    rcases hp with h | h | h | h | h | h | h | h
    · rw [h]; exact hmidNL
    · rw [h]; exact htNL
    · rw [h]; intro it hit; simp at hit
    · rw [h]; trivial
    · rw [h]; trivial
    · rw [h]; exact hnNL
    · rw [h]; trivial
    · rw [h] at hnc; exact absurd rfl hnc
  have hfl1 : fieldLines
      (createData mid topic content now s.session_count) ≠ [] :=
    fieldLines_ne_nil _ "id" (.str mid) (by decide)
      (by with_unfolding_all rfl)
  have hparse1 := parse_serialize _ hsafe1 hfl1
  have hcont1 : contentOf
      (createData mid topic content now s.session_count) = content := by
    with_unfolding_all rfl
  have hflcd : fieldLines
      (createData mid topic content now s.session_count)
      = ["id" ++ ": \"" ++ mid ++ "\"",
         "topic" ++ ": \"" ++ topic ++ "\"",
         "tags" ++ ":",
         "phase" ++ ": " ++ "0",
         "difficulty" ++ ": " ++ "0.5",
         "created_at" ++ ": \"" ++ now ++ "\"",
         "created_session" ++ ": " ++ intStr s.session_count] := by
    with_unfolding_all rfl
  obtain ⟨mm, hmm⟩ := convertScalar_intStr s.session_count
  have hP : parseSimpleYaml (pyJoin "\n" (fieldLines
      (createData mid topic content now s.session_count)))
      = [("id", .str mid), ("topic", .str topic),
         ("tags", .list []), ("phase", .int 0),
         ("difficulty", .float (1/2)),
         ("created_at", .str now),
         ("created_session", .int mm)] := by
    rw [hflcd, parseYamlSeven mid topic now s.session_count
      hmidNL hmidNE htNL htNE hnNL hnNE, hmidConv, htConv, hnConv, hmm]
  rw [hP, hcont1] at hparse1
  have hdget_diff : difficultyArg (parseMemoryFile (serializeMemory
      (createData mid topic content now s.session_count)))
      = .ok (some (1/2)) := by
    rw [hparse1]
    unfold difficultyArg
    rw [dget_dset_ne _ _ _ _ (by decide),
      show dget [("id", YamlValue.str mid), ("topic", .str topic),
        ("tags", .list []), ("phase", .int 0),
        ("difficulty", .float (1/2)), ("created_at", .str now),
        ("created_session", .int mm)] "difficulty"
        = some (.float (1/2)) from by with_unfolding_all rfl]
  obtain ⟨s2, hread1⟩ := read_update_ok s1 mid _ now2 (some (1/2))
    hraw1 hdget_diff
  refine ⟨⟨hex8 idEntropy, by rw [← hmid]; rfl,
      hex8_length idEntropy, hex8_chars idEntropy⟩,
    hidx1, clamp01_nonneg _, clamp01_le_one _, ?_, ?_⟩
  · refine ⟨_, s2, hread1, ?_, ?_⟩
    · rw [hparse1, dget_dset_ne _ _ _ _ (by decide)]
      with_unfolding_all rfl
    · rw [hparse1]
      exact contentOf_dset_content _ _
  · have hupd := update_content_eq s1 mid _ X
      ⟨topic, [], 0, clamp01 (1/2), now⟩ hraw1 hidx1
    refine ⟨_, hupd, ?_⟩
    have hsafe2 : lineSafe (dset (parseMemoryFile (serializeMemory
        (createData mid topic content now s.session_count)))
        "content" (.str X)) :=
      lineSafe_dset_content _ _ (lineSafe_parse _)
    have hphase2 : dget (dset (parseMemoryFile (serializeMemory
        (createData mid topic content now s.session_count)))
        "content" (.str X)) "phase" = some (.int 0) := by
      rw [dget_dset_ne _ _ _ _ (by decide), hparse1,
        dget_dset_ne _ _ _ _ (by decide)]
      with_unfolding_all rfl
    have hfl2 : fieldLines (dset (parseMemoryFile (serializeMemory
        (createData mid topic content now s.session_count)))
        "content" (.str X)) ≠ [] :=
      fieldLines_ne_nil _ "phase" (.int 0) (by decide) hphase2
    have hparse2 := parse_serialize _ hsafe2 hfl2
    have hcont2 : contentOf (dset (parseMemoryFile (serializeMemory
        (createData mid topic content now s.session_count)))
        "content" (.str X)) = X := contentOf_dset_content _ _
    obtain ⟨mm2, hmm2⟩ := convertScalar_intStr mm
    have hfl2eq : fieldLines (dset (parseMemoryFile (serializeMemory
        (createData mid topic content now s.session_count)))
        "content" (.str X))
        = ["id" ++ ": \"" ++ mid ++ "\"",
           "topic" ++ ": \"" ++ topic ++ "\"",
           "tags" ++ ":",
           "phase" ++ ": " ++ "0",
           "difficulty" ++ ": " ++ "0.5",
           "created_at" ++ ": \"" ++ now ++ "\"",
           "created_session" ++ ": " ++ intStr mm] := by
      rw [fieldLines_dset_content, hparse1, fieldLines_dset_content]
      with_unfolding_all rfl
    have hQ2 : parseSimpleYaml (pyJoin "\n" (fieldLines
        (dset (parseMemoryFile (serializeMemory
          (createData mid topic content now s.session_count)))
          "content" (.str X))))
        = [("id", .str mid), ("topic", .str topic),
           ("tags", .list []), ("phase", .int 0),
           ("difficulty", .float (1/2)),
           ("created_at", .str now),
           ("created_session", .int mm2)] := by
      rw [hfl2eq, parseYamlSeven mid topic now mm
        hmidNL hmidNE htNL htNE hnNL hnNE, hmidConv, htConv, hnConv,
        hmm2]
    rw [hQ2, hcont2] at hparse2
    have hdiff2 : difficultyArg (parseMemoryFile (serializeMemory
        (dset (parseMemoryFile (serializeMemory
          (createData mid topic content now s.session_count)))
          "content" (.str X)))) = .ok (some (1/2)) := by
      rw [hparse2]
      unfold difficultyArg
      rw [dget_dset_ne _ _ _ _ (by decide),
        show dget [("id", YamlValue.str mid), ("topic", .str topic),
          ("tags", .list []), ("phase", .int 0),
          ("difficulty", .float (1/2)), ("created_at", .str now),
          ("created_session", .int mm2)] "difficulty"
          = some (.float (1/2)) from by with_unfolding_all rfl]
    obtain ⟨s4, hread2⟩ := read_update_ok
      { s1 with
        files := dset s1.files mid (serializeMemory (dset (parseMemoryFile (serializeMemory (createData mid topic content now s.session_count))) "content" (.str X))),
        index := dset s1.index mid ⟨topic, [], 0, clamp01 (1/2), now⟩ }
      mid _ now3 (some (1/2)) (dget_dset_self _ _ _) hdiff2
    refine ⟨_, s4, hread2, ?_⟩
    rw [hparse2]
    exact contentOf_dset_content _ _

/-- Empty store for the C8 counterexample and witness. -/
def c8Base : StoreState := ⟨[], [], [], [], 0⟩

set_option maxRecDepth 40000 in
/-- C8 counterexample: creating with topic `"7"` and reading back
yields the integer 7, not the string `"7"` — the round trip does not
return an equal topic for a numeric-looking topic, refuting the
claim's unconditional "returns an equal topic". -/
theorem claim_C8_counterexample :
    (MemoryStore.read (MemoryStore.create c8Base "7" "C" [] (1/2) 0
        "T").2 (MemoryStore.create c8Base "7" "C" [] (1/2) 0 "T").1
        true "T").map (fun p => dget p.1 "topic")
      = .ok (some (.int 7))
    ∧ YamlValue.int 7 ≠ YamlValue.str "7" := by
  refine ⟨?_, by decide⟩
  with_unfolding_all rfl

set_option maxRecDepth 40000 in
/-- C8 witness: the amended round trip at concrete inputs (topic
`"alpha"`, content `"C"`, then an update to `" new "`). -/
theorem claim_C8_witness :
    (∃ t, (MemoryStore.create c8Base "alpha" "C" [] (1/2) 0 "T").1
        = "mem_" ++ t
      ∧ t.data.length = 8
      ∧ ∀ c ∈ t.data, (pyIsDigit c || ('a' ≤ c && c ≤ 'f')) = true)
    ∧ dget (MemoryStore.create c8Base "alpha" "C" [] (1/2) 0
        "T").2.index
        (MemoryStore.create c8Base "alpha" "C" [] (1/2) 0 "T").1
      = some ⟨"alpha", [], 0, clamp01 (1/2), "T"⟩
    ∧ 0 ≤ clamp01 (1/2) ∧ clamp01 (1/2) ≤ 1
    ∧ (∃ md s2, MemoryStore.read
          (MemoryStore.create c8Base "alpha" "C" [] (1/2) 0 "T").2
          (MemoryStore.create c8Base "alpha" "C" [] (1/2) 0 "T").1
          true "T2" = .ok (md, s2)
        ∧ dget md "topic" = some (.str "alpha")
        ∧ contentOf md = pyStrip "C")
    ∧ (∃ s3, MemoryStore.update
          (MemoryStore.create c8Base "alpha" "C" [] (1/2) 0 "T").2
          (MemoryStore.create c8Base "alpha" "C" [] (1/2) 0 "T").1
          { content := some " new " } = .ok s3
        ∧ ∃ md2 s4, MemoryStore.read s3
            (MemoryStore.create c8Base "alpha" "C" [] (1/2) 0 "T").1
            true "T3" = .ok (md2, s4)
          ∧ contentOf md2 = pyStrip " new ") :=
  claim_C8 c8Base "alpha" "C" " new " "T" "T2" "T3" _ _ 0 rfl
    (by decide) (by decide) (by with_unfolding_all rfl)
    (by decide) (by decide) (by with_unfolding_all rfl)

/-! ### Claim C5: hint reduction (corrected) -/

/-- The suffix of `s` after the first occurrence of `sep`, when `sep`
occurs. -/
def afterFirst (sep s : String) : Option String :=
  match pySplit sep s with
  | _ :: rest => if rest.isEmpty then none else some (pyJoin sep rest)
  | [] => none

/-- The claim's branch condition, as stated: the content contains a
`"## Summary"` section followed (later in the text) by a
`"## Content"` section. -/
def summaryThenContent (content : String) : Bool :=
  match afterFirst "## Summary" content with
  | some suffix => pyContains "## Content" suffix
  | none => false

/-- The hint reduction exactly as the claim words it: when a Summary
section is followed by a Content section, keep only the Summary
portion (from its marker up to the Content marker) plus the reduction
marker; otherwise truncate to `hint_max_chars` with ellipsis-plus-
marker only on actual truncation. -/
def hintSpec (hint_max_chars : Nat) (content : String) : String :=
  if summaryThenContent content then
    pyStrip ("## Summary"
        ++ (pySplit "## Content"
              ((afterFirst "## Summary" content).getD "")).headD "")
      ++ reductionMarker
  else
    if pyLen content > hint_max_chars then
      pyTake hint_max_chars content ++ "..." ++ reductionMarker
    else content

/-- C5 counterexample: `"## Summary abc"` with `hint_max_chars = 5`
contains `"## Summary"` but no `"## Content"` section, so the claim
prescribes the truncation branch; the code instead keeps the whole
(un-truncated) content plus the marker, because it only tests
`"## Summary" in content`. -/
theorem claim_C5_counterexample :
    reduceHintContent 5 "## Summary abc"
        = "## Summary abc" ++ reductionMarker
    ∧ hintSpec 5 "## Summary abc" = "## Su" ++ "..." ++ reductionMarker
    ∧ reduceHintContent 5 "## Summary abc" ≠ hintSpec 5 "## Summary abc" := by
  refine ⟨by with_unfolding_all rfl, by with_unfolding_all rfl, ?_⟩
  with_unfolding_all decide

/-- The hint reduction as the code actually behaves (the amended
claim): `"## Summary"` anywhere selects the summary branch — keep the
text before the first `"## Content"` occurrence (the whole content
when there is none), stripped, plus the marker, with no length bound;
otherwise truncate as before. -/
def hintAmended (hint_max_chars : Nat) (content : String) : String :=
  if pyContains "## Summary" content then
    pyStrip ((pySplit "## Content" content).headD "") ++ reductionMarker
  else
    if pyLen content > hint_max_chars then
      pyTake hint_max_chars content ++ "..." ++ reductionMarker
    else content

/-- C5 (amended): the code's `_reduce_to_hint` content transformation
equals the amended description on every content string and limit. -/
theorem claim_C5 (hint_max_chars : Nat) (content : String) :
    reduceHintContent hint_max_chars content
      = hintAmended hint_max_chars content := by
  unfold reduceHintContent hintAmended
  split
  · rfl
  · split
    · rfl
    · unfold pyTake
      rename_i hlen
      have hle : content.data.length ≤ hint_max_chars := by
        unfold pyLen at hlen
        omega
      rw [List.take_of_length_le hle]

/-- Witness for C10. -/
theorem claim_C10_witness :
    (MemoryStore.read c10Good "mem_y" true "t").isOk = true
    ∧ (dget c10GoodAfter.stats "mem_y").isSome = true :=
  ⟨(claim_C10 c10Good "mem_y" "t" "---\ndifficulty: 0.5\n---\nbody"
      (by with_unfolding_all rfl) c10_diff_ne).2.1,
   (claim_C10 c10Good "mem_y" "t" "---\ndifficulty: 0.5\n---\nbody"
      (by with_unfolding_all rfl) c10_diff_ne).2.2
     c10GoodMd c10GoodAfter (by with_unfolding_all rfl)⟩

end LTM
